import Mathlib

/-!
Shallow embedding of the cellular-automaton cores of the repository:
the day-11 seating automaton (`Eleven`) and the day-17 3D/4D life
automaton (`Seventeen`), with theorems checking the specification's
claims against these embeddings.
-/

/-- `usize` is 64 bits wide on the source's target platform. -/

def USIZE : Nat := 2 ^ 64

/-- `usize::wrapping_add` where the addend is an `isize` cast to `usize`:
two's-complement wrap-around, i.e. addition modulo `2 ^ 64`. -/
def wrapAdd (a : Nat) (d : Int) : Nat :=
  (((a : Int) + d) % (USIZE : Int)).toNat

namespace Eleven

/-- Cell states of the seating automaton (source `enum Cell`). -/
inductive Cell where
  | EmptySeat
  | OccupiedSeat
  | Floor
deriving DecidableEq, Repr

/-- Source `struct Position { x: usize, y: usize }`. -/
structure Position where
  x : Nat
  y : Nat
deriving DecidableEq, Repr

/-- Source `struct Vector { x: isize, y: isize }`. -/
structure Vector where
  x : Int
  y : Int
deriving DecidableEq, Repr

/-- `Position += Vector` (source `AddAssign`): coordinatewise wrapping add. -/
def Position.addV (p : Position) (v : Vector) : Position :=
  ⟨wrapAdd p.x v.x, wrapAdd p.y v.y⟩

/-- Source `struct Row(Vec<Cell>)`. -/
abbrev Row := List Cell

/-- Source `struct Board { rows: Vec<Row> }`. -/
structure Board where
  rows : List Row
deriving DecidableEq, Repr

/-- Source `Board::is_position_valid`. -/
def Board.is_position_valid (b : Board) (p : Position) : Bool :=
  decide (p.y < b.rows.length) && decide (p.x < (b.rows.getD p.y []).length)

/-- Source `Board::get_cell` (`rows[y].0[x]`); the default is irrelevant,
the engine only reads cells whose position passed `is_position_valid`. -/
def Board.get_cell (b : Board) (p : Position) : Cell :=
  (b.rows.getD p.y []).getD p.x Cell.Floor

/-- Source `Board::try_get_cell`. -/
def Board.try_get_cell (b : Board) (p : Position) : Option Cell :=
  if b.is_position_valid p then some (b.get_cell p) else none

/-- Source `ALL_DIRECTIONS`, in source order. -/
def ALL_DIRECTIONS : List Vector :=
  [⟨-1, -1⟩, ⟨-1, 0⟩, ⟨-1, 1⟩, ⟨0, -1⟩, ⟨0, 1⟩, ⟨1, -1⟩, ⟨1, 0⟩, ⟨1, 1⟩]

/-- Source `Board::adjacent`: step once in every direction, keep the cells
at positions that are still valid. -/
def Board.adjacent (b : Board) (p : Position) : List Cell :=
  ALL_DIRECTIONS.filterMap fun v =>
    let q := p.addV v
    if b.is_position_valid q then some (b.get_cell q) else none

/-- The inner `loop` of `Board::visible`, fuel-indexed: keep stepping by `v`
while the current position holds a valid `Floor` cell. -/
def walk (b : Board) (v : Vector) : Nat → Position → Position
  | 0, q => q
  | n + 1, q =>
    if b.try_get_cell q = some Cell.Floor then walk b v n (q.addV v) else q

/-- The longest row length of a board (fuel bound for `walk`). -/
def maxWidth (b : Board) : Nat :=
  b.rows.foldr (fun r m => max r.length m) 0

/-- Fuel that provably suffices for `walk` to reach the loop's exit. -/
def walkFuel (b : Board) : Nat := b.rows.length + maxWidth b + 2

/-- One direction's contribution in `Board::visible`: walk outward from
`p + v`, then report the cell reached if its position is valid. -/
def Board.visibleDir (b : Board) (p : Position) (v : Vector) : Option Cell :=
  let q := walk b v (walkFuel b) (p.addV v)
  if b.is_position_valid q then some (b.get_cell q) else none

/-- Source `Board::visible`. -/
def Board.visible (b : Board) (p : Position) : List Cell :=
  ALL_DIRECTIONS.filterMap fun v => b.visibleDir p v

/-- Source `Board::cells`: row-major flattening. -/
def Board.cells (b : Board) : List Cell := b.rows.flatten

/-- Source `Board::positioned_cells`: enumerate the flattened cells and
recover positions with `i % row_width` / `i / row_width`, where
`row_width` is the length of row 0. -/
def Board.positioned_cells (b : Board) : List (Position × Cell) :=
  b.cells.enum.map fun ic =>
    (⟨ic.1 % (b.rows.headD []).length, ic.1 / (b.rows.headD []).length⟩, ic.2)

/-- Source `Board::set_cell`. -/
def Board.set_cell (b : Board) (p : Position) (c : Cell) : Board :=
  ⟨b.rows.set p.y ((b.rows.getD p.y []).set p.x c)⟩

/-- Source `Board::apply_changes`: write the collected changes in order. -/
def Board.apply_changes (b : Board) (changes : List (Position × Cell)) : Board :=
  changes.foldl (fun acc pc => acc.set_cell pc.1 pc.2) b

/-- The guarded match arms of `Board::tick`: `some next` when a rule fires,
`none` when the cell is left unchanged. -/
def tickRule (cell : Cell) (occupied : Nat) : Option Cell :=
  match cell with
  | Cell.EmptySeat => if occupied = 0 then some Cell.OccupiedSeat else none
  | Cell.OccupiedSeat => if 4 ≤ occupied then some Cell.EmptySeat else none
  | Cell.Floor => none

/-- The guarded match arms of `Board::tick2` (threshold 5, visible policy). -/
def tick2Rule (cell : Cell) (occupied : Nat) : Option Cell :=
  match cell with
  | Cell.EmptySeat => if occupied = 0 then some Cell.OccupiedSeat else none
  | Cell.OccupiedSeat => if 5 ≤ occupied then some Cell.EmptySeat else none
  | Cell.Floor => none

/-- Generic generation scan shared by `tick` and `tick2`: collect the change
list from the pre-generation snapshot, then apply it. -/
def Board.tickWith (b : Board) (nbr : Board → Position → List Cell)
    (rule : Cell → Nat → Option Cell) : Board :=
  b.apply_changes <| b.positioned_cells.filterMap fun pc =>
    let occupied := (nbr b pc.1).count Cell.OccupiedSeat
    (rule pc.2 occupied).map fun c => (pc.1, c)

/-- Source `Board::tick` (adjacent policy, threshold 4). -/
def Board.tick (b : Board) : Board :=
  b.tickWith Board.adjacent tickRule

/-- Source `Board::tick2` (visible policy, threshold 5). -/
def Board.tick2 (b : Board) : Board :=
  b.tickWith Board.visible tick2Rule

/-- Source `Board::count_occupied_seats`. -/
def Board.count_occupied_seats (b : Board) : Nat :=
  b.cells.count Cell.OccupiedSeat

/-- The loop of `run_board`, fuel-indexed: `none` means the loop has not
terminated within `fuel` iterations. -/
def runBoardAux (tickF : Board → Board) : Nat → Board → Nat → Option Nat
  | 0, _, _ => none
  | fuel + 1, b, last =>
    let b2 := tickF b
    let occ := b2.count_occupied_seats
    if last = occ then some last else runBoardAux tickF fuel b2 occ

/-- Source `run_board`: tick until the occupied count stops changing and
report that count. -/
def run_board (tickF : Board → Board) (fuel : Nat) (b : Board) : Option Nat :=
  runBoardAux tickF fuel b b.count_occupied_seats

/-- Source `enum Error` (`Parse` is the only constructor the parser uses). -/
inductive Error where
  | Parse (msg : String)
deriving DecidableEq, Repr

/-- Source `impl FromStr for Cell` (day 11). -/
def Cell.from_str (input : String) : Except Error Cell :=
  if input = "L" then Except.ok Cell.EmptySeat
  else if input = "#" then Except.ok Cell.OccupiedSeat
  else if input = "." then Except.ok Cell.Floor
  else Except.error (Error.Parse ("invalid Cell " ++ input))

/-- Source `parse_chars` at `T = Cell`: first parse error aborts. -/
def parse_chars : List Char → Except Error (List Cell)
  | [] => Except.ok []
  | c :: rest =>
    match Cell.from_str c.toString with
    | Except.error e => Except.error e
    | Except.ok cell =>
      match parse_chars rest with
      | Except.error e => Except.error e
      | Except.ok cells => Except.ok (cell :: cells)

/-- Source `parse_lines` at `T = Row`: first parse error aborts. -/
def parse_lines : List String → Except Error (List Row)
  | [] => Except.ok []
  | line :: rest =>
    match parse_chars line.data with
    | Except.error e => Except.error e
    | Except.ok row =>
      match parse_lines rest with
      | Except.error e => Except.error e
      | Except.ok rows => Except.ok (row :: rows)

/-- Row-0 width of a board (the `row_width` of `positioned_cells`). -/
def Board.width (b : Board) : Nat := (b.rows.headD []).length

/-- A board is rectangular when every row has the row-0 width. -/
def Board.rect (b : Board) : Prop := ∀ r ∈ b.rows, r.length = b.width

instance (b : Board) : Decidable b.rect := by
  unfold Board.rect; infer_instance

/-- Spec-side synchronous transition: every cell is mapped through the rule
applied to the snapshot's neighbor count, with no intermediate writes. -/
def Board.syncNext (b : Board) (nbr : Board → Position → List Cell)
    (rule : Cell → Nat → Option Cell) : Board :=
  ⟨b.rows.mapIdx fun y row => row.mapIdx fun x c =>
    (rule c ((nbr b ⟨x, y⟩).count Cell.OccupiedSeat)).getD c⟩

/-- The change list collected by a generation scan. -/
def Board.changesWith (b : Board) (nbr : Board → Position → List Cell)
    (rule : Cell → Nat → Option Cell) : List (Position × Cell) :=
  b.positioned_cells.filterMap fun pc =>
    (rule pc.2 ((nbr b pc.1).count Cell.OccupiedSeat)).map fun c => (pc.1, c)

end Eleven

namespace Seventeen

/-- Cell states of the life automaton (source day-17 `enum Cell`). -/
inductive Cell where
  | Active
  | Inactive
deriving DecidableEq, Repr

/-- Source day-17 `struct Position { x, y, z, w: usize }`. -/
structure Position where
  x : Nat
  y : Nat
  z : Nat
  w : Nat
deriving DecidableEq, Repr

/-- Source day-17 `struct Vector { x, y, z, w: isize }`. -/
structure Vector where
  x : Int
  y : Int
  z : Int
  w : Int
deriving DecidableEq, Repr

def Position.new_x (x : Nat) : Position := ⟨x, 0, 0, 0⟩

def Position.with_y (p : Position) (y : Nat) : Position := { p with y := y }

def Position.with_z (p : Position) (z : Nat) : Position := { p with z := z }

def Position.with_w (p : Position) (w : Nat) : Position := { p with w := w }

def Vector.new_x_y (x y : Int) : Vector := ⟨x, y, 0, 0⟩

def Vector.new_z (z : Int) : Vector := ⟨0, 0, z, 0⟩

def Vector.new_w (w : Int) : Vector := ⟨0, 0, 0, w⟩

def Vector.with_z (v : Vector) (z : Int) : Vector := { v with z := z }

def Vector.with_w (v : Vector) (w : Int) : Vector := { v with w := w }

/-- `Position += Vector` (source day-17 `AddAssign`): wrapping add in
every coordinate. -/
def Position.addV (p : Position) (v : Vector) : Position :=
  ⟨wrapAdd p.x v.x, wrapAdd p.y v.y, wrapAdd p.z v.z, wrapAdd p.w v.w⟩

/-- Source day-17 `struct Row(Vec<Cell>)`. -/
abbrev Row := List Cell

/-- Source `Row::new`: all-Inactive row. -/
def Row.new (width : Nat) : Row := List.replicate width Cell.Inactive

/-- Source `Row::get_cell`. -/
def Row.get_cell (r : Row) (p : Position) : Cell := r.getD p.x Cell.Inactive

/-- Source `Row::set_cell`. -/
def Row.set_cell (r : Row) (p : Position) (c : Cell) : Row := r.set p.x c

/-- Source `Row::is_position_valid`. -/
def Row.is_position_valid (r : Row) (p : Position) : Bool := decide (p.x < r.length)

/-- Source `Row::positioned_cells`. -/
def Row.positioned_cells (r : Row) : List (Position × Cell) :=
  r.enum.map fun xc => (Position.new_x xc.1, xc.2)

/-- Source `Row::grow`: one Inactive cell at each end. -/
def Row.grow (r : Row) : Row := Cell.Inactive :: r ++ [Cell.Inactive]

/-- Source `struct Plane { rows: Vec<Row> }`. -/
structure Plane where
  rows : List Row
deriving DecidableEq, Repr

/-- Source `Plane::new`: `height` all-Inactive rows of length `width`. -/
def Plane.new (width height : Nat) : Plane :=
  ⟨List.replicate height (Row.new width)⟩

/-- Source `Plane::with_rows`. -/
def Plane.with_rows (rows : List Row) : Plane := ⟨rows⟩

/-- Source `Plane::width` (`rows[0].width()`). -/
def Plane.width (pl : Plane) : Nat := (pl.rows.headD []).length

/-- Source `Plane::height`. -/
def Plane.height (pl : Plane) : Nat := pl.rows.length

/-- Source `Plane::get_cell`. -/
def Plane.get_cell (pl : Plane) (p : Position) : Cell :=
  Row.get_cell (pl.rows.getD p.y []) p

/-- Source `Plane::set_cell`. -/
def Plane.set_cell (pl : Plane) (p : Position) (c : Cell) : Plane :=
  ⟨pl.rows.set p.y (Row.set_cell (pl.rows.getD p.y []) p c)⟩

/-- Source `Plane::is_position_valid`. -/
def Plane.is_position_valid (pl : Plane) (p : Position) : Bool :=
  decide (p.y < pl.height) && Row.is_position_valid (pl.rows.getD p.y []) p

/-- Source `Plane::cells`. -/
def Plane.cells (pl : Plane) : List Cell := pl.rows.flatten

/-- Source `Plane::positioned_cells`. -/
def Plane.positioned_cells (pl : Plane) : List (Position × Cell) :=
  (pl.rows.enum.map fun yr =>
    (Row.positioned_cells yr.2).map fun pc => (pc.1.with_y yr.1, pc.2)).flatten

/-- Source `Plane::grow`: grow every row, then prepend and append a fresh
all-Inactive row of the grown width. -/
def Plane.grow (pl : Plane) : Plane :=
  let grown := pl.rows.map Row.grow
  let w := (grown.headD []).length
  ⟨Row.new w :: grown ++ [Row.new w]⟩

/-- Source `struct Space { planes: Vec<Plane> }`. -/
structure Space where
  planes : List Plane
deriving DecidableEq, Repr

/-- Source `all_2d_directions`: y outer, x inner, skipping the zero vector. -/
def all_2d_directions : List Vector :=
  ([-1, 0, 1] : List Int).flatMap fun y =>
    ([-1, 0, 1] : List Int).filterMap fun x =>
      if x = 0 ∧ y = 0 then none else some (Vector.new_x_y x y)

/-- Source `all_3d_directions`. -/
def all_3d_directions : List Vector :=
  ([-1, 0, 1] : List Int).flatMap fun z =>
    (all_2d_directions.map fun v => v.with_z z)
      ++ (if z ≠ 0 then [Vector.new_z z] else [])

/-- Source `all_4d_directions`. -/
def all_4d_directions : List Vector :=
  ([-1, 0, 1] : List Int).flatMap fun w =>
    (all_3d_directions.map fun v => v.with_w w)
      ++ (if w ≠ 0 then [Vector.new_w w] else [])

def Space.with_planes (planes : List Plane) : Space := ⟨planes⟩

/-- Source `Space::new`. -/
def Space.new (width height depth : Nat) : Space :=
  ⟨List.replicate depth (Plane.new width height)⟩

/-- Source `Space::width`. -/
def Space.width (s : Space) : Nat := (s.planes.headD (Plane.with_rows [])).width

/-- Source `Space::height`. -/
def Space.height (s : Space) : Nat := (s.planes.headD (Plane.with_rows [])).height

/-- Source `Space::depth`. -/
def Space.depth (s : Space) : Nat := s.planes.length

/-- Source `Space::get_cell`. -/
def Space.get_cell (s : Space) (p : Position) : Cell :=
  (s.planes.getD p.z (Plane.with_rows [])).get_cell p

/-- Source `Space::is_position_valid`. -/
def Space.is_position_valid (s : Space) (p : Position) : Bool :=
  decide (p.z < s.planes.length)
    && (s.planes.getD p.z (Plane.with_rows [])).is_position_valid p

/-- Source `Space::adjacent`: all 26 3D directions, valid positions only. -/
def Space.adjacent (s : Space) (p : Position) : List Cell :=
  all_3d_directions.filterMap fun v =>
    let q := p.addV v
    if s.is_position_valid q then some (s.get_cell q) else none

/-- Source `Space::cells`. -/
def Space.cells (s : Space) : List Cell := (s.planes.map Plane.cells).flatten

/-- Source `Space::positioned_cells`. -/
def Space.positioned_cells (s : Space) : List (Position × Cell) :=
  (s.planes.enum.map fun zp =>
    zp.2.positioned_cells.map fun pc => (pc.1.with_z zp.1, pc.2)).flatten

/-- Source `Space::set_cell`. -/
def Space.set_cell (s : Space) (p : Position) (c : Cell) : Space :=
  ⟨s.planes.set p.z ((s.planes.getD p.z (Plane.with_rows [])).set_cell p c)⟩

/-- Source `Space::apply_changes`. -/
def Space.apply_changes (s : Space) (changes : List (Position × Cell)) : Space :=
  changes.foldl (fun acc pc => acc.set_cell pc.1 pc.2) s

/-- Source `Space::grow`: grow every plane, then pad with fresh planes of
the grown width and height at both ends. -/
def Space.grow (s : Space) : Space :=
  let grown := s.planes.map Plane.grow
  let w := (grown.headD (Plane.with_rows [])).width
  let h := (grown.headD (Plane.with_rows [])).height
  ⟨Plane.new w h :: grown ++ [Plane.new w h]⟩

/-- The guarded match arms shared by `Space::tick` and `HyperSpace::tick`. -/
def lifeRule (cell : Cell) (active_neighbors : Nat) : Option Cell :=
  match cell with
  | Cell.Active =>
    if active_neighbors < 2 ∨ active_neighbors > 3 then some Cell.Inactive else none
  | Cell.Inactive => if active_neighbors = 3 then some Cell.Active else none

/-- Source `Space::tick`: grow first, then scan the snapshot, then apply. -/
def Space.tick (s : Space) : Space :=
  let g := s.grow
  g.apply_changes <| g.positioned_cells.filterMap fun pc =>
    (lifeRule pc.2 ((g.adjacent pc.1).count Cell.Active)).map fun c => (pc.1, c)

/-- Source `Space::count_active`. -/
def Space.count_active (s : Space) : Nat := s.cells.count Cell.Active

/-- Source `struct HyperSpace { spaces: Vec<Space> }`. -/
structure HyperSpace where
  spaces : List Space
deriving DecidableEq, Repr

def HyperSpace.with_spaces (spaces : List Space) : HyperSpace := ⟨spaces⟩

/-- Source `HyperSpace::get_cell`. -/
def HyperSpace.get_cell (h : HyperSpace) (p : Position) : Cell :=
  (h.spaces.getD p.w (Space.with_planes [])).get_cell p

/-- Source `HyperSpace::is_position_valid`. -/
def HyperSpace.is_position_valid (h : HyperSpace) (p : Position) : Bool :=
  decide (p.w < h.spaces.length)
    && (h.spaces.getD p.w (Space.with_planes [])).is_position_valid p

/-- Source `HyperSpace::adjacent`: all 80 4D directions. -/
def HyperSpace.adjacent (h : HyperSpace) (p : Position) : List Cell :=
  all_4d_directions.filterMap fun v =>
    let q := p.addV v
    if h.is_position_valid q then some (h.get_cell q) else none

/-- Source `HyperSpace::cells`. -/
def HyperSpace.cells (h : HyperSpace) : List Cell :=
  (h.spaces.map Space.cells).flatten

/-- Source `HyperSpace::positioned_cells`. -/
def HyperSpace.positioned_cells (h : HyperSpace) : List (Position × Cell) :=
  (h.spaces.enum.map fun ws =>
    ws.2.positioned_cells.map fun pc => (pc.1.with_w ws.1, pc.2)).flatten

/-- Source `HyperSpace::set_cell`. -/
def HyperSpace.set_cell (h : HyperSpace) (p : Position) (c : Cell) : HyperSpace :=
  ⟨h.spaces.set p.w ((h.spaces.getD p.w (Space.with_planes [])).set_cell p c)⟩

/-- Source `HyperSpace::apply_changes`. -/
def HyperSpace.apply_changes (h : HyperSpace) (changes : List (Position × Cell)) :
    HyperSpace :=
  changes.foldl (fun acc pc => acc.set_cell pc.1 pc.2) h

/-- Source `HyperSpace::grow`. -/
def HyperSpace.grow (h : HyperSpace) : HyperSpace :=
  let grown := h.spaces.map Space.grow
  let w := (grown.headD (Space.with_planes [])).width
  let ht := (grown.headD (Space.with_planes [])).height
  let d := (grown.headD (Space.with_planes [])).depth
  ⟨Space.new w ht d :: grown ++ [Space.new w ht d]⟩

/-- Source `HyperSpace::tick`: grow first, then scan the snapshot, apply. -/
def HyperSpace.tick (h : HyperSpace) : HyperSpace :=
  let g := h.grow
  g.apply_changes <| g.positioned_cells.filterMap fun pc =>
    (lifeRule pc.2 ((g.adjacent pc.1).count Cell.Active)).map fun c => (pc.1, c)

/-- Source `HyperSpace::count_active`. -/
def HyperSpace.count_active (h : HyperSpace) : Nat := h.cells.count Cell.Active

/-- The `for _ in 0..n` tick loop of the drivers. -/
def iterTick {α : Type} (tickF : α → α) : Nat → α → α
  | 0, s => s
  | n + 1, s => iterTick tickF n (tickF s)

/-- Source `run_space`: embed the 2D pattern as a single plane, tick 6
times, report the active count. -/
def run_space (rows : List Row) : Nat :=
  (iterTick Space.tick 6 (Space.with_planes [Plane.with_rows rows])).count_active

/-- Source `run_hyperspace`. -/
def run_hyperspace (rows : List Row) : Nat :=
  (iterTick HyperSpace.tick 6
    (HyperSpace.with_spaces [Space.with_planes [Plane.with_rows rows]])).count_active

/-- Source day-17 `enum Error`. -/
inductive Error where
  | Parse (msg : String)
deriving DecidableEq, Repr

/-- Source day-17 `impl FromStr for Cell`. -/
def Cell.from_str (input : String) : Except Error Cell :=
  if input = "#" then Except.ok Cell.Active
  else if input = "." then Except.ok Cell.Inactive
  else Except.error (Error.Parse ("invalid Cell " ++ input))

end Seventeen

namespace Eleven

/-- The day-11 character set. -/
def validChar (c : Char) : Prop := c = 'L' ∨ c = '#' ∨ c = '.'

instance (c : Char) : Decidable (validChar c) := by
  unfold validChar
  infer_instance

end Eleven

namespace Seventeen

/-- Rectangularity of a `Space` with explicit dimensions: every plane has
`H` rows of length `W`. -/
def SpaceRectD (s : Space) (W H : Nat) : Prop :=
  ∀ pl ∈ s.planes, pl.rows.length = H ∧ ∀ r ∈ pl.rows, r.length = W

/-- Rectangularity of a `HyperSpace` with explicit dimensions. -/
def HyperRectD (hs : HyperSpace) (W H D : Nat) : Prop :=
  ∀ sp ∈ hs.spaces, sp.planes.length = D
    ∧ ∀ pl ∈ sp.planes, pl.rows.length = H ∧ ∀ r ∈ pl.rows, r.length = W

end Seventeen

instance (s : Seventeen.Space) (W H : Nat) : Decidable (Seventeen.SpaceRectD s W H) := by
  unfold Seventeen.SpaceRectD
  infer_instance

instance (hs : Seventeen.HyperSpace) (W H D : Nat) :
    Decidable (Seventeen.HyperRectD hs W H D) := by
  unfold Seventeen.HyperRectD
  infer_instance

namespace Eleven

/-- `k`-fold step by `v` (wrapping), matching the walk's direction. -/
def stepN (v : Vector) : Nat → Position → Position
  | 0, q => q
  | k + 1, q => stepN v k (q.addV v)

/-- Loop-variant of the `visible` walk: distance to the boundary along the
moving coordinate. -/
def walkMeasure (b : Board) (v : Vector) (q : Position) : Nat :=
  if v.y = 1 then b.rows.length - q.y
  else if v.y = -1 then q.y + 1
  else if v.x = 1 then maxWidth b - q.x
  else q.x + 1

end Eleven

namespace Seventeen

/-- The change list collected inside `Space::tick` (after the grow). -/
def Space.changes (s : Space) : List (Position × Cell) :=
  s.positioned_cells.filterMap fun pc =>
    (lifeRule pc.2 ((s.adjacent pc.1).count Cell.Active)).map fun c => (pc.1, c)

/-- The change list collected inside `HyperSpace::tick` (after the grow). -/
def HyperSpace.changes (hs : HyperSpace) : List (Position × Cell) :=
  hs.positioned_cells.filterMap fun pc =>
    (lifeRule pc.2 ((hs.adjacent pc.1).count Cell.Active)).map fun c => (pc.1, c)

/-- Spec-side synchronous transition of a 3D generation scan. -/
def Space.syncNext (s : Space) : Space :=
  ⟨s.planes.mapIdx fun z pl =>
    Plane.with_rows (pl.rows.mapIdx fun y r =>
      r.mapIdx fun x c =>
        (lifeRule c ((s.adjacent ⟨x, y, z, 0⟩).count Cell.Active)).getD c)⟩

/-- Spec-side synchronous transition of a 4D generation scan. -/
def HyperSpace.syncNext (hs : HyperSpace) : HyperSpace :=
  ⟨hs.spaces.mapIdx fun w sp =>
    Space.with_planes (sp.planes.mapIdx fun z pl =>
      Plane.with_rows (pl.rows.mapIdx fun y r =>
        r.mapIdx fun x c =>
          (lifeRule c ((hs.adjacent ⟨x, y, z, w⟩).count Cell.Active)).getD c))⟩

end Seventeen

theorem USIZE_pos : 0 < USIZE := by norm_num [USIZE]

theorem wrapAdd_lt (a : Nat) (d : Int) : wrapAdd a d < USIZE := by
  unfold wrapAdd
  have hpos : (0 : Int) < (USIZE : Int) := by exact_mod_cast USIZE_pos
  have h1 := Int.emod_lt_of_pos ((a : Int) + d) hpos
  have h2 := Int.emod_nonneg ((a : Int) + d) (by omega : (USIZE : Int) ≠ 0)
  omega

theorem wrapAdd_eq_of_bounds (a : Nat) (d : Int) (h0 : 0 ≤ (a : Int) + d)
    (h1 : (a : Int) + d < (USIZE : Int)) : (wrapAdd a d : Int) = (a : Int) + d := by
  unfold wrapAdd
  rw [Int.emod_eq_of_lt h0 h1]
  omega

theorem wrapAdd_zero {a : Nat} (h : a < USIZE) : wrapAdd a 0 = a := by
  have := wrapAdd_eq_of_bounds a 0 (by omega) (by omega)
  omega

theorem wrapAdd_one {a : Nat} (h : a + 1 < USIZE) : wrapAdd a 1 = a + 1 := by
  have h2 : ((a : Int) + 1) < (USIZE : Int) := by exact_mod_cast h
  have := wrapAdd_eq_of_bounds a 1 (by omega) h2
  omega

theorem wrapAdd_neg_one {a : Nat} (h1 : 1 ≤ a) (h2 : a < USIZE) :
    wrapAdd a (-1) = a - 1 := by
  have ha : (1 : Int) ≤ (a : Int) := by exact_mod_cast h1
  have hb : (a : Int) < (USIZE : Int) := by exact_mod_cast h2
  have := wrapAdd_eq_of_bounds a (-1) (by omega) (by omega)
  omega

theorem wrapAdd_zero_neg_one : wrapAdd 0 (-1) = USIZE - 1 := by
  have hU : USIZE = 18446744073709551616 := by norm_num [USIZE]
  unfold wrapAdd
  rw [hU]
  simp only [Nat.cast_zero]
  omega

/-- `List.set` then `getD`, resolved by index comparison. -/
theorem getD_set {α : Type} (l : List α) (i j : Nat) (a d : α) :
    (l.set i a).getD j d = if j = i ∧ i < l.length then a else l.getD j d := by
  simp only [List.getD_eq_getElem?_getD, List.getElem?_set]
  by_cases h : j = i
  · subst h
    by_cases h2 : j < l.length
    · simp [h2]
    · simp [h2, List.getElem?_eq_none (by omega : l.length ≤ j)]
  · rw [if_neg (fun hc => h hc.symm), if_neg (fun hc => h hc.1)]

theorem getD_eq_getElem {α : Type} (l : List α) (i : Nat) (d : α) (h : i < l.length) :
    l.getD i d = l[i] := by
  simp [List.getD_eq_getElem?_getD, List.getElem?_eq_getElem h]

theorem enumFrom_append {α : Type} (xs : List α) :
    ∀ (ys : List α) (n : Nat),
      (xs ++ ys).enumFrom n = xs.enumFrom n ++ ys.enumFrom (n + xs.length) := by
  induction xs with
  | nil => intro ys n; simp
  | cons a rest ih =>
    intro ys n
    rw [List.cons_append, List.enumFrom_cons, ih ys (n + 1), List.enumFrom_cons]
    simp only [List.cons_append, List.length_cons]
    rw [(by omega : n + 1 + rest.length = n + (rest.length + 1))]

namespace Eleven

theorem Position.ext_xy {p q : Position} (hx : p.x = q.x) (hy : p.y = q.y) : p = q := by
  cases p
  cases q
  simp_all

theorem set_cell_rows_length (b : Board) (p : Position) (c : Cell) :
    (b.set_cell p c).rows.length = b.rows.length := by
  simp [Board.set_cell]

theorem set_cell_row_length (b : Board) (p : Position) (c : Cell) (y : Nat) :
    ((b.set_cell p c).rows.getD y []).length = (b.rows.getD y []).length := by
  show ((b.rows.set p.y ((b.rows.getD p.y []).set p.x c)).getD y []).length = _
  rw [getD_set]
  by_cases h : y = p.y ∧ p.y < b.rows.length
  · rw [if_pos h, List.length_set, h.1]
  · rw [if_neg h]

theorem set_cell_valid (b : Board) (p q : Position) (c : Cell) :
    (b.set_cell q c).is_position_valid p = b.is_position_valid p := by
  simp only [Board.is_position_valid, set_cell_rows_length, set_cell_row_length]

theorem get_cell_set_cell (b : Board) (p q : Position) (c : Cell)
    (hq : b.is_position_valid q) :
    (b.set_cell q c).get_cell p = if p = q then c else b.get_cell p := by
  simp only [Board.is_position_valid, Bool.and_eq_true, decide_eq_true_eq] at hq
  show ((b.rows.set q.y ((b.rows.getD q.y []).set q.x c)).getD p.y []).getD p.x Cell.Floor = _
  rw [getD_set]
  by_cases hy : p.y = q.y
  · rw [if_pos ⟨hy, hq.1⟩, getD_set]
    by_cases hx : p.x = q.x
    · rw [if_pos ⟨hx, hq.2⟩, if_pos (Position.ext_xy hx hy)]
    · rw [if_neg (fun hc => hx hc.1), if_neg (fun hc => hx (congrArg Position.x hc))]
      unfold Board.get_cell
      rw [hy]
  · rw [if_neg (fun hc => hy hc.1), if_neg (fun hc => hy (congrArg Position.y hc))]
    rfl

theorem apply_changes_cons (b : Board) (e : Position × Cell)
    (rest : List (Position × Cell)) :
    b.apply_changes (e :: rest) = (b.set_cell e.1 e.2).apply_changes rest := rfl

theorem apply_changes_rows_length (ch : List (Position × Cell)) :
    ∀ b : Board, (b.apply_changes ch).rows.length = b.rows.length := by
  induction ch with
  | nil => intro b; rfl
  | cons e rest ih =>
    intro b
    rw [apply_changes_cons, ih, set_cell_rows_length]

theorem apply_changes_row_length (ch : List (Position × Cell)) :
    ∀ (b : Board) (y : Nat),
      ((b.apply_changes ch).rows.getD y []).length = (b.rows.getD y []).length := by
  induction ch with
  | nil => intro b y; rfl
  | cons e rest ih =>
    intro b y
    rw [apply_changes_cons, ih, set_cell_row_length]

theorem apply_changes_valid (ch : List (Position × Cell)) (b : Board) (p : Position) :
    (b.apply_changes ch).is_position_valid p = b.is_position_valid p := by
  simp only [Board.is_position_valid, apply_changes_rows_length, apply_changes_row_length]

theorem get_cell_apply_changes (F : Position → Cell) (ch : List (Position × Cell)) :
    ∀ b : Board, (∀ e ∈ ch, b.is_position_valid e.1 ∧ e.2 = F e.1) →
      ∀ p, (b.apply_changes ch).get_cell p =
        if p ∈ ch.map Prod.fst then F p else b.get_cell p := by
  induction ch with
  | nil =>
    intro b _ p
    simp [Board.apply_changes]
  | cons e rest ih =>
    intro b hb p
    have he := hb e (List.mem_cons_self e rest)
    have hrest : ∀ e2 ∈ rest, (b.set_cell e.1 e.2).is_position_valid e2.1 ∧ e2.2 = F e2.1 := by
      intro e2 h2
      rw [set_cell_valid]
      exact hb e2 (List.mem_cons_of_mem e h2)
    rw [apply_changes_cons, ih (b.set_cell e.1 e.2) hrest p]
    by_cases hmem : p ∈ rest.map Prod.fst
    · rw [if_pos hmem, if_pos (by simp only [List.map_cons, List.mem_cons]; exact Or.inr hmem)]
    · rw [if_neg hmem, get_cell_set_cell b p e.1 e.2 he.1]
      by_cases hpe : p = e.1
      · rw [if_pos hpe, if_pos (by simp only [List.map_cons, List.mem_cons]; exact Or.inl hpe),
          he.2, hpe]
      · rw [if_neg hpe, if_neg]
        intro hc
        rcases List.mem_cons.mp (by simpa only [List.map_cons] using hc) with h | h
        · exact hpe h
        · exact hmem h

theorem enumFrom_row_map (w k : Nat) (r : Row) (hr : r.length = w) :
    (r.enumFrom (k * w)).map
        (fun ic => ((⟨ic.1 % w, ic.1 / w⟩ : Position), ic.2))
      = r.enum.map fun xc => ((⟨xc.1, k⟩ : Position), xc.2) := by
  rcases Nat.eq_zero_or_pos w with hw | hw
  · have : r = [] := List.eq_nil_of_length_eq_zero (hw ▸ hr)
    subst this
    rfl
  · apply List.ext_getElem
    · simp [List.enum_eq_enumFrom]
    · intro i h1 h2
      simp only [List.length_map, List.enumFrom_length] at h1
      simp only [List.getElem_map, List.getElem_enumFrom, List.enum_eq_enumFrom]
      have hi : i < w := by omega
      have hmod : (k * w + i) % w = i := by
        rw [Nat.add_comm, Nat.add_mul_mod_self_right]
        exact Nat.mod_eq_of_lt hi
      have hdiv : (k * w + i) / w = k := by
        rw [Nat.add_comm, Nat.add_mul_div_right _ _ hw, Nat.div_eq_of_lt hi]
        omega
      simp [hmod, hdiv]

theorem board_eq_of_rows {b1 b2 : Board} (h : b1.rows = b2.rows) : b1 = b2 := by
  cases b1
  cases b2
  simp_all

/-- On rows of width `w`, the `% w` / `/ w` index arithmetic of
`positioned_cells` recovers the per-row enumeration. -/
theorem positioned_cells_aux (w : Nat) (rows : List Row) :
    ∀ k : Nat, (∀ r ∈ rows, r.length = w) →
      (rows.flatten.enumFrom (k * w)).map
          (fun ic => ((⟨ic.1 % w, ic.1 / w⟩ : Position), ic.2))
        = ((rows.enumFrom k).map fun yr =>
            yr.2.enum.map fun xc => ((⟨xc.1, yr.1⟩ : Position), xc.2)).flatten := by
  induction rows with
  | nil => intro k _; rfl
  | cons r rest ih =>
    intro k hw
    have hr : r.length = w := hw r (List.mem_cons_self r rest)
    rw [List.flatten_cons, enumFrom_append, List.map_append, List.enumFrom_cons,
      List.map_cons, List.flatten_cons]
    congr 1
    · exact enumFrom_row_map w k r hr
    · rw [hr, (by ring : k * w + w = (k + 1) * w)]
      exact ih (k + 1) (fun r2 h2 => hw r2 (List.mem_cons_of_mem r h2))

theorem positioned_cells_eq (b : Board) (hrect : b.rect) :
    b.positioned_cells
      = ((b.rows.enum).map fun yr =>
          yr.2.enum.map fun xc => ((⟨xc.1, yr.1⟩ : Position), xc.2)).flatten := by
  have h := positioned_cells_aux b.width b.rows 0 hrect
  rw [Nat.zero_mul] at h
  exact h

theorem mem_row_enum_map (r : Row) (y : Nat) (p : Position) (c : Cell) :
    (p, c) ∈ (r.enum.map fun xc => ((⟨xc.1, y⟩ : Position), xc.2))
      ↔ p.y = y ∧ p.x < r.length ∧ c = r.getD p.x Cell.Floor := by
  rw [List.mem_iff_getElem]
  constructor
  · rintro ⟨i, hi, he⟩
    simp only [List.length_map, List.enum_eq_enumFrom, List.enumFrom_length] at hi
    simp only [List.getElem_map, List.enum_eq_enumFrom, List.getElem_enumFrom] at he
    have hp : p = (⟨0 + i, y⟩ : Position) := (congrArg Prod.fst he).symm
    have hc : c = r[i] := (congrArg Prod.snd he).symm
    subst hp
    subst hc
    refine ⟨rfl, by simpa using hi, ?_⟩
    have hx : (0 + i : Nat) = i := by omega
    rw [hx, getD_eq_getElem r i Cell.Floor hi]
  · rintro ⟨hy, hx, hc⟩
    refine ⟨p.x, by simpa [List.enum_eq_enumFrom] using hx, ?_⟩
    simp only [List.getElem_map, List.enum_eq_enumFrom, List.getElem_enumFrom]
    have h1 : ((⟨0 + p.x, y⟩ : Position)) = p :=
      Position.ext_xy (by show 0 + p.x = p.x; omega) hy.symm
    rw [h1, hc, getD_eq_getElem r p.x Cell.Floor hx]

theorem mem_positioned_cells (b : Board) (hrect : b.rect) (p : Position) (c : Cell) :
    (p, c) ∈ b.positioned_cells ↔ b.is_position_valid p ∧ c = b.get_cell p := by
  rw [positioned_cells_eq b hrect, List.mem_flatten]
  constructor
  · rintro ⟨inner, hinner, hmem⟩
    rw [List.mem_map] at hinner
    obtain ⟨yr, hyr, hf⟩ := hinner
    rw [List.mem_iff_getElem] at hyr
    obtain ⟨j, hj, hget⟩ := hyr
    simp only [List.enum_eq_enumFrom, List.enumFrom_length] at hj
    simp only [List.enum_eq_enumFrom, List.getElem_enumFrom] at hget
    subst hf
    rw [← hget] at hmem
    rw [mem_row_enum_map] at hmem
    obtain ⟨hy, hx, hc⟩ := hmem
    have hy0 : p.y = j := by omega
    constructor
    · simp only [Board.is_position_valid, Bool.and_eq_true, decide_eq_true_eq]
      refine ⟨by omega, ?_⟩
      rw [hy0, getD_eq_getElem b.rows j [] hj]
      exact hx
    · show c = (b.rows.getD p.y []).getD p.x Cell.Floor
      rw [hy0, getD_eq_getElem b.rows j [] hj]
      exact hc
  · rintro ⟨hvalid, hc⟩
    simp only [Board.is_position_valid, Bool.and_eq_true, decide_eq_true_eq] at hvalid
    obtain ⟨hv1, hv2⟩ := hvalid
    refine ⟨(b.rows[p.y]).enum.map
      fun xc => ((⟨xc.1, 0 + p.y⟩ : Position), xc.2), ?_, ?_⟩
    · rw [List.mem_map]
      refine ⟨(0 + p.y, b.rows[p.y]), ?_, rfl⟩
      rw [List.mem_iff_getElem]
      exact ⟨p.y, by simpa [List.enum_eq_enumFrom] using hv1,
        by simp [List.enum_eq_enumFrom, List.getElem_enumFrom]⟩
    · rw [mem_row_enum_map]
      refine ⟨by omega, ?_, ?_⟩
      · rw [← getD_eq_getElem b.rows p.y [] hv1]
        exact hv2
      · rw [hc]
        show (b.rows.getD p.y []).getD p.x Cell.Floor = _
        exact congrArg (fun l => List.getD l p.x Cell.Floor)
          (getD_eq_getElem b.rows p.y [] hv1)

theorem tickWith_def (b : Board) (nbr : Board → Position → List Cell)
    (rule : Cell → Nat → Option Cell) :
    b.tickWith nbr rule = b.apply_changes (b.changesWith nbr rule) := rfl

theorem mem_changesWith (b : Board) (hrect : b.rect) (nbr : Board → Position → List Cell)
    (rule : Cell → Nat → Option Cell) (e : Position × Cell) :
    e ∈ b.changesWith nbr rule ↔
      b.is_position_valid e.1 ∧
        rule (b.get_cell e.1) ((nbr b e.1).count Cell.OccupiedSeat) = some e.2 := by
  unfold Board.changesWith
  rw [List.mem_filterMap]
  constructor
  · rintro ⟨pc, hpc, hmap⟩
    rw [Option.map_eq_some'] at hmap
    obtain ⟨c, hrule, he⟩ := hmap
    have hmem := (mem_positioned_cells b hrect pc.1 pc.2).mp (by rw [Prod.mk.eta]; exact hpc)
    rw [← he]
    rw [hmem.2] at hrule
    exact ⟨hmem.1, hrule⟩
  · rintro ⟨hval, hrule⟩
    obtain ⟨p1, c1⟩ := e
    refine ⟨(p1, b.get_cell p1),
      (mem_positioned_cells b hrect p1 (b.get_cell p1)).mpr ⟨hval, rfl⟩, ?_⟩
    rw [Option.map_eq_some']
    exact ⟨c1, hrule, rfl⟩

theorem get_cell_eq_getElem (b : Board) (x y : Nat) (hy : y < b.rows.length)
    (hx : x < b.rows[y].length) :
    b.get_cell ⟨x, y⟩ = b.rows[y][x] := by
  show (b.rows.getD y []).getD x Cell.Floor = _
  rw [congrArg (fun l => List.getD l x Cell.Floor) (getD_eq_getElem b.rows y [] hy)]
  exact getD_eq_getElem _ x Cell.Floor hx

/-- Core lemma: a generation scan over the snapshot followed by the batch
apply equals the spec's synchronous transition, for any neighbor policy and
any rule, on rectangular boards. -/
theorem tickWith_eq_sync (b : Board) (hrect : b.rect)
    (nbr : Board → Position → List Cell) (rule : Cell → Nat → Option Cell) :
    b.tickWith nbr rule = b.syncNext nbr rule := by
  have hch : ∀ e ∈ b.changesWith nbr rule,
      b.is_position_valid e.1 ∧
        e.2 = (fun p => (rule (b.get_cell p) ((nbr b p).count Cell.OccupiedSeat)).getD
          (b.get_cell p)) e.1 := by
    intro e he
    obtain ⟨hval, hrule⟩ := (mem_changesWith b hrect nbr rule e).mp he
    refine ⟨hval, ?_⟩
    show e.2 = (rule (b.get_cell e.1) ((nbr b e.1).count Cell.OccupiedSeat)).getD
      (b.get_cell e.1)
    rw [hrule]
    rfl
  have hget := get_cell_apply_changes
    (fun p => (rule (b.get_cell p) ((nbr b p).count Cell.OccupiedSeat)).getD (b.get_cell p))
    (b.changesWith nbr rule) b hch
  have hpt : ∀ p : Position, b.is_position_valid p →
      (b.tickWith nbr rule).get_cell p
        = (rule (b.get_cell p) ((nbr b p).count Cell.OccupiedSeat)).getD (b.get_cell p) := by
    intro p hval
    rw [tickWith_def, hget p]
    by_cases hmem : p ∈ (b.changesWith nbr rule).map Prod.fst
    · rw [if_pos hmem]
    · rw [if_neg hmem]
      cases hr : rule (b.get_cell p) ((nbr b p).count Cell.OccupiedSeat) with
      | none => rfl
      | some c =>
        exfalso
        apply hmem
        rw [List.mem_map]
        exact ⟨(p, c), (mem_changesWith b hrect nbr rule (p, c)).mpr ⟨hval, hr⟩, rfl⟩
  have hlen : (b.tickWith nbr rule).rows.length = b.rows.length := by
    rw [tickWith_def]
    exact apply_changes_rows_length _ b
  have hrowlen : ∀ y, ((b.tickWith nbr rule).rows.getD y []).length
      = (b.rows.getD y []).length := by
    intro y
    rw [tickWith_def]
    exact apply_changes_row_length _ b y
  apply board_eq_of_rows
  apply List.ext_getElem
  · rw [hlen]
    simp [Board.syncNext]
  · intro y hy1 hy2
    apply List.ext_getElem
    · have hby : y < b.rows.length := by rw [hlen] at hy1; exact hy1
      rw [← getD_eq_getElem (b.tickWith nbr rule).rows y [] hy1, hrowlen y,
        getD_eq_getElem b.rows y [] hby]
      simp [Board.syncNext, List.getElem_mapIdx]
    · intro x hx1 hx2
      have hby : y < b.rows.length := by rw [hlen] at hy1; exact hy1
      have hbx : x < b.rows[y].length := by
        have := hx2
        simp only [Board.syncNext, List.getElem_mapIdx, List.length_mapIdx] at this
        exact this
      have hvalid : b.is_position_valid ⟨x, y⟩ := by
        simp only [Board.is_position_valid, Bool.and_eq_true, decide_eq_true_eq]
        refine ⟨hby, ?_⟩
        rw [getD_eq_getElem b.rows y [] hby]
        exact hbx
      rw [← get_cell_eq_getElem (b.tickWith nbr rule) x y hy1 hx1,
        hpt ⟨x, y⟩ hvalid, get_cell_eq_getElem b x y hby hbx]
      simp only [Board.syncNext, List.getElem_mapIdx]

end Eleven

/-- C2: the per-cell transition functions match the spec's table row by row:
seating EmptySeat occupies iff the count is 0 (both policies); OccupiedSeat
empties iff count ≥ 4 (adjacent policy) resp. ≥ 5 (visible policy); life
Active deactivates iff count < 2 or > 3; Inactive activates iff count = 3;
Floor never changes; every combination not matching a table row yields no
change (the rule returns `none`, so the scan leaves the cell unchanged). -/
theorem C2_transition_rule_table : ∀ n : Nat,
    (Eleven.tickRule Eleven.Cell.EmptySeat n = some Eleven.Cell.OccupiedSeat ↔ n = 0)
    ∧ (Eleven.tick2Rule Eleven.Cell.EmptySeat n = some Eleven.Cell.OccupiedSeat ↔ n = 0)
    ∧ (Eleven.tickRule Eleven.Cell.OccupiedSeat n = some Eleven.Cell.EmptySeat ↔ 4 ≤ n)
    ∧ (Eleven.tick2Rule Eleven.Cell.OccupiedSeat n = some Eleven.Cell.EmptySeat ↔ 5 ≤ n)
    ∧ (Seventeen.lifeRule Seventeen.Cell.Active n = some Seventeen.Cell.Inactive
        ↔ (n < 2 ∨ 3 < n))
    ∧ (Seventeen.lifeRule Seventeen.Cell.Inactive n = some Seventeen.Cell.Active ↔ n = 3)
    ∧ Eleven.tickRule Eleven.Cell.Floor n = none
    ∧ Eleven.tick2Rule Eleven.Cell.Floor n = none
    ∧ (n ≠ 0 → Eleven.tickRule Eleven.Cell.EmptySeat n = none
        ∧ Eleven.tick2Rule Eleven.Cell.EmptySeat n = none)
    ∧ (n < 4 → Eleven.tickRule Eleven.Cell.OccupiedSeat n = none)
    ∧ (n < 5 → Eleven.tick2Rule Eleven.Cell.OccupiedSeat n = none)
    ∧ (2 ≤ n → n ≤ 3 → Seventeen.lifeRule Seventeen.Cell.Active n = none)
    ∧ (n ≠ 3 → Seventeen.lifeRule Seventeen.Cell.Inactive n = none) := by
  intro n
  refine ⟨?_, ?_, ?_, ?_, ?_, ?_, rfl, rfl, ?_, ?_, ?_, ?_, ?_⟩ <;>
    simp only [Eleven.tickRule, Eleven.tick2Rule, Seventeen.lifeRule]
  · by_cases h : n = 0 <;> simp [h]
  · by_cases h : n = 0 <;> simp [h]
  · by_cases h : 4 ≤ n <;> simp [h]
  · by_cases h : 5 ≤ n <;> simp [h]
  · by_cases h : n < 2 ∨ n > 3 <;> simp [h]
  · by_cases h : n = 3 <;> simp [h]
  · intro h
    rw [if_neg h]
    exact ⟨rfl, rfl⟩
  · intro h
    rw [if_neg (by omega : ¬ 4 ≤ n)]
  · intro h
    rw [if_neg (by omega : ¬ 5 ≤ n)]
  · intro h1 h2
    rw [if_neg (by omega : ¬ (n < 2 ∨ n > 3))]
  · intro h
    rw [if_neg h]

/-- Witness for C2 at concrete counts, discharging the conditional rows. -/
theorem C2_transition_rule_table_witness :
    Eleven.tickRule Eleven.Cell.EmptySeat 2 = none
    ∧ Eleven.tickRule Eleven.Cell.OccupiedSeat 2 = none
    ∧ Eleven.tick2Rule Eleven.Cell.OccupiedSeat 4 = none
    ∧ Seventeen.lifeRule Seventeen.Cell.Active 2 = none
    ∧ Seventeen.lifeRule Seventeen.Cell.Inactive 2 = none :=
  ⟨((C2_transition_rule_table 2).2.2.2.2.2.2.2.2.1 (by decide)).1,
   (C2_transition_rule_table 2).2.2.2.2.2.2.2.2.2.1 (by decide),
   (C2_transition_rule_table 4).2.2.2.2.2.2.2.2.2.2.1 (by decide),
   (C2_transition_rule_table 2).2.2.2.2.2.2.2.2.2.2.2.1 (by decide) (by decide),
   (C2_transition_rule_table 2).2.2.2.2.2.2.2.2.2.2.2.2 (by decide)⟩

namespace Eleven

theorem runBoardAux_spec (tickF : Board → Board) (r : Nat) :
    ∀ (fuel : Nat) (b : Board),
      (runBoardAux tickF fuel b b.count_occupied_seats = some r ↔
        ∃ k, k < fuel
          ∧ (∀ j < k, (tickF^[j] b).count_occupied_seats
              ≠ (tickF^[j + 1] b).count_occupied_seats)
          ∧ (tickF^[k] b).count_occupied_seats = (tickF^[k + 1] b).count_occupied_seats
          ∧ r = (tickF^[k] b).count_occupied_seats) := by
  intro fuel
  induction fuel with
  | zero =>
    intro b
    simp [runBoardAux]
  | succ n ih =>
    intro b
    show (if b.count_occupied_seats = (tickF b).count_occupied_seats
        then some b.count_occupied_seats
        else runBoardAux tickF n (tickF b) (tickF b).count_occupied_seats) = some r ↔ _
    by_cases hstop : b.count_occupied_seats = (tickF b).count_occupied_seats
    · rw [if_pos hstop]
      constructor
      · intro h
        have hr : b.count_occupied_seats = r := Option.some.inj h
        refine ⟨0, by omega, by omega, ?_, ?_⟩
        · simpa using hstop
        · simpa using hr.symm
      · rintro ⟨k, hk, hprev, hfix, hr⟩
        have hk0 : k = 0 := by
          by_contra hne
          have h0 := hprev 0 (by omega)
          simp only [Function.iterate_zero_apply, zero_add, Function.iterate_one] at h0
          exact h0 hstop
        subst hk0
        simp only [Function.iterate_zero_apply] at hr
        rw [hr]
    · rw [if_neg hstop, ih (tickF b)]
      constructor
      · rintro ⟨k, hk, hprev, hfix, hr⟩
        refine ⟨k + 1, by omega, ?_, ?_, ?_⟩
        · intro j hj
          cases j with
          | zero =>
            simpa using hstop
          | succ i =>
            have := hprev i (by omega)
            simpa [Function.iterate_succ_apply] using this
        · simpa [Function.iterate_succ_apply] using hfix
        · simpa [Function.iterate_succ_apply] using hr
      · rintro ⟨k, hk, hprev, hfix, hr⟩
        cases k with
        | zero =>
          exfalso
          apply hstop
          simpa using hfix
        | succ k2 =>
          refine ⟨k2, by omega, ?_, ?_, ?_⟩
          · intro j hj
            have := hprev (j + 1) (by omega)
            simpa [Function.iterate_succ_apply] using this
          · simpa [Function.iterate_succ_apply] using hfix
          · simpa [Function.iterate_succ_apply] using hr

end Eleven

/-- C3: the seating driver halts (within any fuel bound) exactly when some
generation leaves the total occupied count unchanged across its transition;
it stops at the first such generation, compares only the aggregate occupied
count, and the reported result is that occupied count. -/
theorem C3_seating_driver_stops_at_first_fixed_count
    (tickF : Eleven.Board → Eleven.Board) (fuel : Nat) (b : Eleven.Board) (r : Nat) :
    Eleven.run_board tickF fuel b = some r ↔
      ∃ k, k < fuel
        ∧ (∀ j < k, (tickF^[j] b).count_occupied_seats
            ≠ (tickF^[j + 1] b).count_occupied_seats)
        ∧ (tickF^[k] b).count_occupied_seats = (tickF^[k + 1] b).count_occupied_seats
        ∧ r = (tickF^[k] b).count_occupied_seats :=
  Eleven.runBoardAux_spec tickF r fuel b

/-- Witness for C3: on the 1×1 board with one empty seat, the driver halts
with result 1, and the characterization instantiates concretely. -/
theorem C3_seating_driver_stops_at_first_fixed_count_witness :
    ∃ k, k < 3
      ∧ (∀ j < k, (Eleven.Board.tick^[j] ⟨[[Eleven.Cell.EmptySeat]]⟩).count_occupied_seats
          ≠ (Eleven.Board.tick^[j + 1] ⟨[[Eleven.Cell.EmptySeat]]⟩).count_occupied_seats)
      ∧ (Eleven.Board.tick^[k] ⟨[[Eleven.Cell.EmptySeat]]⟩).count_occupied_seats
          = (Eleven.Board.tick^[k + 1] ⟨[[Eleven.Cell.EmptySeat]]⟩).count_occupied_seats
      ∧ 1 = (Eleven.Board.tick^[k] ⟨[[Eleven.Cell.EmptySeat]]⟩).count_occupied_seats :=
  (C3_seating_driver_stops_at_first_fixed_count
    Eleven.Board.tick 3 ⟨[[Eleven.Cell.EmptySeat]]⟩ 1).mp (by decide)

namespace Eleven

theorem char_toString_inj (c d : Char) (h : c.toString = d.toString) : c = d := by
  have h2 : ([c] : List Char) = [d] := congrArg String.data h
  injection h2

theorem from_str_char_ok (c : Char) (h : validChar c) :
    ∃ cell, Cell.from_str c.toString = Except.ok cell := by
  rcases h with h | h | h <;> subst h <;> exact ⟨_, rfl⟩

theorem from_str_char_err (c : Char) (h : ¬ validChar c) :
    Cell.from_str c.toString
      = Except.error (Error.Parse ("invalid Cell " ++ c.toString)) := by
  unfold Cell.from_str
  rw [if_neg (fun hc : c.toString = "L" => h (Or.inl (char_toString_inj c 'L' hc))),
    if_neg (fun hc : c.toString = "#" => h (Or.inr (Or.inl (char_toString_inj c '#' hc)))),
    if_neg (fun hc : c.toString = "." => h (Or.inr (Or.inr (char_toString_inj c '.' hc))))]

theorem parse_chars_ok (cs : List Char) :
    (∀ c ∈ cs, validChar c) → ∃ cells, parse_chars cs = Except.ok cells := by
  induction cs with
  | nil => intro _; exact ⟨[], rfl⟩
  | cons c rest ih =>
    intro h
    obtain ⟨cell, hcell⟩ := from_str_char_ok c (h c (List.mem_cons_self c rest))
    obtain ⟨cells, hcells⟩ := ih (fun d hd => h d (List.mem_cons_of_mem c hd))
    refine ⟨cell :: cells, ?_⟩
    unfold parse_chars
    rw [hcell]
    show (match parse_chars rest with
      | Except.error e => Except.error e
      | Except.ok cells => Except.ok (cell :: cells)) = _
    rw [hcells]

theorem parse_chars_ok_length : ∀ (cs : List Char) (cells : List Cell),
    parse_chars cs = Except.ok cells → cells.length = cs.length := by
  intro cs
  induction cs with
  | nil =>
    intro cells h
    have h2 : ([] : List Cell) = cells := Except.ok.inj h
    rw [← h2]
    rfl
  | cons c rest ih =>
    intro cells h
    unfold parse_chars at h
    cases hf : Cell.from_str c.toString with
    | error e =>
      rw [hf] at h
      exact Except.noConfusion h
    | ok cell =>
      rw [hf] at h
      cases hr : parse_chars rest with
      | error e =>
        rw [hr] at h
        exact Except.noConfusion h
      | ok cells2 =>
        rw [hr] at h
        have h2 : cell :: cells2 = cells := Except.ok.inj h
        rw [← h2, List.length_cons, ih cells2 hr]
        rfl

theorem parse_chars_err (cs : List Char) :
    (∃ c ∈ cs, ¬ validChar c) →
      ∃ c, ¬ validChar c ∧ c ∈ cs
        ∧ parse_chars cs = Except.error (Error.Parse ("invalid Cell " ++ c.toString)) := by
  induction cs with
  | nil =>
    rintro ⟨c, hc, _⟩
    cases hc
  | cons c rest ih =>
    rintro ⟨d, hd, hdv⟩
    by_cases hv : validChar c
    · obtain ⟨cell, hcell⟩ := from_str_char_ok c hv
      have hrest : ∃ e ∈ rest, ¬ validChar e := by
        rcases List.mem_cons.mp hd with h | h
        · exact absurd (h ▸ hv) hdv
        · exact ⟨d, h, hdv⟩
      obtain ⟨e, hev, hemem, herr⟩ := ih hrest
      refine ⟨e, hev, List.mem_cons_of_mem c hemem, ?_⟩
      unfold parse_chars
      rw [hcell]
      show (match parse_chars rest with
        | Except.error e => Except.error e
        | Except.ok cells => Except.ok (cell :: cells)) = _
      rw [herr]
    · refine ⟨c, hv, List.mem_cons_self c rest, ?_⟩
      unfold parse_chars
      rw [from_str_char_err c hv]

theorem parse_lines_ok_spec : ∀ (lines : List String) (rows : List Row),
    parse_lines lines = Except.ok rows →
      rows.length = lines.length
      ∧ ∀ i (h1 : i < rows.length) (h2 : i < lines.length),
          rows[i].length = lines[i].data.length := by
  intro lines
  induction lines with
  | nil =>
    intro rows h
    have h2 : ([] : List Row) = rows := Except.ok.inj h
    rw [← h2]
    exact ⟨rfl, fun i h1 h2 => absurd h1 (by simp)⟩
  | cons line rest ih =>
    intro rows h
    unfold parse_lines at h
    cases hf : parse_chars line.data with
    | error e =>
      rw [hf] at h
      exact Except.noConfusion h
    | ok row =>
      rw [hf] at h
      cases hr : parse_lines rest with
      | error e =>
        rw [hr] at h
        exact Except.noConfusion h
      | ok rows2 =>
        rw [hr] at h
        have h2 : row :: rows2 = rows := Except.ok.inj h
        obtain ⟨hlen, hidx⟩ := ih rows2 hr
        rw [← h2]
        refine ⟨by simp [hlen], ?_⟩
        intro i h1 hi2
        cases i with
        | zero => exact parse_chars_ok_length line.data row hf
        | succ j =>
          simp only [List.getElem_cons_succ]
          exact hidx j (by simpa using h1) (by simpa using hi2)

theorem parse_lines_err (lines : List String) :
    (∃ line ∈ lines, ∃ c ∈ line.data, ¬ validChar c) →
      ∃ c, ¬ validChar c ∧ (∃ line ∈ lines, c ∈ line.data)
        ∧ parse_lines lines
            = Except.error (Error.Parse ("invalid Cell " ++ c.toString)) := by
  induction lines with
  | nil =>
    rintro ⟨l, hl, _⟩
    cases hl
  | cons line rest ih =>
    rintro ⟨l, hl, d, hd, hdv⟩
    by_cases hline : ∃ c ∈ line.data, ¬ validChar c
    · obtain ⟨e, hev, hemem, herr⟩ := parse_chars_err line.data hline
      refine ⟨e, hev, ⟨line, List.mem_cons_self line rest, hemem⟩, ?_⟩
      unfold parse_lines
      rw [herr]
    · have hrest : ∃ l2 ∈ rest, ∃ c ∈ l2.data, ¬ validChar c := by
        rcases List.mem_cons.mp hl with h | h
        · exact absurd ⟨d, h ▸ hd, hdv⟩ hline
        · exact ⟨l, h, d, hd, hdv⟩
      have hok : ∃ row, parse_chars line.data = Except.ok row := by
        apply parse_chars_ok
        intro c hc
        by_contra hcv
        exact hline ⟨c, hc, hcv⟩
      obtain ⟨row, hrow⟩ := hok
      obtain ⟨e, hev, ⟨l2, hl2, hemem⟩, herr⟩ := ih hrest
      refine ⟨e, hev, ⟨l2, List.mem_cons_of_mem line hl2, hemem⟩, ?_⟩
      unfold parse_lines
      rw [hrow]
      show (match parse_lines rest with
        | Except.error e => Except.error e
        | Except.ok rows => Except.ok (row :: rows)) = _
      rw [herr]

end Eleven

/-- Day-17 `Cell::from_str` on an unknown character. -/
theorem seventeen_from_str_err (c : Char) (h1 : c ≠ '#') (h2 : c ≠ '.') :
    Seventeen.Cell.from_str c.toString
      = Except.error (Seventeen.Error.Parse ("invalid Cell " ++ c.toString)) := by
  unfold Seventeen.Cell.from_str
  rw [if_neg (fun hc : c.toString = "#" => h1 (Eleven.char_toString_inj c '#' hc)),
    if_neg (fun hc : c.toString = "." => h2 (Eleven.char_toString_inj c '.' hc))]

/-- C8 counterexample: the parse error carries only the offending character,
not its row and column — the same character at row 0 / column 0 and at
row 1 / column 1 produces the identical error value, so the reported error
cannot contain the position. -/
theorem C8_counterexample_no_row_column :
    Eleven.parse_lines ["@"] = Eleven.parse_lines ["..", ".@"]
      ∧ Eleven.parse_lines ["@"] = Except.error (Eleven.Error.Parse "invalid Cell @")
      ∧ Seventeen.Cell.from_str "@"
          = Except.error (Seventeen.Error.Parse "invalid Cell @") :=
  ⟨rfl, rfl, rfl⟩

/-- C8 (amended): an input character that does not map to a known Cell
variant fails grid construction with a parse error reporting the offending
character (but not its row or column), and no partial grid is produced:
the parser returns either an error or a complete grid with one row per
line and one cell per character. -/
theorem C8_malformed_token_fails_construction :
    (∀ lines : List String,
        (∃ line ∈ lines, ∃ c ∈ line.data, ¬ Eleven.validChar c) →
          ∃ c, ¬ Eleven.validChar c ∧ (∃ line ∈ lines, c ∈ line.data)
            ∧ Eleven.parse_lines lines
                = Except.error (Eleven.Error.Parse ("invalid Cell " ++ c.toString)))
    ∧ (∀ (lines : List String) (rows : List Eleven.Row),
        Eleven.parse_lines lines = Except.ok rows →
          rows.length = lines.length
          ∧ ∀ i (h1 : i < rows.length) (h2 : i < lines.length),
              rows[i].length = lines[i].data.length)
    ∧ (∀ c : Char, c ≠ '#' → c ≠ '.' →
        Seventeen.Cell.from_str c.toString
          = Except.error (Seventeen.Error.Parse ("invalid Cell " ++ c.toString))) :=
  ⟨Eleven.parse_lines_err, Eleven.parse_lines_ok_spec, seventeen_from_str_err⟩

/-- Witness for the amended C8 on concrete inputs. -/
theorem C8_malformed_token_fails_construction_witness :
    (∃ c, ¬ Eleven.validChar c ∧ (∃ line ∈ ["L@"], c ∈ line.data)
      ∧ Eleven.parse_lines ["L@"]
          = Except.error (Eleven.Error.Parse ("invalid Cell " ++ c.toString)))
    ∧ ([[Eleven.Cell.EmptySeat, Eleven.Cell.Floor]] : List Eleven.Row).length
        = (["L."] : List String).length
    ∧ Seventeen.Cell.from_str "@"
        = Except.error (Seventeen.Error.Parse ("invalid Cell " ++ '@'.toString)) := by
  refine ⟨?_, ?_, ?_⟩
  · exact C8_malformed_token_fails_construction.1 ["L@"]
      ⟨"L@", by decide, '@', by decide, by decide⟩
  · exact (C8_malformed_token_fails_construction.2.1 ["L."]
      [[Eleven.Cell.EmptySeat, Eleven.Cell.Floor]] rfl).1
  · exact C8_malformed_token_fails_construction.2.2 '@' (by decide) (by decide)

theorem wrapAdd_lt_iff (a L : Nat) (d : Int) (h1 : -1 ≤ (a : Int) + d)
    (h2 : (a : Int) + d < (USIZE : Int)) (hL : L < USIZE) :
    (wrapAdd a d < L) ↔ (0 ≤ (a : Int) + d ∧ (a : Int) + d < (L : Int)) := by
  by_cases h0 : 0 ≤ (a : Int) + d
  · have he := wrapAdd_eq_of_bounds a d h0 h2
    omega
  · have hw : wrapAdd a d = USIZE - 1 := by
      unfold wrapAdd
      have had : (a : Int) + d = -1 := by omega
      rw [had]
      have hU : USIZE = 18446744073709551616 := by norm_num [USIZE]
      rw [hU]
      omega
    omega

namespace Eleven

theorem Board.addV_valid_iff (b : Board) (hrect : b.rect)
    (hh : b.rows.length < USIZE) (hw : b.width < USIZE)
    (p : Position) (hp : b.is_position_valid p) (v : Vector)
    (hvx : -1 ≤ v.x ∧ v.x ≤ 1) (hvy : -1 ≤ v.y ∧ v.y ≤ 1) :
    b.is_position_valid (p.addV v) = true ↔
      (0 ≤ (p.x : Int) + v.x ∧ (p.x : Int) + v.x < (b.width : Int)
        ∧ 0 ≤ (p.y : Int) + v.y ∧ (p.y : Int) + v.y < (b.rows.length : Int)) := by
  simp only [Board.is_position_valid, Position.addV, Bool.and_eq_true,
    decide_eq_true_eq] at hp ⊢
  obtain ⟨hpy, hpx⟩ := hp
  have hrow : (b.rows.getD p.y []).length = b.width := by
    rw [getD_eq_getElem b.rows p.y [] hpy]
    exact hrect _ (List.getElem_mem hpy)
  have hpxw : p.x < b.width := hrow ▸ hpx
  have hy := wrapAdd_lt_iff p.y b.rows.length v.y (by omega) (by omega) hh
  have hx := wrapAdd_lt_iff p.x b.width v.x (by omega) (by omega) hw
  constructor
  · rintro ⟨hy2, hx2⟩
    have hyint := hy.mp hy2
    have hrow2 : (b.rows.getD (wrapAdd p.y v.y) []).length = b.width := by
      rw [getD_eq_getElem b.rows _ [] hy2]
      exact hrect _ (List.getElem_mem hy2)
    rw [hrow2] at hx2
    have hxint := hx.mp hx2
    exact ⟨hxint.1, hxint.2, hyint.1, hyint.2⟩
  · rintro ⟨hx1, hx2i, hy1, hy2i⟩
    have hy2 : wrapAdd p.y v.y < b.rows.length := hy.mpr ⟨hy1, hy2i⟩
    refine ⟨hy2, ?_⟩
    have hrow2 : (b.rows.getD (wrapAdd p.y v.y) []).length = b.width := by
      rw [getD_eq_getElem b.rows _ [] hy2]
      exact hrect _ (List.getElem_mem hy2)
    rw [hrow2]
    exact hx.mpr ⟨hx1, hx2i⟩

end Eleven

theorem length_filterMap_of_all_some {α β : Type} (f : α → Option β) (l : List α)
    (h : ∀ x ∈ l, (f x).isSome) : (l.filterMap f).length = l.length := by
  induction l with
  | nil => rfl
  | cons a rest ih =>
    have ha := h a (List.mem_cons_self a rest)
    cases hf : f a with
    | none =>
      rw [hf] at ha
      exact absurd ha (by simp)
    | some b =>
      rw [List.filterMap_cons, hf, List.length_cons, List.length_cons,
        ih (fun x hx => h x (List.mem_cons_of_mem a hx))]

namespace Seventeen

theorem Space.valid_iff_of_rect3d (s : Space) (W H : Nat) (hrect : SpaceRectD s W H)
    (p : Position) :
    s.is_position_valid p = true ↔
      (p.z < s.planes.length ∧ p.y < H ∧ p.x < W) := by
  simp only [Space.is_position_valid, Plane.is_position_valid, Row.is_position_valid,
    Plane.height, Bool.and_eq_true, decide_eq_true_eq]
  constructor
  · rintro ⟨hz, hy, hx⟩
    have hmem : s.planes.getD p.z (Plane.with_rows []) ∈ s.planes := by
      rw [getD_eq_getElem s.planes p.z (Plane.with_rows []) hz]
      exact List.getElem_mem hz
    obtain ⟨hH, hW⟩ := hrect _ hmem
    refine ⟨hz, hH ▸ hy, ?_⟩
    have hrmem : (s.planes.getD p.z (Plane.with_rows [])).rows.getD p.y []
        ∈ (s.planes.getD p.z (Plane.with_rows [])).rows := by
      rw [getD_eq_getElem _ p.y [] hy]
      exact List.getElem_mem hy
    exact hW _ hrmem ▸ hx
  · rintro ⟨hz, hy, hx⟩
    have hmem : s.planes.getD p.z (Plane.with_rows []) ∈ s.planes := by
      rw [getD_eq_getElem s.planes p.z (Plane.with_rows []) hz]
      exact List.getElem_mem hz
    obtain ⟨hH, hW⟩ := hrect _ hmem
    have hy2 : p.y < (s.planes.getD p.z (Plane.with_rows [])).rows.length := hH ▸ hy
    refine ⟨hz, hy2, ?_⟩
    have hrmem : (s.planes.getD p.z (Plane.with_rows [])).rows.getD p.y []
        ∈ (s.planes.getD p.z (Plane.with_rows [])).rows := by
      rw [getD_eq_getElem _ p.y [] hy2]
      exact List.getElem_mem hy2
    exact (hW _ hrmem).symm ▸ hx

theorem HyperSpace.valid_iff_of_rect4d (hs : HyperSpace) (W H D : Nat)
    (hrect : HyperRectD hs W H D) (p : Position) :
    hs.is_position_valid p = true ↔
      (p.w < hs.spaces.length ∧ p.z < D ∧ p.y < H ∧ p.x < W) := by
  simp only [HyperSpace.is_position_valid, Bool.and_eq_true, decide_eq_true_eq]
  constructor
  · rintro ⟨hw, hval⟩
    have hmem : hs.spaces.getD p.w (Space.with_planes []) ∈ hs.spaces := by
      rw [getD_eq_getElem hs.spaces p.w (Space.with_planes []) hw]
      exact List.getElem_mem hw
    obtain ⟨hD, hrest⟩ := hrect _ hmem
    have := (Space.valid_iff_of_rect3d _ W H hrest p).mp hval
    exact ⟨hw, hD ▸ this.1, this.2.1, this.2.2⟩
  · rintro ⟨hw, hz, hy, hx⟩
    have hmem : hs.spaces.getD p.w (Space.with_planes []) ∈ hs.spaces := by
      rw [getD_eq_getElem hs.spaces p.w (Space.with_planes []) hw]
      exact List.getElem_mem hw
    obtain ⟨hD, hrest⟩ := hrect _ hmem
    refine ⟨hw, (Space.valid_iff_of_rect3d _ W H hrest p).mpr ⟨hD.symm ▸ hz, hy, hx⟩⟩

end Seventeen

namespace Eleven

theorem mem_adjacent (b : Board) (p : Position) (c : Cell) :
    c ∈ b.adjacent p ↔
      ∃ v ∈ ALL_DIRECTIONS,
        b.is_position_valid (p.addV v) ∧ b.get_cell (p.addV v) = c := by
  unfold Board.adjacent
  rw [List.mem_filterMap]
  constructor
  · rintro ⟨v, hv, hg⟩
    have hg2 : (if b.is_position_valid (p.addV v)
        then some (b.get_cell (p.addV v)) else none) = some c := hg
    by_cases hval : b.is_position_valid (p.addV v)
    · rw [if_pos hval] at hg2
      exact ⟨v, hv, hval, Option.some.inj hg2⟩
    · rw [if_neg hval] at hg2
      exact Option.noConfusion hg2
  · rintro ⟨v, hv, hval, hgc⟩
    refine ⟨v, hv, ?_⟩
    show (if b.is_position_valid (p.addV v)
        then some (b.get_cell (p.addV v)) else none) = some c
    rw [if_pos hval, hgc]

theorem mem_visible (b : Board) (p : Position) (c : Cell) :
    c ∈ b.visible p ↔ ∃ v ∈ ALL_DIRECTIONS, b.visibleDir p v = some c := by
  unfold Board.visible
  exact List.mem_filterMap

theorem visibleDir_eq_some (b : Board) (p : Position) (v : Vector) (c : Cell)
    (h : b.visibleDir p v = some c) :
    b.is_position_valid (walk b v (walkFuel b) (p.addV v))
      ∧ b.get_cell (walk b v (walkFuel b) (p.addV v)) = c := by
  have h2 : (if b.is_position_valid (walk b v (walkFuel b) (p.addV v))
      then some (b.get_cell (walk b v (walkFuel b) (p.addV v))) else none) = some c := h
  by_cases hval : b.is_position_valid (walk b v (walkFuel b) (p.addV v))
  · rw [if_pos hval] at h2
    exact ⟨hval, Option.some.inj h2⟩
  · rw [if_neg hval] at h2
    exact Option.noConfusion h2

theorem all_directions_bounds :
    ∀ v ∈ ALL_DIRECTIONS, (-1 ≤ v.x ∧ v.x ≤ 1) ∧ (-1 ≤ v.y ∧ v.y ≤ 1) := by decide

theorem adjacent_length_le (b : Board) (p : Position) :
    (b.adjacent p).length ≤ 8 := by
  unfold Board.adjacent
  exact le_trans (List.length_filterMap_le _ _) (by decide)

theorem adjacent_length_interior (b : Board) (hrect : b.rect)
    (hh : b.rows.length < USIZE) (hw : b.width < USIZE) (p : Position)
    (hx1 : 1 ≤ p.x) (hx2 : p.x + 1 < b.width)
    (hy1 : 1 ≤ p.y) (hy2 : p.y + 1 < b.rows.length) :
    (b.adjacent p).length = 8 := by
  have hp : b.is_position_valid p := by
    simp only [Board.is_position_valid, Bool.and_eq_true, decide_eq_true_eq]
    refine ⟨by omega, ?_⟩
    have hrow : (b.rows.getD p.y []).length = b.width := by
      rw [getD_eq_getElem b.rows p.y [] (by omega)]
      exact hrect _ (List.getElem_mem (by omega))
    omega
  unfold Board.adjacent
  rw [length_filterMap_of_all_some]
  · decide
  · intro v hv
    have hb := all_directions_bounds v hv
    have hval := (Board.addV_valid_iff b hrect hh hw p hp v hb.1 hb.2).mpr
      (by refine ⟨by omega, by omega, by omega, by omega⟩)
    show (if b.is_position_valid (p.addV v)
        then some (b.get_cell (p.addV v)) else none).isSome
    rw [if_pos hval]
    rfl

end Eleven

namespace Seventeen

theorem mem_space_adjacent (s : Space) (p : Position) (c : Cell) :
    c ∈ s.adjacent p ↔
      ∃ v ∈ all_3d_directions,
        s.is_position_valid (p.addV v) ∧ s.get_cell (p.addV v) = c := by
  unfold Space.adjacent
  rw [List.mem_filterMap]
  constructor
  · rintro ⟨v, hv, hg⟩
    have hg2 : (if s.is_position_valid (p.addV v)
        then some (s.get_cell (p.addV v)) else none) = some c := hg
    by_cases hval : s.is_position_valid (p.addV v)
    · rw [if_pos hval] at hg2
      exact ⟨v, hv, hval, Option.some.inj hg2⟩
    · rw [if_neg hval] at hg2
      exact Option.noConfusion hg2
  · rintro ⟨v, hv, hval, hgc⟩
    refine ⟨v, hv, ?_⟩
    show (if s.is_position_valid (p.addV v)
        then some (s.get_cell (p.addV v)) else none) = some c
    rw [if_pos hval, hgc]

theorem mem_hyper_adjacent (hs : HyperSpace) (p : Position) (c : Cell) :
    c ∈ hs.adjacent p ↔
      ∃ v ∈ all_4d_directions,
        hs.is_position_valid (p.addV v) ∧ hs.get_cell (p.addV v) = c := by
  unfold HyperSpace.adjacent
  rw [List.mem_filterMap]
  constructor
  · rintro ⟨v, hv, hg⟩
    have hg2 : (if hs.is_position_valid (p.addV v)
        then some (hs.get_cell (p.addV v)) else none) = some c := hg
    by_cases hval : hs.is_position_valid (p.addV v)
    · rw [if_pos hval] at hg2
      exact ⟨v, hv, hval, Option.some.inj hg2⟩
    · rw [if_neg hval] at hg2
      exact Option.noConfusion hg2
  · rintro ⟨v, hv, hval, hgc⟩
    refine ⟨v, hv, ?_⟩
    show (if hs.is_position_valid (p.addV v)
        then some (hs.get_cell (p.addV v)) else none) = some c
    rw [if_pos hval, hgc]

theorem all_3d_bounds :
    ∀ v ∈ all_3d_directions,
      (-1 ≤ v.x ∧ v.x ≤ 1) ∧ (-1 ≤ v.y ∧ v.y ≤ 1) ∧ (-1 ≤ v.z ∧ v.z ≤ 1)
        ∧ v.w = 0 := by decide

theorem all_4d_bounds :
    ∀ v ∈ all_4d_directions,
      (-1 ≤ v.x ∧ v.x ≤ 1) ∧ (-1 ≤ v.y ∧ v.y ≤ 1) ∧ (-1 ≤ v.z ∧ v.z ≤ 1)
        ∧ (-1 ≤ v.w ∧ v.w ≤ 1) := by decide

theorem space_adjacent_length_le (s : Space) (p : Position) :
    (s.adjacent p).length ≤ 26 := by
  unfold Space.adjacent
  exact le_trans (List.length_filterMap_le _ _) (by decide)

theorem hyper_adjacent_length_le (hs : HyperSpace) (p : Position) :
    (hs.adjacent p).length ≤ 80 := by
  unfold HyperSpace.adjacent
  exact le_trans (List.length_filterMap_le _ _) (by decide)

theorem space_adjacent_length_interior (s : Space) (W H : Nat)
    (hrect : SpaceRectD s W H) (hW : W < USIZE) (hH : H < USIZE)
    (hD : s.planes.length < USIZE) (p : Position)
    (hx1 : 1 ≤ p.x) (hx2 : p.x + 1 < W) (hy1 : 1 ≤ p.y) (hy2 : p.y + 1 < H)
    (hz1 : 1 ≤ p.z) (hz2 : p.z + 1 < s.planes.length) :
    (s.adjacent p).length = 26 := by
  unfold Space.adjacent
  rw [length_filterMap_of_all_some]
  · decide
  · intro v hv
    have hb := all_3d_bounds v hv
    have hval : s.is_position_valid (p.addV v) = true := by
      rw [Space.valid_iff_of_rect3d s W H hrect]
      refine ⟨?_, ?_, ?_⟩
      · exact (wrapAdd_lt_iff p.z s.planes.length v.z (by omega) (by omega) hD).mpr
          ⟨by omega, by omega⟩
      · exact (wrapAdd_lt_iff p.y H v.y (by omega) (by omega) hH).mpr ⟨by omega, by omega⟩
      · exact (wrapAdd_lt_iff p.x W v.x (by omega) (by omega) hW).mpr ⟨by omega, by omega⟩
    show (if s.is_position_valid (p.addV v)
        then some (s.get_cell (p.addV v)) else none).isSome
    rw [if_pos hval]
    rfl

theorem hyper_adjacent_length_interior (hs : HyperSpace) (W H D : Nat)
    (hrect : HyperRectD hs W H D) (hW : W < USIZE) (hH : H < USIZE) (hD : D < USIZE)
    (hE : hs.spaces.length < USIZE) (p : Position)
    (hx1 : 1 ≤ p.x) (hx2 : p.x + 1 < W) (hy1 : 1 ≤ p.y) (hy2 : p.y + 1 < H)
    (hz1 : 1 ≤ p.z) (hz2 : p.z + 1 < D)
    (hw1 : 1 ≤ p.w) (hw2 : p.w + 1 < hs.spaces.length) :
    (hs.adjacent p).length = 80 := by
  unfold HyperSpace.adjacent
  rw [length_filterMap_of_all_some]
  · decide
  · intro v hv
    have hb := all_4d_bounds v hv
    have hval : hs.is_position_valid (p.addV v) = true := by
      rw [HyperSpace.valid_iff_of_rect4d hs W H D hrect]
      refine ⟨?_, ?_, ?_, ?_⟩
      · exact (wrapAdd_lt_iff p.w hs.spaces.length v.w (by omega) (by omega) hE).mpr
          ⟨by omega, by omega⟩
      · exact (wrapAdd_lt_iff p.z D v.z (by omega) (by omega) hD).mpr ⟨by omega, by omega⟩
      · exact (wrapAdd_lt_iff p.y H v.y (by omega) (by omega) hH).mpr ⟨by omega, by omega⟩
      · exact (wrapAdd_lt_iff p.x W v.x (by omega) (by omega) hW).mpr ⟨by omega, by omega⟩
    show (if hs.is_position_valid (p.addV v)
        then some (hs.get_cell (p.addV v)) else none).isSome
    rw [if_pos hval]
    rfl

end Seventeen

/-- C7: the direction lists enumerate exactly the 3^D − 1 nonzero offset
vectors with coordinates in {-1, 0, 1}, without duplicates; the Adjacent
neighbor collection therefore has size at most 3^D − 1, and exactly
3^D − 1 at positions strictly inside the grid's extents. -/
theorem C7_adjacent_neighbor_count_bound :
    (Eleven.ALL_DIRECTIONS.length = 3 ^ 2 - 1 ∧ Eleven.ALL_DIRECTIONS.Nodup
      ∧ ∀ v ∈ Eleven.ALL_DIRECTIONS,
          (v.x = -1 ∨ v.x = 0 ∨ v.x = 1) ∧ (v.y = -1 ∨ v.y = 0 ∨ v.y = 1)
            ∧ ¬(v.x = 0 ∧ v.y = 0))
    ∧ (Seventeen.all_3d_directions.length = 3 ^ 3 - 1
      ∧ Seventeen.all_3d_directions.Nodup
      ∧ ∀ v ∈ Seventeen.all_3d_directions,
          (v.x = -1 ∨ v.x = 0 ∨ v.x = 1) ∧ (v.y = -1 ∨ v.y = 0 ∨ v.y = 1)
            ∧ (v.z = -1 ∨ v.z = 0 ∨ v.z = 1) ∧ v.w = 0
            ∧ ¬(v.x = 0 ∧ v.y = 0 ∧ v.z = 0))
    ∧ (Seventeen.all_4d_directions.length = 3 ^ 4 - 1
      ∧ Seventeen.all_4d_directions.Nodup
      ∧ ∀ v ∈ Seventeen.all_4d_directions,
          (v.x = -1 ∨ v.x = 0 ∨ v.x = 1) ∧ (v.y = -1 ∨ v.y = 0 ∨ v.y = 1)
            ∧ (v.z = -1 ∨ v.z = 0 ∨ v.z = 1) ∧ (v.w = -1 ∨ v.w = 0 ∨ v.w = 1)
            ∧ ¬(v.x = 0 ∧ v.y = 0 ∧ v.z = 0 ∧ v.w = 0))
    ∧ (∀ (b : Eleven.Board) (p : Eleven.Position), (b.adjacent p).length ≤ 3 ^ 2 - 1)
    ∧ (∀ (s : Seventeen.Space) (p : Seventeen.Position),
        (s.adjacent p).length ≤ 3 ^ 3 - 1)
    ∧ (∀ (hs : Seventeen.HyperSpace) (p : Seventeen.Position),
        (hs.adjacent p).length ≤ 3 ^ 4 - 1)
    ∧ (∀ (b : Eleven.Board), b.rect → b.rows.length < USIZE → b.width < USIZE →
        ∀ p : Eleven.Position, 1 ≤ p.x → p.x + 1 < b.width →
          1 ≤ p.y → p.y + 1 < b.rows.length → (b.adjacent p).length = 3 ^ 2 - 1)
    ∧ (∀ (s : Seventeen.Space) (W H : Nat), Seventeen.SpaceRectD s W H →
        W < USIZE → H < USIZE → s.planes.length < USIZE →
        ∀ p : Seventeen.Position, 1 ≤ p.x → p.x + 1 < W → 1 ≤ p.y → p.y + 1 < H →
          1 ≤ p.z → p.z + 1 < s.planes.length → (s.adjacent p).length = 3 ^ 3 - 1)
    ∧ (∀ (hs : Seventeen.HyperSpace) (W H D : Nat), Seventeen.HyperRectD hs W H D →
        W < USIZE → H < USIZE → D < USIZE → hs.spaces.length < USIZE →
        ∀ p : Seventeen.Position, 1 ≤ p.x → p.x + 1 < W → 1 ≤ p.y → p.y + 1 < H →
          1 ≤ p.z → p.z + 1 < D → 1 ≤ p.w → p.w + 1 < hs.spaces.length →
          (hs.adjacent p).length = 3 ^ 4 - 1) := by
  refine ⟨⟨by decide, by decide, by decide⟩, ⟨by decide, by decide, by decide⟩,
    ⟨by decide, by decide, by decide⟩, ?_, ?_, ?_, ?_, ?_, ?_⟩
  · exact Eleven.adjacent_length_le
  · exact Seventeen.space_adjacent_length_le
  · exact Seventeen.hyper_adjacent_length_le
  · intro b hrect hh hw p h1 h2 h3 h4
    exact Eleven.adjacent_length_interior b hrect hh hw p h1 h2 h3 h4
  · intro s W H hrect hW hH hD p h1 h2 h3 h4 h5 h6
    exact Seventeen.space_adjacent_length_interior s W H hrect hW hH hD p h1 h2 h3 h4 h5 h6
  · intro hs W H D hrect hW hH hD hE p h1 h2 h3 h4 h5 h6 h7 h8
    exact Seventeen.hyper_adjacent_length_interior hs W H D hrect hW hH hD hE p
      h1 h2 h3 h4 h5 h6 h7 h8

/-- Witness for C7 on concrete interior cells of 3-wide grids. -/
theorem C7_adjacent_neighbor_count_bound_witness :
    (((⟨List.replicate 3 (List.replicate 3 Eleven.Cell.Floor)⟩ : Eleven.Board).adjacent
        ⟨1, 1⟩).length = 3 ^ 2 - 1)
    ∧ ((Seventeen.Space.new 3 3 3).adjacent ⟨1, 1, 1, 0⟩).length = 3 ^ 3 - 1
    ∧ ((Seventeen.HyperSpace.with_spaces
        (List.replicate 3 (Seventeen.Space.new 3 3 3))).adjacent
          ⟨1, 1, 1, 1⟩).length = 3 ^ 4 - 1 := by
  refine ⟨?_, ?_, ?_⟩
  · exact C7_adjacent_neighbor_count_bound.2.2.2.2.2.2.1
      ⟨List.replicate 3 (List.replicate 3 Eleven.Cell.Floor)⟩
      (by decide) (by decide) (by decide) ⟨1, 1⟩
      (by decide) (by decide) (by decide) (by decide)
  · exact C7_adjacent_neighbor_count_bound.2.2.2.2.2.2.2.1
      (Seventeen.Space.new 3 3 3) 3 3 (by decide) (by decide) (by decide) (by decide)
      ⟨1, 1, 1, 0⟩ (by decide) (by decide) (by decide) (by decide) (by decide) (by decide)
  · exact C7_adjacent_neighbor_count_bound.2.2.2.2.2.2.2.2
      (Seventeen.HyperSpace.with_spaces (List.replicate 3 (Seventeen.Space.new 3 3 3)))
      3 3 3 (by decide) (by decide) (by decide) (by decide) (by decide)
      ⟨1, 1, 1, 1⟩ (by decide) (by decide) (by decide) (by decide) (by decide) (by decide)
      (by decide) (by decide)

/-- C10: wrapping `usize` addition sends any step that leaves the grid
(including `0 - 1`, which wraps to `2^64 - 1`) to a position that fails
`is_position_valid`; a neighbor position is valid exactly when the exact
integer sum of coordinates stays inside the extents, and at a valid
neighbor the wrapped coordinates equal the integer sums (so no toroidal
wrap-around can occur); `adjacent` and `visible` only ever read cells at
positions that passed the validity check. -/
theorem C10_wrapping_add_safety :
    (∀ (b : Eleven.Board), b.rect → b.rows.length < USIZE → b.width < USIZE →
      ∀ p : Eleven.Position, b.is_position_valid p →
        ∀ v ∈ Eleven.ALL_DIRECTIONS,
          (b.is_position_valid (p.addV v) = true ↔
            (0 ≤ (p.x : Int) + v.x ∧ (p.x : Int) + v.x < (b.width : Int)
              ∧ 0 ≤ (p.y : Int) + v.y ∧ (p.y : Int) + v.y < (b.rows.length : Int)))
          ∧ (b.is_position_valid (p.addV v) = true →
              ((p.addV v).x : Int) = (p.x : Int) + v.x
                ∧ ((p.addV v).y : Int) = (p.y : Int) + v.y))
    ∧ (∀ (b : Eleven.Board) (p : Eleven.Position) (c : Eleven.Cell),
        c ∈ b.adjacent p →
          ∃ q, b.is_position_valid q ∧ b.try_get_cell q = some c)
    ∧ (∀ (b : Eleven.Board) (p : Eleven.Position) (c : Eleven.Cell),
        c ∈ b.visible p →
          ∃ q, b.is_position_valid q ∧ b.try_get_cell q = some c)
    ∧ (∀ (s : Seventeen.Space) (p : Seventeen.Position) (c : Seventeen.Cell),
        c ∈ s.adjacent p → ∃ q, s.is_position_valid q ∧ s.get_cell q = c)
    ∧ (∀ (hs : Seventeen.HyperSpace) (p : Seventeen.Position) (c : Seventeen.Cell),
        c ∈ hs.adjacent p → ∃ q, hs.is_position_valid q ∧ hs.get_cell q = c) := by
  refine ⟨?_, ?_, ?_, ?_, ?_⟩
  · intro b hrect hh hw p hp v hv
    have hb := Eleven.all_directions_bounds v hv
    refine ⟨Eleven.Board.addV_valid_iff b hrect hh hw p hp v hb.1 hb.2, ?_⟩
    intro hval
    have hint := (Eleven.Board.addV_valid_iff b hrect hh hw p hp v hb.1 hb.2).mp hval
    constructor
    · show ((wrapAdd p.x v.x : Nat) : Int) = _
      exact wrapAdd_eq_of_bounds p.x v.x hint.1 (by omega)
    · show ((wrapAdd p.y v.y : Nat) : Int) = _
      exact wrapAdd_eq_of_bounds p.y v.y hint.2.2.1 (by omega)
  · intro b p c hc
    obtain ⟨v, _, hval, hgc⟩ := (Eleven.mem_adjacent b p c).mp hc
    refine ⟨p.addV v, hval, ?_⟩
    unfold Eleven.Board.try_get_cell
    rw [if_pos hval, hgc]
  · intro b p c hc
    obtain ⟨v, _, hdir⟩ := (Eleven.mem_visible b p c).mp hc
    obtain ⟨hval, hgc⟩ := Eleven.visibleDir_eq_some b p v c hdir
    refine ⟨_, hval, ?_⟩
    unfold Eleven.Board.try_get_cell
    rw [if_pos hval, hgc]
  · intro s p c hc
    obtain ⟨v, _, hval, hgc⟩ := (Seventeen.mem_space_adjacent s p c).mp hc
    exact ⟨p.addV v, hval, hgc⟩
  · intro hs p c hc
    obtain ⟨v, _, hval, hgc⟩ := (Seventeen.mem_hyper_adjacent hs p c).mp hc
    exact ⟨p.addV v, hval, hgc⟩

/-- Witness for C10: on a concrete 2×2 board, stepping from the corner
(0, 0) by (-1, -1) wraps and is invalid, stepping by (1, 1) stays valid
with exact integer coordinates. -/
theorem C10_wrapping_add_safety_witness :
    ((⟨[[Eleven.Cell.Floor, Eleven.Cell.Floor],
        [Eleven.Cell.Floor, Eleven.Cell.Floor]]⟩ : Eleven.Board).is_position_valid
      ((⟨0, 0⟩ : Eleven.Position).addV ⟨-1, -1⟩) = false)
    ∧ (((⟨0, 0⟩ : Eleven.Position).addV ⟨1, 1⟩).x : Int)
        = ((⟨0, 0⟩ : Eleven.Position).x : Int) + (⟨1, 1⟩ : Eleven.Vector).x := by
  constructor
  · have h := (C10_wrapping_add_safety.1
      ⟨[[Eleven.Cell.Floor, Eleven.Cell.Floor], [Eleven.Cell.Floor, Eleven.Cell.Floor]]⟩
      (by decide) (by decide) (by decide) ⟨0, 0⟩ (by decide) ⟨-1, -1⟩ (by decide)).1
    by_contra hc
    have hval : (⟨[[Eleven.Cell.Floor, Eleven.Cell.Floor],
        [Eleven.Cell.Floor, Eleven.Cell.Floor]]⟩ : Eleven.Board).is_position_valid
        ((⟨0, 0⟩ : Eleven.Position).addV ⟨-1, -1⟩) = true := by
      cases hb : (⟨[[Eleven.Cell.Floor, Eleven.Cell.Floor],
          [Eleven.Cell.Floor, Eleven.Cell.Floor]]⟩ : Eleven.Board).is_position_valid
          ((⟨0, 0⟩ : Eleven.Position).addV ⟨-1, -1⟩)
      · exact absurd hb hc
      · rfl
    have := h.mp hval
    simp at this
  · exact (C10_wrapping_add_safety.1
      ⟨[[Eleven.Cell.Floor, Eleven.Cell.Floor], [Eleven.Cell.Floor, Eleven.Cell.Floor]]⟩
      (by decide) (by decide) (by decide) ⟨0, 0⟩ (by decide) ⟨1, 1⟩ (by decide)).2
      (by decide) |>.1

namespace Eleven

theorem maxWidth_ge (b : Board) : ∀ r ∈ b.rows, r.length ≤ maxWidth b := by
  unfold maxWidth
  induction b.rows with
  | nil => intro r hr; cases hr
  | cons a rest ih =>
    intro r hr
    rcases List.mem_cons.mp hr with h | h
    · subst h
      simp only [List.foldr_cons]
      omega
    · have := ih r h
      simp only [List.foldr_cons]
      omega

theorem foldr_max_lt (rows : List Row) (hw : ∀ r ∈ rows, r.length < USIZE) :
    rows.foldr (fun r m => max r.length m) 0 < USIZE := by
  induction rows with
  | nil => exact USIZE_pos
  | cons a rest ih =>
    simp only [List.foldr_cons]
    have h1 := hw a (List.mem_cons_self a rest)
    have h2 := ih (fun r hr => hw r (List.mem_cons_of_mem a hr))
    omega

theorem maxWidth_lt (b : Board) (hw : ∀ r ∈ b.rows, r.length < USIZE) :
    maxWidth b < USIZE :=
  foldr_max_lt b.rows hw

theorem try_get_cell_some_valid (b : Board) (q : Position) (c : Cell)
    (h : b.try_get_cell q = some c) : b.is_position_valid q := by
  unfold Board.try_get_cell at h
  by_cases hv : b.is_position_valid q
  · exact hv
  · rw [if_neg hv] at h
    exact Option.noConfusion h

theorem continues_iff (b : Board) (q : Position) :
    b.try_get_cell q = some Cell.Floor ↔
      (b.is_position_valid q = true ∧ b.get_cell q = Cell.Floor) := by
  unfold Board.try_get_cell
  by_cases h : b.is_position_valid q
  · rw [if_pos h]
    simp [h]
  · rw [if_neg h]
    simp [h]

theorem walk_eq_of_first_stop (b : Board) (v : Vector) :
    ∀ (n k : Nat) (q : Position), k ≤ n →
      (∀ i < k, b.try_get_cell (stepN v i q) = some Cell.Floor) →
      ¬(b.try_get_cell (stepN v k q) = some Cell.Floor) →
      walk b v n q = stepN v k q := by
  intro n
  induction n with
  | zero =>
    intro k q hk _ _
    have : k = 0 := by omega
    subst this
    rfl
  | succ m ih =>
    intro k q hk hcont hstop
    cases k with
    | zero =>
      have hstop2 : ¬(b.try_get_cell q = some Cell.Floor) := hstop
      show (if b.try_get_cell q = some Cell.Floor then walk b v m (q.addV v) else q) = _
      rw [if_neg hstop2]
      rfl
    | succ j =>
      have h0 : b.try_get_cell q = some Cell.Floor := hcont 0 (by omega)
      show (if b.try_get_cell q = some Cell.Floor then walk b v m (q.addV v) else q) = _
      rw [if_pos h0]
      exact ih j (q.addV v) (by omega) (fun i hi => hcont (i + 1) (by omega)) hstop

theorem all_directions_cases :
    ∀ v ∈ ALL_DIRECTIONS,
      (v.x = -1 ∨ v.x = 0 ∨ v.x = 1) ∧ (v.y = -1 ∨ v.y = 0 ∨ v.y = 1)
        ∧ ¬(v.x = 0 ∧ v.y = 0) := by decide

theorem walkMeasure_eq_negy (b : Board) (v : Vector) (q : Position) (hy : v.y = -1) :
    walkMeasure b v q = q.y + 1 := by
  unfold walkMeasure
  rw [hy]
  norm_num

theorem walkMeasure_eq_posy (b : Board) (v : Vector) (q : Position) (hy : v.y = 1) :
    walkMeasure b v q = b.rows.length - q.y := by
  unfold walkMeasure
  rw [hy, if_pos rfl]

theorem walkMeasure_eq_negx (b : Board) (v : Vector) (q : Position)
    (hy : v.y = 0) (hx : v.x = -1) : walkMeasure b v q = q.x + 1 := by
  unfold walkMeasure
  rw [hy, hx]
  norm_num

theorem walkMeasure_eq_posx (b : Board) (v : Vector) (q : Position)
    (hy : v.y = 0) (hx : v.x = 1) : walkMeasure b v q = maxWidth b - q.x := by
  unfold walkMeasure
  rw [hy, hx]
  norm_num

theorem walk_stops_aux (b : Board) (hh : b.rows.length < USIZE)
    (hw : ∀ r ∈ b.rows, r.length < USIZE) (v : Vector) (hv : v ∈ ALL_DIRECTIONS) :
    ∀ (n : Nat) (q : Position), q.x < USIZE → q.y < USIZE → walkMeasure b v q ≤ n →
      ∃ k, k ≤ n ∧ ¬(b.try_get_cell (stepN v k q) = some Cell.Floor) := by
  obtain ⟨hvx, hvy, hnz⟩ := all_directions_cases v hv
  intro n
  induction n with
  | zero =>
    intro q hqx hqy hm
    refine ⟨0, le_refl 0, ?_⟩
    intro hcont0
    have hcont : b.try_get_cell q = some Cell.Floor := hcont0
    have hval := try_get_cell_some_valid b q Cell.Floor hcont
    simp only [Board.is_position_valid, Bool.and_eq_true, decide_eq_true_eq] at hval
    have hrmem : b.rows.getD q.y [] ∈ b.rows := by
      rw [getD_eq_getElem _ _ _ hval.1]
      exact List.getElem_mem hval.1
    have hrow := maxWidth_ge b _ hrmem
    rcases hvy with hy | hy | hy
    · rw [walkMeasure_eq_negy b v q hy] at hm
      omega
    · rcases hvx with hx | hx | hx
      · rw [walkMeasure_eq_negx b v q hy hx] at hm
        omega
      · exact absurd ⟨hx, hy⟩ hnz
      · rw [walkMeasure_eq_posx b v q hy hx] at hm
        omega
    · rw [walkMeasure_eq_posy b v q hy] at hm
      omega
  | succ m ih =>
    intro q hqx hqy hm
    by_cases hcont : b.try_get_cell q = some Cell.Floor
    · have hval := try_get_cell_some_valid b q Cell.Floor hcont
      simp only [Board.is_position_valid, Bool.and_eq_true, decide_eq_true_eq] at hval
      have hrmem : b.rows.getD q.y [] ∈ b.rows := by
        rw [getD_eq_getElem _ _ _ hval.1]
        exact List.getElem_mem hval.1
      have hrow := maxWidth_ge b _ hrmem
      have hrowlt := hw _ hrmem
      have hmw := maxWidth_lt b hw
      have hq'x : (q.addV v).x < USIZE := wrapAdd_lt q.x v.x
      have hq'y : (q.addV v).y < USIZE := wrapAdd_lt q.y v.y
      rcases hvy with hy | hy | hy
      · by_cases hq0 : q.y = 0
        · refine ⟨1, by omega, ?_⟩
          intro hc1
          have hc1q : b.try_get_cell (q.addV v) = some Cell.Floor := hc1
          have hval1 := try_get_cell_some_valid b _ _ hc1q
          simp only [Board.is_position_valid, Bool.and_eq_true, decide_eq_true_eq] at hval1
          have hyy : (q.addV v).y = USIZE - 1 := by
            show wrapAdd q.y v.y = _
            rw [hq0, hy]
            exact wrapAdd_zero_neg_one
          rw [hyy] at hval1
          omega
        · have hyy : (q.addV v).y = q.y - 1 := by
            show wrapAdd q.y v.y = _
            rw [hy]
            exact wrapAdd_neg_one (by omega) hqy
          have hm2 : walkMeasure b v (q.addV v) ≤ m := by
            rw [walkMeasure_eq_negy b v q hy] at hm
            rw [walkMeasure_eq_negy b v (q.addV v) hy]
            omega
          obtain ⟨k, hk, hstop⟩ := ih (q.addV v) hq'x hq'y hm2
          exact ⟨k + 1, by omega, hstop⟩
      · have hyy : (q.addV v).y = q.y := by
          show wrapAdd q.y v.y = _
          rw [hy]
          exact wrapAdd_zero hqy
        rcases hvx with hx | hx | hx
        · by_cases hq0 : q.x = 0
          · refine ⟨1, by omega, ?_⟩
            intro hc1
            have hc1q : b.try_get_cell (q.addV v) = some Cell.Floor := hc1
            have hval1 := try_get_cell_some_valid b _ _ hc1q
            simp only [Board.is_position_valid, Bool.and_eq_true,
              decide_eq_true_eq] at hval1
            have hxx : (q.addV v).x = USIZE - 1 := by
              show wrapAdd q.x v.x = _
              rw [hq0, hx]
              exact wrapAdd_zero_neg_one
            rw [hxx, hyy] at hval1
            omega
          · have hxx : (q.addV v).x = q.x - 1 := by
              show wrapAdd q.x v.x = _
              rw [hx]
              exact wrapAdd_neg_one (by omega) hqx
            have hm2 : walkMeasure b v (q.addV v) ≤ m := by
              rw [walkMeasure_eq_negx b v q hy hx] at hm
              rw [walkMeasure_eq_negx b v (q.addV v) hy hx]
              omega
            obtain ⟨k, hk, hstop⟩ := ih (q.addV v) hq'x hq'y hm2
            exact ⟨k + 1, by omega, hstop⟩
        · exact absurd ⟨hx, hy⟩ hnz
        · have hxx : (q.addV v).x = q.x + 1 := by
            show wrapAdd q.x v.x = _
            rw [hx]
            exact wrapAdd_one (by omega)
          have hm2 : walkMeasure b v (q.addV v) ≤ m := by
            rw [walkMeasure_eq_posx b v q hy hx] at hm
            rw [walkMeasure_eq_posx b v (q.addV v) hy hx]
            omega
          obtain ⟨k, hk, hstop⟩ := ih (q.addV v) hq'x hq'y hm2
          exact ⟨k + 1, by omega, hstop⟩
      · have hyy : (q.addV v).y = q.y + 1 := by
          show wrapAdd q.y v.y = _
          rw [hy]
          exact wrapAdd_one (by omega)
        have hm2 : walkMeasure b v (q.addV v) ≤ m := by
          rw [walkMeasure_eq_posy b v q hy] at hm
          rw [walkMeasure_eq_posy b v (q.addV v) hy]
          omega
        obtain ⟨k, hk, hstop⟩ := ih (q.addV v) hq'x hq'y hm2
        exact ⟨k + 1, by omega, hstop⟩
    · exact ⟨0, by omega, fun hc => hcont hc⟩

theorem walk_stops (b : Board) (hh : b.rows.length < USIZE)
    (hw : ∀ r ∈ b.rows, r.length < USIZE) (v : Vector) (hv : v ∈ ALL_DIRECTIONS)
    (q : Position) (hqx : q.x < USIZE) (hqy : q.y < USIZE) :
    ∃ k, k ≤ b.rows.length + maxWidth b + 1
      ∧ ¬(b.try_get_cell (stepN v k q) = some Cell.Floor) := by
  by_cases hcont : b.try_get_cell q = some Cell.Floor
  · have hval := try_get_cell_some_valid b q Cell.Floor hcont
    simp only [Board.is_position_valid, Bool.and_eq_true, decide_eq_true_eq] at hval
    have hrmem : b.rows.getD q.y [] ∈ b.rows := by
      rw [getD_eq_getElem _ _ _ hval.1]
      exact List.getElem_mem hval.1
    have hrow := maxWidth_ge b _ hrmem
    have hm : walkMeasure b v q ≤ b.rows.length + maxWidth b := by
      unfold walkMeasure
      split_ifs <;> omega
    obtain ⟨k, hk, hstop⟩ :=
      walk_stops_aux b hh hw v hv (b.rows.length + maxWidth b) q hqx hqy hm
    exact ⟨k, by omega, hstop⟩
  · exact ⟨0, by omega, fun hc => hcont hc⟩

theorem visibleDir_spec (b : Board) (hh : b.rows.length < USIZE)
    (hw : ∀ r ∈ b.rows, r.length < USIZE) (p : Position) (v : Vector)
    (hv : v ∈ ALL_DIRECTIONS) :
    (∀ c : Cell,
      b.visibleDir p v = some c ↔
        ∃ k, 1 ≤ k ∧ b.is_position_valid (stepN v k p) = true
          ∧ b.get_cell (stepN v k p) = c ∧ c ≠ Cell.Floor
          ∧ ∀ i, 1 ≤ i → i < k →
              b.is_position_valid (stepN v i p) = true
                ∧ b.get_cell (stepN v i p) = Cell.Floor)
    ∧ (b.visibleDir p v = none ↔
        ∃ k, 1 ≤ k ∧ b.is_position_valid (stepN v k p) = false
          ∧ ∀ i, 1 ≤ i → i < k →
              b.is_position_valid (stepN v i p) = true
                ∧ b.get_cell (stepN v i p) = Cell.Floor) := by
  have hex : ∃ k, ¬(b.try_get_cell (stepN v k (p.addV v)) = some Cell.Floor) := by
    obtain ⟨k, _, hstop⟩ :=
      walk_stops b hh hw v hv (p.addV v) (wrapAdd_lt p.x v.x) (wrapAdd_lt p.y v.y)
    exact ⟨k, hstop⟩
  set k0 := Nat.find hex
  have hstop0 : ¬(b.try_get_cell (stepN v k0 (p.addV v)) = some Cell.Floor) :=
    Nat.find_spec hex
  have hmin : ∀ i < k0, b.try_get_cell (stepN v i (p.addV v)) = some Cell.Floor := by
    intro i hi
    exact not_not.mp (Nat.find_min hex hi)
  have hk0le : k0 ≤ b.rows.length + maxWidth b + 1 := by
    obtain ⟨k, hk, hstop⟩ :=
      walk_stops b hh hw v hv (p.addV v) (wrapAdd_lt p.x v.x) (wrapAdd_lt p.y v.y)
    exact le_trans (Nat.find_min' hex hstop) hk
  have hwalk : walk b v (walkFuel b) (p.addV v) = stepN v k0 (p.addV v) :=
    walk_eq_of_first_stop b v (walkFuel b) k0 (p.addV v)
      (by unfold walkFuel; omega) hmin hstop0
  have hfloor : ∀ i, 1 ≤ i → i < k0 + 1 →
      b.is_position_valid (stepN v i p) = true
        ∧ b.get_cell (stepN v i p) = Cell.Floor := by
    intro i h1 h2
    obtain ⟨j, rfl⟩ : ∃ j, i = j + 1 := ⟨i - 1, by omega⟩
    exact (continues_iff b _).mp (hmin j (by omega))
  constructor
  · intro c
    constructor
    · intro hsome
      have hsome2 : (if b.is_position_valid (walk b v (walkFuel b) (p.addV v))
          then some (b.get_cell (walk b v (walkFuel b) (p.addV v))) else none)
            = some c := hsome
      rw [hwalk] at hsome2
      by_cases hval : b.is_position_valid (stepN v k0 (p.addV v)) = true
      · rw [if_pos hval] at hsome2
        have hc := Option.some.inj hsome2
        refine ⟨k0 + 1, by omega, hval, hc, ?_, fun i h1 h2 => hfloor i h1 h2⟩
        intro hcf
        apply hstop0
        rw [continues_iff]
        refine ⟨hval, ?_⟩
        rw [hc, hcf]
      · rw [if_neg hval] at hsome2
        exact Option.noConfusion hsome2
    · rintro ⟨k, hk1, hkval, hkget, hcf, hfl⟩
      obtain ⟨j, rfl⟩ : ∃ j, k = j + 1 := ⟨k - 1, by omega⟩
      have hjstop : ¬(b.try_get_cell (stepN v j (p.addV v)) = some Cell.Floor) := by
        rw [continues_iff]
        rintro ⟨hv2, hg2⟩
        exact hcf (hkget.symm.trans hg2)
      have hk0eq : j = k0 := by
        have hge : k0 ≤ j := Nat.find_min' hex hjstop
        by_contra hne
        have hfk := hfl (k0 + 1) (by omega) (by omega)
        apply hstop0
        rw [continues_iff]
        exact ⟨hfk.1, hfk.2⟩
      show (if b.is_position_valid (walk b v (walkFuel b) (p.addV v))
          then some (b.get_cell (walk b v (walkFuel b) (p.addV v))) else none) = some c
      rw [hwalk]
      rw [hk0eq] at hkval hkget
      have hvalid0 : b.is_position_valid (stepN v k0 (p.addV v)) = true := hkval
      have hget0 : b.get_cell (stepN v k0 (p.addV v)) = c := hkget
      rw [if_pos hvalid0, hget0]
  · constructor
    · intro hnone
      have hnone2 : (if b.is_position_valid (walk b v (walkFuel b) (p.addV v))
          then some (b.get_cell (walk b v (walkFuel b) (p.addV v))) else none)
            = none := hnone
      rw [hwalk] at hnone2
      by_cases hval : b.is_position_valid (stepN v k0 (p.addV v)) = true
      · rw [if_pos hval] at hnone2
        exact Option.noConfusion hnone2
      · refine ⟨k0 + 1, by omega, ?_, fun i h1 h2 => hfloor i h1 h2⟩
        cases hb : b.is_position_valid (stepN v k0 (p.addV v)) with
        | false => exact hb
        | true => exact absurd hb hval
    · rintro ⟨k, hk1, hkval, hfl⟩
      obtain ⟨j, rfl⟩ : ∃ j, k = j + 1 := ⟨k - 1, by omega⟩
      have hjstop : ¬(b.try_get_cell (stepN v j (p.addV v)) = some Cell.Floor) := by
        rw [continues_iff]
        rintro ⟨hv2, _⟩
        have hv3 : b.is_position_valid (stepN v (j + 1) p) = true := hv2
        exact Bool.noConfusion (hkval.symm.trans hv3)
      have hk0eq : j = k0 := by
        have hge : k0 ≤ j := Nat.find_min' hex hjstop
        by_contra hne
        have hfk := hfl (k0 + 1) (by omega) (by omega)
        apply hstop0
        rw [continues_iff]
        exact ⟨hfk.1, hfk.2⟩
      show (if b.is_position_valid (walk b v (walkFuel b) (p.addV v))
          then some (b.get_cell (walk b v (walkFuel b) (p.addV v))) else none) = none
      rw [hwalk]
      rw [hk0eq] at hkval
      have hvalid0 : b.is_position_valid (stepN v k0 (p.addV v)) = false := hkval
      rw [if_neg (fun hc => Bool.noConfusion (hvalid0.symm.trans hc))]

end Eleven

/-- C6: for every position, `visible` collects per direction the value of
the fuelled walk, and for each of the 8 planar unit directions that walk
returns the first non-Floor cell reached by stepping outward (skipping any
number of valid Floor cells), and omits the direction exactly when the walk
leaves the grid first; consequently no Floor cell and no cell beyond the
first non-Floor cell is ever included. -/
theorem C6_visible_walks_to_first_non_floor (b : Eleven.Board)
    (hh : b.rows.length < USIZE) (hw : ∀ r ∈ b.rows, r.length < USIZE)
    (p : Eleven.Position) :
    b.visible p = Eleven.ALL_DIRECTIONS.filterMap (fun v => b.visibleDir p v)
    ∧ ∀ v ∈ Eleven.ALL_DIRECTIONS,
      (∀ c : Eleven.Cell,
        b.visibleDir p v = some c ↔
          ∃ k, 1 ≤ k ∧ b.is_position_valid (Eleven.stepN v k p) = true
            ∧ b.get_cell (Eleven.stepN v k p) = c ∧ c ≠ Eleven.Cell.Floor
            ∧ ∀ i, 1 ≤ i → i < k →
                b.is_position_valid (Eleven.stepN v i p) = true
                  ∧ b.get_cell (Eleven.stepN v i p) = Eleven.Cell.Floor)
      ∧ (b.visibleDir p v = none ↔
          ∃ k, 1 ≤ k ∧ b.is_position_valid (Eleven.stepN v k p) = false
            ∧ ∀ i, 1 ≤ i → i < k →
                b.is_position_valid (Eleven.stepN v i p) = true
                  ∧ b.get_cell (Eleven.stepN v i p) = Eleven.Cell.Floor) :=
  ⟨rfl, fun v hv => Eleven.visibleDir_spec b hh hw p v hv⟩

/-- Witness for C6: on the row `#.L`, looking right from the occupied seat
skips the floor cell and sees the empty seat at distance 2. -/
theorem C6_visible_walks_to_first_non_floor_witness :
    ∃ k, 1 ≤ k
      ∧ (⟨[[Eleven.Cell.OccupiedSeat, Eleven.Cell.Floor, Eleven.Cell.EmptySeat]]⟩ :
          Eleven.Board).is_position_valid (Eleven.stepN ⟨1, 0⟩ k ⟨0, 0⟩) = true
      ∧ (⟨[[Eleven.Cell.OccupiedSeat, Eleven.Cell.Floor, Eleven.Cell.EmptySeat]]⟩ :
          Eleven.Board).get_cell (Eleven.stepN ⟨1, 0⟩ k ⟨0, 0⟩) = Eleven.Cell.EmptySeat
      ∧ Eleven.Cell.EmptySeat ≠ Eleven.Cell.Floor
      ∧ ∀ i, 1 ≤ i → i < k →
          (⟨[[Eleven.Cell.OccupiedSeat, Eleven.Cell.Floor, Eleven.Cell.EmptySeat]]⟩ :
            Eleven.Board).is_position_valid (Eleven.stepN ⟨1, 0⟩ i ⟨0, 0⟩) = true
            ∧ (⟨[[Eleven.Cell.OccupiedSeat, Eleven.Cell.Floor, Eleven.Cell.EmptySeat]]⟩ :
              Eleven.Board).get_cell (Eleven.stepN ⟨1, 0⟩ i ⟨0, 0⟩)
                = Eleven.Cell.Floor :=
  (((C6_visible_walks_to_first_non_floor
      ⟨[[Eleven.Cell.OccupiedSeat, Eleven.Cell.Floor, Eleven.Cell.EmptySeat]]⟩
      (by decide) (by decide) ⟨0, 0⟩).2 ⟨1, 0⟩ (by decide)).1
    Eleven.Cell.EmptySeat).mp (by decide)

namespace Seventeen

theorem Position.ext_xyzw {p q : Position} (hx : p.x = q.x) (hy : p.y = q.y)
    (hz : p.z = q.z) (hw : p.w = q.w) : p = q := by
  cases p
  cases q
  simp_all

theorem plane_eq_of_rows {a b : Plane} (h : a.rows = b.rows) : a = b := by
  cases a
  cases b
  simp_all

theorem space_eq_of_planes {a b : Space} (h : a.planes = b.planes) : a = b := by
  cases a
  cases b
  simp_all

theorem hyper_eq_of_spaces {a b : HyperSpace} (h : a.spaces = b.spaces) : a = b := by
  cases a
  cases b
  simp_all

theorem plane_set_rows_length (pl : Plane) (p : Position) (c : Cell) :
    (pl.set_cell p c).rows.length = pl.rows.length := by
  simp [Plane.set_cell]

theorem plane_set_row_length (pl : Plane) (p : Position) (c : Cell) (y : Nat) :
    ((pl.set_cell p c).rows.getD y []).length = (pl.rows.getD y []).length := by
  show ((pl.rows.set p.y (Row.set_cell (pl.rows.getD p.y []) p c)).getD y []).length = _
  rw [getD_set]
  by_cases h : y = p.y ∧ p.y < pl.rows.length
  · rw [if_pos h]
    show ((pl.rows.getD p.y []).set p.x c).length = _
    rw [List.length_set, h.1]
  · rw [if_neg h]

theorem plane_set_valid (pl : Plane) (p q : Position) (c : Cell) :
    (pl.set_cell q c).is_position_valid p = pl.is_position_valid p := by
  simp only [Plane.is_position_valid, Row.is_position_valid, Plane.height,
    plane_set_rows_length, plane_set_row_length]

theorem plane_get_set (pl : Plane) (p q : Position) (c : Cell)
    (hq : pl.is_position_valid q = true) :
    (pl.set_cell q c).get_cell p
      = if p.x = q.x ∧ p.y = q.y then c else pl.get_cell p := by
  simp only [Plane.is_position_valid, Row.is_position_valid, Plane.height,
    Bool.and_eq_true, decide_eq_true_eq] at hq
  show ((pl.rows.set q.y (Row.set_cell (pl.rows.getD q.y []) q c)).getD p.y
      []).getD p.x Cell.Inactive = _
  rw [getD_set]
  by_cases hy : p.y = q.y
  · rw [if_pos ⟨hy, hq.1⟩]
    show ((pl.rows.getD q.y []).set q.x c).getD p.x Cell.Inactive = _
    rw [getD_set]
    by_cases hx : p.x = q.x
    · rw [if_pos ⟨hx, hq.2⟩, if_pos ⟨hx, hy⟩]
    · rw [if_neg (fun hc => hx hc.1), if_neg (fun hc => hx hc.1)]
      show _ = (pl.rows.getD p.y []).getD p.x Cell.Inactive
      rw [hy]
  · rw [if_neg (fun hc => hy hc.1), if_neg (fun hc => hy hc.2)]
    rfl

theorem space_set_planes_length (s : Space) (p : Position) (c : Cell) :
    (s.set_cell p c).planes.length = s.planes.length := by
  simp [Space.set_cell]

theorem space_set_plane_rows_length (s : Space) (p : Position) (c : Cell) (z : Nat) :
    ((s.set_cell p c).planes.getD z (Plane.with_rows [])).rows.length
      = (s.planes.getD z (Plane.with_rows [])).rows.length := by
  show ((s.planes.set p.z ((s.planes.getD p.z (Plane.with_rows [])).set_cell p c)).getD z
      (Plane.with_rows [])).rows.length = _
  rw [getD_set]
  by_cases h : z = p.z ∧ p.z < s.planes.length
  · rw [if_pos h, h.1]
    exact plane_set_rows_length _ p c
  · rw [if_neg h]

theorem space_set_row_length (s : Space) (p : Position) (c : Cell) (z y : Nat) :
    (((s.set_cell p c).planes.getD z (Plane.with_rows [])).rows.getD y []).length
      = ((s.planes.getD z (Plane.with_rows [])).rows.getD y []).length := by
  show ((((s.planes.set p.z ((s.planes.getD p.z (Plane.with_rows [])).set_cell p
      c)).getD z (Plane.with_rows []))).rows.getD y []).length = _
  rw [getD_set]
  by_cases h : z = p.z ∧ p.z < s.planes.length
  · rw [if_pos h, h.1]
    exact plane_set_row_length _ p c y
  · rw [if_neg h]

theorem space_set_valid (s : Space) (p q : Position) (c : Cell) :
    (s.set_cell q c).is_position_valid p = s.is_position_valid p := by
  simp only [Space.is_position_valid, Plane.is_position_valid, Row.is_position_valid,
    Plane.height, space_set_planes_length, space_set_plane_rows_length,
    space_set_row_length]

theorem space_get_set (s : Space) (p q : Position) (c : Cell)
    (hq : s.is_position_valid q = true) :
    (s.set_cell q c).get_cell p
      = if p.x = q.x ∧ p.y = q.y ∧ p.z = q.z then c else s.get_cell p := by
  have hqz : q.z < s.planes.length := by
    simp only [Space.is_position_valid, Bool.and_eq_true, decide_eq_true_eq] at hq
    exact hq.1
  have hqpl : (s.planes.getD q.z (Plane.with_rows [])).is_position_valid q = true := by
    simp only [Space.is_position_valid, Bool.and_eq_true, decide_eq_true_eq] at hq
    exact hq.2
  show ((s.planes.set q.z ((s.planes.getD q.z (Plane.with_rows [])).set_cell q
      c)).getD p.z (Plane.with_rows [])).get_cell p = _
  rw [getD_set]
  by_cases hz : p.z = q.z
  · rw [if_pos ⟨hz, hqz⟩]
    rw [plane_get_set _ p q c hqpl]
    by_cases hxy : p.x = q.x ∧ p.y = q.y
    · rw [if_pos hxy, if_pos ⟨hxy.1, hxy.2, hz⟩]
    · rw [if_neg hxy, if_neg (fun hc => hxy ⟨hc.1, hc.2.1⟩)]
      show (s.planes.getD q.z (Plane.with_rows [])).get_cell p
        = (s.planes.getD p.z (Plane.with_rows [])).get_cell p
      rw [hz]
  · rw [if_neg (fun hc => hz hc.1), if_neg (fun hc => hz hc.2.2)]
    rfl

theorem hyper_set_spaces_length (hs : HyperSpace) (p : Position) (c : Cell) :
    (hs.set_cell p c).spaces.length = hs.spaces.length := by
  simp [HyperSpace.set_cell]

theorem hyper_set_planes_length (hs : HyperSpace) (p : Position) (c : Cell) (w : Nat) :
    ((hs.set_cell p c).spaces.getD w (Space.with_planes [])).planes.length
      = (hs.spaces.getD w (Space.with_planes [])).planes.length := by
  show ((hs.spaces.set p.w ((hs.spaces.getD p.w (Space.with_planes [])).set_cell p
      c)).getD w (Space.with_planes [])).planes.length = _
  rw [getD_set]
  by_cases h : w = p.w ∧ p.w < hs.spaces.length
  · rw [if_pos h, h.1]
    exact space_set_planes_length _ p c
  · rw [if_neg h]

theorem hyper_set_plane_rows_length (hs : HyperSpace) (p : Position) (c : Cell)
    (w z : Nat) :
    (((hs.set_cell p c).spaces.getD w (Space.with_planes [])).planes.getD z
        (Plane.with_rows [])).rows.length
      = ((hs.spaces.getD w (Space.with_planes [])).planes.getD z
          (Plane.with_rows [])).rows.length := by
  show ((((hs.spaces.set p.w ((hs.spaces.getD p.w (Space.with_planes [])).set_cell p
      c)).getD w (Space.with_planes []))).planes.getD z
        (Plane.with_rows [])).rows.length = _
  rw [getD_set]
  by_cases h : w = p.w ∧ p.w < hs.spaces.length
  · rw [if_pos h, h.1]
    exact space_set_plane_rows_length _ p c z
  · rw [if_neg h]

theorem hyper_set_row_length (hs : HyperSpace) (p : Position) (c : Cell) (w z y : Nat) :
    ((((hs.set_cell p c).spaces.getD w (Space.with_planes [])).planes.getD z
        (Plane.with_rows [])).rows.getD y []).length
      = (((hs.spaces.getD w (Space.with_planes [])).planes.getD z
          (Plane.with_rows [])).rows.getD y []).length := by
  show (((((hs.spaces.set p.w ((hs.spaces.getD p.w (Space.with_planes [])).set_cell p
      c)).getD w (Space.with_planes []))).planes.getD z
        (Plane.with_rows [])).rows.getD y []).length = _
  rw [getD_set]
  by_cases h : w = p.w ∧ p.w < hs.spaces.length
  · rw [if_pos h, h.1]
    exact space_set_row_length _ p c z y
  · rw [if_neg h]

theorem hyper_set_valid (hs : HyperSpace) (p q : Position) (c : Cell) :
    (hs.set_cell q c).is_position_valid p = hs.is_position_valid p := by
  simp only [HyperSpace.is_position_valid, Space.is_position_valid,
    Plane.is_position_valid, Row.is_position_valid, Plane.height,
    hyper_set_spaces_length, hyper_set_planes_length, hyper_set_plane_rows_length,
    hyper_set_row_length]

theorem hyper_get_set (hs : HyperSpace) (p q : Position) (c : Cell)
    (hq : hs.is_position_valid q = true) :
    (hs.set_cell q c).get_cell p = if p = q then c else hs.get_cell p := by
  have hqw : q.w < hs.spaces.length := by
    simp only [HyperSpace.is_position_valid, Bool.and_eq_true, decide_eq_true_eq] at hq
    exact hq.1
  have hqsp : (hs.spaces.getD q.w (Space.with_planes [])).is_position_valid q = true := by
    simp only [HyperSpace.is_position_valid, Bool.and_eq_true, decide_eq_true_eq] at hq
    exact hq.2
  show ((hs.spaces.set q.w ((hs.spaces.getD q.w (Space.with_planes [])).set_cell q
      c)).getD p.w (Space.with_planes [])).get_cell p = _
  rw [getD_set]
  by_cases hw : p.w = q.w
  · rw [if_pos ⟨hw, hqw⟩]
    rw [space_get_set _ p q c hqsp]
    by_cases hxyz : p.x = q.x ∧ p.y = q.y ∧ p.z = q.z
    · rw [if_pos hxyz, if_pos (Position.ext_xyzw hxyz.1 hxyz.2.1 hxyz.2.2 hw)]
    · rw [if_neg hxyz, if_neg (fun hc => hxyz ⟨congrArg Position.x hc,
        congrArg Position.y hc, congrArg Position.z hc⟩)]
      show (hs.spaces.getD q.w (Space.with_planes [])).get_cell p
        = (hs.spaces.getD p.w (Space.with_planes [])).get_cell p
      rw [hw]
  · rw [if_neg (fun hc => hw hc.1), if_neg (fun hc => hw (congrArg Position.w hc))]
    rfl

theorem space_apply_cons (s : Space) (e : Position × Cell) (rest : List (Position × Cell)) :
    s.apply_changes (e :: rest) = (s.set_cell e.1 e.2).apply_changes rest := rfl

theorem space_apply_planes_length (ch : List (Position × Cell)) :
    ∀ s : Space, (s.apply_changes ch).planes.length = s.planes.length := by
  induction ch with
  | nil => intro s; rfl
  | cons e rest ih =>
    intro s
    rw [space_apply_cons, ih, space_set_planes_length]

theorem space_apply_plane_rows_length (ch : List (Position × Cell)) :
    ∀ (s : Space) (z : Nat),
      ((s.apply_changes ch).planes.getD z (Plane.with_rows [])).rows.length
        = (s.planes.getD z (Plane.with_rows [])).rows.length := by
  induction ch with
  | nil => intro s z; rfl
  | cons e rest ih =>
    intro s z
    rw [space_apply_cons, ih, space_set_plane_rows_length]

theorem space_apply_row_length (ch : List (Position × Cell)) :
    ∀ (s : Space) (z y : Nat),
      (((s.apply_changes ch).planes.getD z (Plane.with_rows [])).rows.getD y []).length
        = ((s.planes.getD z (Plane.with_rows [])).rows.getD y []).length := by
  induction ch with
  | nil => intro s z y; rfl
  | cons e rest ih =>
    intro s z y
    rw [space_apply_cons, ih, space_set_row_length]

theorem space_get_apply (F : Position → Cell) (ch : List (Position × Cell)) :
    ∀ s : Space,
      (∀ e ∈ ch, s.is_position_valid e.1 = true ∧ e.1.w = 0 ∧ e.2 = F e.1) →
      ∀ p : Position, p.w = 0 →
        (s.apply_changes ch).get_cell p
          = if p ∈ ch.map Prod.fst then F p else s.get_cell p := by
  induction ch with
  | nil =>
    intro s _ p _
    simp [Space.apply_changes]
  | cons e rest ih =>
    intro s hs p hpw
    have he := hs e (List.mem_cons_self e rest)
    have hrest : ∀ e2 ∈ rest,
        (s.set_cell e.1 e.2).is_position_valid e2.1 = true ∧ e2.1.w = 0 ∧ e2.2 = F e2.1 := by
      intro e2 h2
      rw [space_set_valid]
      exact hs e2 (List.mem_cons_of_mem e h2)
    rw [space_apply_cons, ih (s.set_cell e.1 e.2) hrest p hpw]
    by_cases hmem : p ∈ rest.map Prod.fst
    · rw [if_pos hmem, if_pos (by simp only [List.map_cons, List.mem_cons]; exact Or.inr hmem)]
    · rw [if_neg hmem, space_get_set s p e.1 e.2 he.1]
      by_cases hpe : p = e.1
      · rw [if_pos (by rw [hpe]; exact ⟨rfl, rfl, rfl⟩),
          if_pos (by simp only [List.map_cons, List.mem_cons]; exact Or.inl hpe),
          he.2.2, hpe]
      · have hxyz : ¬(p.x = e.1.x ∧ p.y = e.1.y ∧ p.z = e.1.z) := by
          intro hc
          exact hpe (Position.ext_xyzw hc.1 hc.2.1 hc.2.2 (hpw.trans he.2.1.symm))
        rw [if_neg hxyz, if_neg]
        intro hc
        rcases List.mem_cons.mp (by simpa only [List.map_cons] using hc) with h | h
        · exact hpe h
        · exact hmem h

theorem hyper_apply_cons (hs : HyperSpace) (e : Position × Cell)
    (rest : List (Position × Cell)) :
    hs.apply_changes (e :: rest) = (hs.set_cell e.1 e.2).apply_changes rest := rfl

theorem hyper_apply_spaces_length (ch : List (Position × Cell)) :
    ∀ hs : HyperSpace, (hs.apply_changes ch).spaces.length = hs.spaces.length := by
  induction ch with
  | nil => intro hs; rfl
  | cons e rest ih =>
    intro hs
    rw [hyper_apply_cons, ih, hyper_set_spaces_length]

theorem hyper_apply_planes_length (ch : List (Position × Cell)) :
    ∀ (hs : HyperSpace) (w : Nat),
      ((hs.apply_changes ch).spaces.getD w (Space.with_planes [])).planes.length
        = (hs.spaces.getD w (Space.with_planes [])).planes.length := by
  induction ch with
  | nil => intro hs w; rfl
  | cons e rest ih =>
    intro hs w
    rw [hyper_apply_cons, ih, hyper_set_planes_length]

theorem hyper_apply_plane_rows_length (ch : List (Position × Cell)) :
    ∀ (hs : HyperSpace) (w z : Nat),
      (((hs.apply_changes ch).spaces.getD w (Space.with_planes [])).planes.getD z
          (Plane.with_rows [])).rows.length
        = ((hs.spaces.getD w (Space.with_planes [])).planes.getD z
            (Plane.with_rows [])).rows.length := by
  induction ch with
  | nil => intro hs w z; rfl
  | cons e rest ih =>
    intro hs w z
    rw [hyper_apply_cons, ih, hyper_set_plane_rows_length]

theorem hyper_apply_row_length (ch : List (Position × Cell)) :
    ∀ (hs : HyperSpace) (w z y : Nat),
      ((((hs.apply_changes ch).spaces.getD w (Space.with_planes [])).planes.getD z
          (Plane.with_rows [])).rows.getD y []).length
        = (((hs.spaces.getD w (Space.with_planes [])).planes.getD z
            (Plane.with_rows [])).rows.getD y []).length := by
  induction ch with
  | nil => intro hs w z y; rfl
  | cons e rest ih =>
    intro hs w z y
    rw [hyper_apply_cons, ih, hyper_set_row_length]

theorem hyper_get_apply (F : Position → Cell) (ch : List (Position × Cell)) :
    ∀ hs : HyperSpace,
      (∀ e ∈ ch, hs.is_position_valid e.1 = true ∧ e.2 = F e.1) →
      ∀ p : Position,
        (hs.apply_changes ch).get_cell p
          = if p ∈ ch.map Prod.fst then F p else hs.get_cell p := by
  induction ch with
  | nil =>
    intro hs _ p
    simp [HyperSpace.apply_changes]
  | cons e rest ih =>
    intro hs hsc p
    have he := hsc e (List.mem_cons_self e rest)
    have hrest : ∀ e2 ∈ rest,
        (hs.set_cell e.1 e.2).is_position_valid e2.1 = true ∧ e2.2 = F e2.1 := by
      intro e2 h2
      rw [hyper_set_valid]
      exact hsc e2 (List.mem_cons_of_mem e h2)
    rw [hyper_apply_cons, ih (hs.set_cell e.1 e.2) hrest p]
    by_cases hmem : p ∈ rest.map Prod.fst
    · rw [if_pos hmem, if_pos (by simp only [List.map_cons, List.mem_cons]; exact Or.inr hmem)]
    · rw [if_neg hmem, hyper_get_set hs p e.1 e.2 he.1]
      by_cases hpe : p = e.1
      · rw [if_pos hpe, if_pos (by simp only [List.map_cons, List.mem_cons]; exact Or.inl hpe),
          he.2, hpe]
      · rw [if_neg hpe, if_neg]
        intro hc
        rcases List.mem_cons.mp (by simpa only [List.map_cons] using hc) with h | h
        · exact hpe h
        · exact hmem h

theorem mem_row_pc (r : Row) (p : Position) (c : Cell) :
    (p, c) ∈ Row.positioned_cells r ↔
      (p.y = 0 ∧ p.z = 0 ∧ p.w = 0 ∧ p.x < r.length
        ∧ c = r.getD p.x Cell.Inactive) := by
  unfold Row.positioned_cells
  rw [List.mem_iff_getElem]
  constructor
  · rintro ⟨i, hi, he⟩
    simp only [List.length_map, List.enum_eq_enumFrom, List.enumFrom_length] at hi
    simp only [List.getElem_map, List.enum_eq_enumFrom, List.getElem_enumFrom] at he
    have hp : p = Position.new_x (0 + i) := (congrArg Prod.fst he).symm
    have hc : c = r[i] := (congrArg Prod.snd he).symm
    subst hp
    subst hc
    refine ⟨rfl, rfl, rfl, ?_, ?_⟩
    · show 0 + i < r.length
      omega
    · show r[i] = r.getD (0 + i) Cell.Inactive
      rw [(by omega : 0 + i = i), getD_eq_getElem r i Cell.Inactive hi]
  · rintro ⟨hy, hz, hw, hx, hc⟩
    refine ⟨p.x, by simpa [List.enum_eq_enumFrom] using hx, ?_⟩
    simp only [List.getElem_map, List.enum_eq_enumFrom, List.getElem_enumFrom]
    have h1 : Position.new_x (0 + p.x) = p :=
      Position.ext_xyzw (by show 0 + p.x = p.x; omega) (by show (0 : Nat) = p.y; omega)
        (by show (0 : Nat) = p.z; omega) (by show (0 : Nat) = p.w; omega)
    rw [h1, hc, getD_eq_getElem r p.x Cell.Inactive hx]

theorem mem_plane_pc (pl : Plane) (p : Position) (c : Cell) :
    (p, c) ∈ pl.positioned_cells ↔
      (p.z = 0 ∧ p.w = 0 ∧ p.y < pl.rows.length
        ∧ p.x < (pl.rows.getD p.y []).length ∧ c = pl.get_cell p) := by
  unfold Plane.positioned_cells
  rw [List.mem_flatten]
  constructor
  · rintro ⟨inner, hinner, hmem⟩
    rw [List.mem_map] at hinner
    obtain ⟨yr, hyr, hf⟩ := hinner
    rw [List.mem_iff_getElem] at hyr
    obtain ⟨j, hj, hget⟩ := hyr
    simp only [List.enum_eq_enumFrom, List.enumFrom_length] at hj
    simp only [List.enum_eq_enumFrom, List.getElem_enumFrom] at hget
    subst hf
    rw [← hget] at hmem
    rw [List.mem_map] at hmem
    obtain ⟨pc0, hpc0, heq⟩ := hmem
    obtain ⟨hy0, hz0, hw0, hx0, hc0⟩ :=
      (mem_row_pc _ pc0.1 pc0.2).mp (by rw [Prod.mk.eta]; exact hpc0)
    have hp : p = pc0.1.with_y (0 + j) := (congrArg Prod.fst heq).symm
    have hcc : c = pc0.2 := (congrArg Prod.snd heq).symm
    subst hp
    subst hcc
    refine ⟨hz0, hw0, ?_, ?_, ?_⟩
    · show 0 + j < pl.rows.length
      omega
    · show pc0.1.x < (pl.rows.getD (0 + j) []).length
      rw [(by omega : 0 + j = j), getD_eq_getElem pl.rows j [] hj]
      exact hx0
    · show pc0.2 = (pl.rows.getD (0 + j) []).getD pc0.1.x Cell.Inactive
      rw [(by omega : 0 + j = j), getD_eq_getElem pl.rows j [] hj]
      exact hc0
  · rintro ⟨hz, hw, hy, hx, hc⟩
    refine ⟨(Row.positioned_cells (pl.rows[p.y])).map
        (fun pc => (pc.1.with_y (0 + p.y), pc.2)), ?_, ?_⟩
    · rw [List.mem_map]
      refine ⟨(0 + p.y, pl.rows[p.y]), ?_, rfl⟩
      rw [List.mem_iff_getElem]
      exact ⟨p.y, by simpa [List.enum_eq_enumFrom] using hy,
        by simp [List.enum_eq_enumFrom, List.getElem_enumFrom]⟩
    · rw [List.mem_map]
      refine ⟨(Position.new_x p.x, c), ?_, ?_⟩
      · rw [mem_row_pc]
        refine ⟨rfl, rfl, rfl, ?_, ?_⟩
        · show p.x < (pl.rows[p.y]).length
          rw [← getD_eq_getElem pl.rows p.y [] hy]
          exact hx
        · show c = (pl.rows[p.y]).getD p.x Cell.Inactive
          rw [← getD_eq_getElem pl.rows p.y [] hy]
          exact hc
      · have h1 : (Position.new_x p.x).with_y (0 + p.y) = p :=
          Position.ext_xyzw rfl (by show 0 + p.y = p.y; omega)
            (by show (0 : Nat) = p.z; omega) (by show (0 : Nat) = p.w; omega)
        rw [h1]

theorem mem_space_pc (s : Space) (p : Position) (c : Cell) :
    (p, c) ∈ s.positioned_cells ↔
      (p.w = 0 ∧ p.z < s.planes.length
        ∧ p.y < (s.planes.getD p.z (Plane.with_rows [])).rows.length
        ∧ p.x < ((s.planes.getD p.z (Plane.with_rows [])).rows.getD p.y []).length
        ∧ c = s.get_cell p) := by
  unfold Space.positioned_cells
  rw [List.mem_flatten]
  constructor
  · rintro ⟨inner, hinner, hmem⟩
    rw [List.mem_map] at hinner
    obtain ⟨zp, hzp, hf⟩ := hinner
    rw [List.mem_iff_getElem] at hzp
    obtain ⟨j, hj, hget⟩ := hzp
    simp only [List.enum_eq_enumFrom, List.enumFrom_length] at hj
    simp only [List.enum_eq_enumFrom, List.getElem_enumFrom] at hget
    subst hf
    rw [← hget] at hmem
    rw [List.mem_map] at hmem
    obtain ⟨pc0, hpc0, heq⟩ := hmem
    obtain ⟨hz0, hw0, hy0, hx0, hc0⟩ :=
      (mem_plane_pc _ pc0.1 pc0.2).mp (by rw [Prod.mk.eta]; exact hpc0)
    have hp : p = pc0.1.with_z (0 + j) := (congrArg Prod.fst heq).symm
    have hcc : c = pc0.2 := (congrArg Prod.snd heq).symm
    subst hp
    subst hcc
    refine ⟨hw0, ?_, ?_, ?_, ?_⟩
    · show 0 + j < s.planes.length
      omega
    · show pc0.1.y < (s.planes.getD (0 + j) (Plane.with_rows [])).rows.length
      rw [(by omega : 0 + j = j), getD_eq_getElem s.planes j (Plane.with_rows []) hj]
      exact hy0
    · show pc0.1.x
        < ((s.planes.getD (0 + j) (Plane.with_rows [])).rows.getD pc0.1.y []).length
      rw [(by omega : 0 + j = j), getD_eq_getElem s.planes j (Plane.with_rows []) hj]
      exact hx0
    · show pc0.2 = ((s.planes.getD (0 + j) (Plane.with_rows [])).rows.getD pc0.1.y
        []).getD pc0.1.x Cell.Inactive
      rw [(by omega : 0 + j = j), getD_eq_getElem s.planes j (Plane.with_rows []) hj]
      exact hc0
  · rintro ⟨hw, hz, hy, hx, hc⟩
    refine ⟨((s.planes[p.z]).positioned_cells).map
        (fun pc => (pc.1.with_z (0 + p.z), pc.2)), ?_, ?_⟩
    · rw [List.mem_map]
      refine ⟨(0 + p.z, s.planes[p.z]), ?_, rfl⟩
      rw [List.mem_iff_getElem]
      exact ⟨p.z, by simpa [List.enum_eq_enumFrom] using hz,
        by simp [List.enum_eq_enumFrom, List.getElem_enumFrom]⟩
    · rw [List.mem_map]
      refine ⟨((⟨p.x, p.y, 0, 0⟩ : Position), c), ?_, ?_⟩
      · rw [mem_plane_pc]
        refine ⟨rfl, rfl, ?_, ?_, ?_⟩
        · show p.y < (s.planes[p.z]).rows.length
          rw [← getD_eq_getElem s.planes p.z (Plane.with_rows []) hz]
          exact hy
        · show p.x < ((s.planes[p.z]).rows.getD p.y []).length
          rw [← getD_eq_getElem s.planes p.z (Plane.with_rows []) hz]
          exact hx
        · show c = ((s.planes[p.z]).rows.getD p.y []).getD p.x Cell.Inactive
          rw [← getD_eq_getElem s.planes p.z (Plane.with_rows []) hz]
          exact hc
      · have h1 : ((⟨p.x, p.y, 0, 0⟩ : Position)).with_z (0 + p.z) = p :=
          Position.ext_xyzw rfl rfl (by show 0 + p.z = p.z; omega)
            (by show (0 : Nat) = p.w; omega)
        rw [h1]

theorem mem_hyper_pc (hs : HyperSpace) (p : Position) (c : Cell) :
    (p, c) ∈ hs.positioned_cells ↔
      (p.w < hs.spaces.length
        ∧ p.z < (hs.spaces.getD p.w (Space.with_planes [])).planes.length
        ∧ p.y < ((hs.spaces.getD p.w (Space.with_planes [])).planes.getD p.z
            (Plane.with_rows [])).rows.length
        ∧ p.x < (((hs.spaces.getD p.w (Space.with_planes [])).planes.getD p.z
            (Plane.with_rows [])).rows.getD p.y []).length
        ∧ c = hs.get_cell p) := by
  unfold HyperSpace.positioned_cells
  rw [List.mem_flatten]
  constructor
  · rintro ⟨inner, hinner, hmem⟩
    rw [List.mem_map] at hinner
    obtain ⟨ws, hws, hf⟩ := hinner
    rw [List.mem_iff_getElem] at hws
    obtain ⟨j, hj, hget⟩ := hws
    simp only [List.enum_eq_enumFrom, List.enumFrom_length] at hj
    simp only [List.enum_eq_enumFrom, List.getElem_enumFrom] at hget
    subst hf
    rw [← hget] at hmem
    rw [List.mem_map] at hmem
    obtain ⟨pc0, hpc0, heq⟩ := hmem
    obtain ⟨hw0, hz0, hy0, hx0, hc0⟩ :=
      (mem_space_pc _ pc0.1 pc0.2).mp (by rw [Prod.mk.eta]; exact hpc0)
    have hp : p = pc0.1.with_w (0 + j) := (congrArg Prod.fst heq).symm
    have hcc : c = pc0.2 := (congrArg Prod.snd heq).symm
    subst hp
    subst hcc
    refine ⟨?_, ?_, ?_, ?_, ?_⟩
    · show 0 + j < hs.spaces.length
      omega
    · show pc0.1.z < (hs.spaces.getD (0 + j) (Space.with_planes [])).planes.length
      rw [(by omega : 0 + j = j), getD_eq_getElem hs.spaces j (Space.with_planes []) hj]
      exact hz0
    · show pc0.1.y < ((hs.spaces.getD (0 + j) (Space.with_planes [])).planes.getD
        pc0.1.z (Plane.with_rows [])).rows.length
      rw [(by omega : 0 + j = j), getD_eq_getElem hs.spaces j (Space.with_planes []) hj]
      exact hy0
    · show pc0.1.x < (((hs.spaces.getD (0 + j) (Space.with_planes [])).planes.getD
        pc0.1.z (Plane.with_rows [])).rows.getD pc0.1.y []).length
      rw [(by omega : 0 + j = j), getD_eq_getElem hs.spaces j (Space.with_planes []) hj]
      exact hx0
    · show pc0.2 = (((hs.spaces.getD (0 + j) (Space.with_planes [])).planes.getD
        pc0.1.z (Plane.with_rows [])).rows.getD pc0.1.y []).getD pc0.1.x Cell.Inactive
      rw [(by omega : 0 + j = j), getD_eq_getElem hs.spaces j (Space.with_planes []) hj]
      exact hc0
  · rintro ⟨hw, hz, hy, hx, hc⟩
    refine ⟨((hs.spaces[p.w]).positioned_cells).map
        (fun pc => (pc.1.with_w (0 + p.w), pc.2)), ?_, ?_⟩
    · rw [List.mem_map]
      refine ⟨(0 + p.w, hs.spaces[p.w]), ?_, rfl⟩
      rw [List.mem_iff_getElem]
      exact ⟨p.w, by simpa [List.enum_eq_enumFrom] using hw,
        by simp [List.enum_eq_enumFrom, List.getElem_enumFrom]⟩
    · rw [List.mem_map]
      refine ⟨((⟨p.x, p.y, p.z, 0⟩ : Position), c), ?_, ?_⟩
      · rw [mem_space_pc]
        refine ⟨rfl, ?_, ?_, ?_, ?_⟩
        · show p.z < (hs.spaces[p.w]).planes.length
          rw [← getD_eq_getElem hs.spaces p.w (Space.with_planes []) hw]
          exact hz
        · show p.y < ((hs.spaces[p.w]).planes.getD p.z (Plane.with_rows
            [])).rows.length
          rw [← getD_eq_getElem hs.spaces p.w (Space.with_planes []) hw]
          exact hy
        · show p.x < (((hs.spaces[p.w]).planes.getD p.z (Plane.with_rows
            [])).rows.getD p.y []).length
          rw [← getD_eq_getElem hs.spaces p.w (Space.with_planes []) hw]
          exact hx
        · show c = (((hs.spaces[p.w]).planes.getD p.z (Plane.with_rows
            [])).rows.getD p.y []).getD p.x Cell.Inactive
          rw [← getD_eq_getElem hs.spaces p.w (Space.with_planes []) hw]
          exact hc
      · have h1 : ((⟨p.x, p.y, p.z, 0⟩ : Position)).with_w (0 + p.w) = p :=
          Position.ext_xyzw rfl rfl rfl (by show 0 + p.w = p.w; omega)
        rw [h1]

theorem space_valid_eq (s : Space) (p : Position) :
    s.is_position_valid p = true ↔
      (p.z < s.planes.length
        ∧ p.y < (s.planes.getD p.z (Plane.with_rows [])).rows.length
        ∧ p.x < ((s.planes.getD p.z (Plane.with_rows [])).rows.getD p.y []).length) := by
  simp [Space.is_position_valid, Plane.is_position_valid, Row.is_position_valid,
    Plane.height, and_assoc]

theorem hyper_valid_eq (hs : HyperSpace) (p : Position) :
    hs.is_position_valid p = true ↔
      (p.w < hs.spaces.length
        ∧ p.z < (hs.spaces.getD p.w (Space.with_planes [])).planes.length
        ∧ p.y < ((hs.spaces.getD p.w (Space.with_planes [])).planes.getD p.z
            (Plane.with_rows [])).rows.length
        ∧ p.x < (((hs.spaces.getD p.w (Space.with_planes [])).planes.getD p.z
            (Plane.with_rows [])).rows.getD p.y []).length) := by
  simp [HyperSpace.is_position_valid, Space.is_position_valid, Plane.is_position_valid,
    Row.is_position_valid, Plane.height, and_assoc]

theorem Space.tick_def3d (s : Space) :
    s.tick = (s.grow).apply_changes ((s.grow).changes) := rfl

theorem HyperSpace.tick_def4d (hs : HyperSpace) :
    hs.tick = (hs.grow).apply_changes ((hs.grow).changes) := rfl

theorem mem_space_changes (s : Space) (e : Position × Cell) :
    e ∈ s.changes ↔
      (e.1.w = 0 ∧ s.is_position_valid e.1 = true
        ∧ lifeRule (s.get_cell e.1) ((s.adjacent e.1).count Cell.Active) = some e.2) := by
  unfold Space.changes
  rw [List.mem_filterMap]
  constructor
  · rintro ⟨pc, hpc, hmap⟩
    rw [Option.map_eq_some'] at hmap
    obtain ⟨c, hrule, he⟩ := hmap
    obtain ⟨hw0, hz, hy, hx, hcell⟩ :=
      (mem_space_pc s pc.1 pc.2).mp (by rw [Prod.mk.eta]; exact hpc)
    rw [← he]
    refine ⟨hw0, ?_, ?_⟩
    · rw [space_valid_eq]
      exact ⟨hz, hy, hx⟩
    · rw [← hcell]
      exact hrule
  · rintro ⟨hw0, hval, hrule⟩
    obtain ⟨p1, c1⟩ := e
    rw [space_valid_eq] at hval
    refine ⟨(p1, s.get_cell p1),
      (mem_space_pc s p1 (s.get_cell p1)).mpr ⟨hw0, hval.1, hval.2.1, hval.2.2, rfl⟩, ?_⟩
    rw [Option.map_eq_some']
    exact ⟨c1, hrule, rfl⟩

theorem mem_hyper_changes (hs : HyperSpace) (e : Position × Cell) :
    e ∈ hs.changes ↔
      (hs.is_position_valid e.1 = true
        ∧ lifeRule (hs.get_cell e.1) ((hs.adjacent e.1).count Cell.Active)
            = some e.2) := by
  unfold HyperSpace.changes
  rw [List.mem_filterMap]
  constructor
  · rintro ⟨pc, hpc, hmap⟩
    rw [Option.map_eq_some'] at hmap
    obtain ⟨c, hrule, he⟩ := hmap
    obtain ⟨hw, hz, hy, hx, hcell⟩ :=
      (mem_hyper_pc hs pc.1 pc.2).mp (by rw [Prod.mk.eta]; exact hpc)
    rw [← he]
    refine ⟨?_, ?_⟩
    · rw [hyper_valid_eq]
      exact ⟨hw, hz, hy, hx⟩
    · rw [← hcell]
      exact hrule
  · rintro ⟨hval, hrule⟩
    obtain ⟨p1, c1⟩ := e
    rw [hyper_valid_eq] at hval
    refine ⟨(p1, hs.get_cell p1),
      (mem_hyper_pc hs p1 (hs.get_cell p1)).mpr
        ⟨hval.1, hval.2.1, hval.2.2.1, hval.2.2.2, rfl⟩, ?_⟩
    rw [Option.map_eq_some']
    exact ⟨c1, hrule, rfl⟩

theorem space_get_eq_getElem (s : Space) (x y z w : Nat) (hz : z < s.planes.length)
    (hy : y < (s.planes[z]).rows.length)
    (hx : x < ((s.planes[z]).rows[y]).length) :
    s.get_cell ⟨x, y, z, w⟩ = ((s.planes[z]).rows[y])[x] := by
  show ((s.planes.getD z (Plane.with_rows [])).rows.getD y []).getD x Cell.Inactive = _
  rw [congrArg (fun pl => (Plane.rows pl |>.getD y []).getD x Cell.Inactive)
    (getD_eq_getElem s.planes z (Plane.with_rows []) hz)]
  rw [congrArg (fun r => List.getD r x Cell.Inactive)
    (getD_eq_getElem (s.planes[z]).rows y [] hy)]
  exact getD_eq_getElem _ x Cell.Inactive hx

theorem space_valid_of_bounds (s : Space) (x y z w : Nat) (hz : z < s.planes.length)
    (hy : y < (s.planes[z]).rows.length)
    (hx : x < ((s.planes[z]).rows[y]).length) :
    s.is_position_valid ⟨x, y, z, w⟩ = true := by
  rw [space_valid_eq]
  refine ⟨hz, ?_, ?_⟩
  · show y < (s.planes.getD z (Plane.with_rows [])).rows.length
    rw [getD_eq_getElem s.planes z (Plane.with_rows []) hz]
    exact hy
  · show x < ((s.planes.getD z (Plane.with_rows [])).rows.getD y []).length
    rw [getD_eq_getElem s.planes z (Plane.with_rows []) hz,
      getD_eq_getElem (s.planes[z]).rows y [] hy]
    exact hx

/-- The scan-then-apply inside `Space::tick` computes the synchronous
transition of its input grid. -/
theorem space_scan_eq_sync (g : Space) :
    g.apply_changes g.changes = g.syncNext := by
  have hch : ∀ e ∈ g.changes,
      g.is_position_valid e.1 = true ∧ e.1.w = 0
        ∧ e.2 = (fun p => (lifeRule (g.get_cell p)
            ((g.adjacent p).count Cell.Active)).getD (g.get_cell p)) e.1 := by
    intro e he
    obtain ⟨hw0, hval, hrule⟩ := (mem_space_changes g e).mp he
    refine ⟨hval, hw0, ?_⟩
    show e.2 = (lifeRule (g.get_cell e.1)
      ((g.adjacent e.1).count Cell.Active)).getD (g.get_cell e.1)
    rw [hrule]
    rfl
  have hget := space_get_apply
    (fun p => (lifeRule (g.get_cell p) ((g.adjacent p).count Cell.Active)).getD
      (g.get_cell p)) g.changes g hch
  have hpt : ∀ p : Position, p.w = 0 → g.is_position_valid p = true →
      (g.apply_changes g.changes).get_cell p
        = (lifeRule (g.get_cell p) ((g.adjacent p).count Cell.Active)).getD
            (g.get_cell p) := by
    intro p hpw hval
    rw [hget p hpw]
    by_cases hmem : p ∈ g.changes.map Prod.fst
    · rw [if_pos hmem]
    · rw [if_neg hmem]
      cases hr : lifeRule (g.get_cell p) ((g.adjacent p).count Cell.Active) with
      | none => rfl
      | some c =>
        exfalso
        apply hmem
        rw [List.mem_map]
        exact ⟨(p, c), (mem_space_changes g (p, c)).mpr ⟨hpw, hval, hr⟩, rfl⟩
  apply space_eq_of_planes
  apply List.ext_getElem
  · rw [space_apply_planes_length]
    simp [Space.syncNext]
  · intro z hz1 hz2
    have hgz : z < g.planes.length := by
      rw [space_apply_planes_length] at hz1
      exact hz1
    apply plane_eq_of_rows
    apply List.ext_getElem
    · show ((g.apply_changes g.changes).planes[z]).rows.length = _
      rw [← getD_eq_getElem (g.apply_changes g.changes).planes z (Plane.with_rows []) hz1,
        space_apply_plane_rows_length,
        getD_eq_getElem g.planes z (Plane.with_rows []) hgz]
      simp [Space.syncNext, Plane.with_rows]
    · intro y hy1 hy2
      have hgy : y < (g.planes[z]).rows.length := by
        rw [← getD_eq_getElem (g.apply_changes g.changes).planes z (Plane.with_rows [])
          hz1, space_apply_plane_rows_length,
          getD_eq_getElem g.planes z (Plane.with_rows []) hgz] at hy1
        exact hy1
      apply List.ext_getElem
      · show (((g.apply_changes g.changes).planes[z]).rows[y]).length = _
        rw [← getD_eq_getElem ((g.apply_changes g.changes).planes[z]).rows y [] hy1,
          ← getD_eq_getElem (g.apply_changes g.changes).planes z (Plane.with_rows [])
            hz1,
          space_apply_row_length,
          getD_eq_getElem g.planes z (Plane.with_rows []) hgz,
          getD_eq_getElem (g.planes[z]).rows y [] hgy]
        simp [Space.syncNext, Plane.with_rows]
      · intro x hx1 hx2
        have hgx : x < ((g.planes[z]).rows[y]).length := by
          rw [← getD_eq_getElem ((g.apply_changes g.changes).planes[z]).rows y []
              hy1,
            ← getD_eq_getElem (g.apply_changes g.changes).planes z (Plane.with_rows [])
              hz1,
            space_apply_row_length,
            getD_eq_getElem g.planes z (Plane.with_rows []) hgz,
            getD_eq_getElem (g.planes[z]).rows y [] hgy] at hx1
          exact hx1
        have hL : ((((g.apply_changes g.changes).planes[z]).rows[y])[x])
            = (g.apply_changes g.changes).get_cell ⟨x, y, z, 0⟩ := by
          rw [space_get_eq_getElem (g.apply_changes g.changes) x y z 0 hz1 hy1 hx1]
        rw [hL, hpt ⟨x, y, z, 0⟩ rfl (space_valid_of_bounds g x y z 0 hgz hgy hgx),
          space_get_eq_getElem g x y z 0 hgz hgy hgx]
        simp only [Space.syncNext, List.getElem_mapIdx, Plane.with_rows]

theorem hyper_get_eq_getElem (hs : HyperSpace) (x y z w : Nat)
    (hw : w < hs.spaces.length) (hz : z < (hs.spaces[w]).planes.length)
    (hy : y < ((hs.spaces[w]).planes[z]).rows.length)
    (hx : x < (((hs.spaces[w]).planes[z]).rows[y]).length) :
    hs.get_cell ⟨x, y, z, w⟩ = ((((hs.spaces[w]).planes[z]).rows[y])[x]) := by
  show (((hs.spaces.getD w (Space.with_planes [])).planes.getD z
    (Plane.with_rows [])).rows.getD y []).getD x Cell.Inactive = _
  rw [congrArg (fun sp => ((Space.planes sp |>.getD z (Plane.with_rows [])).rows.getD y
      []).getD x Cell.Inactive)
    (getD_eq_getElem hs.spaces w (Space.with_planes []) hw)]
  rw [congrArg (fun pl => (Plane.rows pl |>.getD y []).getD x Cell.Inactive)
    (getD_eq_getElem (hs.spaces[w]).planes z (Plane.with_rows []) hz)]
  rw [congrArg (fun r => List.getD r x Cell.Inactive)
    (getD_eq_getElem ((hs.spaces[w]).planes[z]).rows y [] hy)]
  exact getD_eq_getElem _ x Cell.Inactive hx

theorem hyper_valid_of_bounds (hs : HyperSpace) (x y z w : Nat)
    (hw : w < hs.spaces.length) (hz : z < (hs.spaces[w]).planes.length)
    (hy : y < ((hs.spaces[w]).planes[z]).rows.length)
    (hx : x < (((hs.spaces[w]).planes[z]).rows[y]).length) :
    hs.is_position_valid ⟨x, y, z, w⟩ = true := by
  rw [hyper_valid_eq]
  refine ⟨hw, ?_, ?_, ?_⟩
  · show z < (hs.spaces.getD w (Space.with_planes [])).planes.length
    rw [getD_eq_getElem hs.spaces w (Space.with_planes []) hw]
    exact hz
  · show y < ((hs.spaces.getD w (Space.with_planes [])).planes.getD z
      (Plane.with_rows [])).rows.length
    rw [getD_eq_getElem hs.spaces w (Space.with_planes []) hw,
      getD_eq_getElem (hs.spaces[w]).planes z (Plane.with_rows []) hz]
    exact hy
  · show x < (((hs.spaces.getD w (Space.with_planes [])).planes.getD z
      (Plane.with_rows [])).rows.getD y []).length
    rw [getD_eq_getElem hs.spaces w (Space.with_planes []) hw,
      getD_eq_getElem (hs.spaces[w]).planes z (Plane.with_rows []) hz,
      getD_eq_getElem ((hs.spaces[w]).planes[z]).rows y [] hy]
    exact hx

/-- The scan-then-apply inside `HyperSpace::tick` computes the synchronous
transition of its input grid. -/
theorem hyper_scan_eq_sync (g : HyperSpace) :
    g.apply_changes g.changes = g.syncNext := by
  have hch : ∀ e ∈ g.changes,
      g.is_position_valid e.1 = true
        ∧ e.2 = (fun p => (lifeRule (g.get_cell p)
            ((g.adjacent p).count Cell.Active)).getD (g.get_cell p)) e.1 := by
    intro e he
    obtain ⟨hval, hrule⟩ := (mem_hyper_changes g e).mp he
    refine ⟨hval, ?_⟩
    show e.2 = (lifeRule (g.get_cell e.1)
      ((g.adjacent e.1).count Cell.Active)).getD (g.get_cell e.1)
    rw [hrule]
    rfl
  have hget := hyper_get_apply
    (fun p => (lifeRule (g.get_cell p) ((g.adjacent p).count Cell.Active)).getD
      (g.get_cell p)) g.changes g hch
  have hpt : ∀ p : Position, g.is_position_valid p = true →
      (g.apply_changes g.changes).get_cell p
        = (lifeRule (g.get_cell p) ((g.adjacent p).count Cell.Active)).getD
            (g.get_cell p) := by
    intro p hval
    rw [hget p]
    by_cases hmem : p ∈ g.changes.map Prod.fst
    · rw [if_pos hmem]
    · rw [if_neg hmem]
      cases hr : lifeRule (g.get_cell p) ((g.adjacent p).count Cell.Active) with
      | none => rfl
      | some c =>
        exfalso
        apply hmem
        rw [List.mem_map]
        exact ⟨(p, c), (mem_hyper_changes g (p, c)).mpr ⟨hval, hr⟩, rfl⟩
  apply hyper_eq_of_spaces
  apply List.ext_getElem
  · rw [hyper_apply_spaces_length]
    simp [HyperSpace.syncNext]
  · intro w hw1 hw2
    have hgw : w < g.spaces.length := by
      rw [hyper_apply_spaces_length] at hw1
      exact hw1
    apply space_eq_of_planes
    apply List.ext_getElem
    · show ((g.apply_changes g.changes).spaces[w]).planes.length = _
      rw [← getD_eq_getElem (g.apply_changes g.changes).spaces w (Space.with_planes [])
          hw1,
        hyper_apply_planes_length,
        getD_eq_getElem g.spaces w (Space.with_planes []) hgw]
      simp [HyperSpace.syncNext, Space.with_planes]
    · intro z hz1 hz2
      have hgz : z < (g.spaces[w]).planes.length := by
        rw [← getD_eq_getElem (g.apply_changes g.changes).spaces w (Space.with_planes
            []) hw1,
          hyper_apply_planes_length,
          getD_eq_getElem g.spaces w (Space.with_planes []) hgw] at hz1
        exact hz1
      apply plane_eq_of_rows
      apply List.ext_getElem
      · show (((g.apply_changes g.changes).spaces[w]).planes[z]).rows.length = _
        rw [← getD_eq_getElem ((g.apply_changes g.changes).spaces[w]).planes z
            (Plane.with_rows []) hz1,
          ← getD_eq_getElem (g.apply_changes g.changes).spaces w (Space.with_planes [])
            hw1,
          hyper_apply_plane_rows_length,
          getD_eq_getElem g.spaces w (Space.with_planes []) hgw,
          getD_eq_getElem (g.spaces[w]).planes z (Plane.with_rows []) hgz]
        simp [HyperSpace.syncNext, Space.with_planes, Plane.with_rows]
      · intro y hy1 hy2
        have hgy : y < ((g.spaces[w]).planes[z]).rows.length := by
          rw [← getD_eq_getElem ((g.apply_changes g.changes).spaces[w]).planes z
              (Plane.with_rows []) hz1,
            ← getD_eq_getElem (g.apply_changes g.changes).spaces w (Space.with_planes
              []) hw1,
            hyper_apply_plane_rows_length,
            getD_eq_getElem g.spaces w (Space.with_planes []) hgw,
            getD_eq_getElem (g.spaces[w]).planes z (Plane.with_rows []) hgz] at hy1
          exact hy1
        apply List.ext_getElem
        · show ((((g.apply_changes g.changes).spaces[w]).planes[z]).rows[y]).length
            = _
          rw [← getD_eq_getElem (((g.apply_changes g.changes).spaces[w]).planes[z]).rows
              y [] hy1,
            ← getD_eq_getElem ((g.apply_changes g.changes).spaces[w]).planes z
              (Plane.with_rows []) hz1,
            ← getD_eq_getElem (g.apply_changes g.changes).spaces w (Space.with_planes
              []) hw1,
            hyper_apply_row_length,
            getD_eq_getElem g.spaces w (Space.with_planes []) hgw,
            getD_eq_getElem (g.spaces[w]).planes z (Plane.with_rows []) hgz,
            getD_eq_getElem ((g.spaces[w]).planes[z]).rows y [] hgy]
          simp [HyperSpace.syncNext, Space.with_planes, Plane.with_rows]
        · intro x hx1 hx2
          have hgx : x < (((g.spaces[w]).planes[z]).rows[y]).length := by
            rw [← getD_eq_getElem (((g.apply_changes g.changes).spaces[w]).planes[z]).rows
                y [] hy1,
              ← getD_eq_getElem ((g.apply_changes g.changes).spaces[w]).planes z
                (Plane.with_rows []) hz1,
              ← getD_eq_getElem (g.apply_changes g.changes).spaces w (Space.with_planes
                []) hw1,
              hyper_apply_row_length,
              getD_eq_getElem g.spaces w (Space.with_planes []) hgw,
              getD_eq_getElem (g.spaces[w]).planes z (Plane.with_rows []) hgz,
              getD_eq_getElem ((g.spaces[w]).planes[z]).rows y [] hgy] at hx1
            exact hx1
          have hL : (((((g.apply_changes g.changes).spaces[w]).planes[z]).rows[y])[x])
              = (g.apply_changes g.changes).get_cell ⟨x, y, z, w⟩ := by
            rw [hyper_get_eq_getElem (g.apply_changes g.changes) x y z w hw1 hz1 hy1
              hx1]
          rw [hL, hpt ⟨x, y, z, w⟩ (hyper_valid_of_bounds g x y z w hgw hgz hgy hgx),
            hyper_get_eq_getElem g x y z w hgw hgz hgy hgx]
          simp only [HyperSpace.syncNext, List.getElem_mapIdx, Space.with_planes,
            Plane.with_rows]

end Seventeen

theorem getD_out {α : Type} (l : List α) (i : Nat) (d : α) (h : l.length ≤ i) :
    l.getD i d = d := by
  simp [List.getD_eq_getElem?_getD, List.getElem?_eq_none h]

theorem getD_cons_succ2 {α : Type} (a : α) (l : List α) (n : Nat) (d : α) :
    (a :: l).getD (n + 1) d = l.getD n d := rfl

theorem replicate_getD {α : Type} (n i : Nat) (a : α) :
    (List.replicate n a).getD i a = a := by
  by_cases h : i < n
  · rw [getD_eq_getElem _ i a (by simpa using h)]
    simp
  · exact getD_out _ i a (by simpa using Nat.not_lt.mp h)

namespace Seventeen

theorem Row.new_getD (w x : Nat) : (Row.new w).getD x Cell.Inactive = Cell.Inactive :=
  replicate_getD w x Cell.Inactive

theorem Row.grow_length (r : Row) : (Row.grow r).length = r.length + 2 := by
  simp [Row.grow]

theorem Row.grow_getD (r : Row) (x : Nat) :
    (Row.grow r).getD (x + 1) Cell.Inactive = r.getD x Cell.Inactive := by
  unfold Row.grow
  rw [List.cons_append, getD_cons_succ2]
  by_cases h : x < r.length
  · rw [getD_eq_getElem _ x _ (by simp; omega), getD_eq_getElem r x _ h]
    exact List.getElem_append_left h
  · by_cases h2 : x = r.length
    · subst h2
      rw [getD_eq_getElem _ r.length Cell.Inactive (by simp),
        getD_out r r.length Cell.Inactive (le_refl _)]
      rw [List.getElem_append_right (le_refl r.length)]
      simp
    · rw [getD_out _ x Cell.Inactive (by simp; omega),
        getD_out r x Cell.Inactive (by omega)]

theorem Plane.new_get2d (w h : Nat) (p : Position) :
    (Plane.new w h).get_cell p = Cell.Inactive := by
  show ((List.replicate h (Row.new w)).getD p.y []).getD p.x Cell.Inactive = _
  by_cases hy : p.y < h
  · rw [getD_eq_getElem _ p.y [] (by simpa using hy)]
    simp only [List.getElem_replicate]
    exact Row.new_getD w p.x
  · rw [getD_out _ p.y [] (by simpa using Nat.not_lt.mp hy)]
    rfl

theorem empty_plane_get (p : Position) :
    (Plane.with_rows []).get_cell p = Cell.Inactive := rfl

theorem Plane.grow_rows_length (pl : Plane) :
    (pl.grow).rows.length = pl.rows.length + 2 := by
  show (Row.new _ :: pl.rows.map Row.grow ++ [Row.new _]).length = _
  simp

theorem Plane.grow_head_width (pl : Plane) (W : Nat)
    (hW : ∀ r ∈ pl.rows, r.length = W) (hne : pl.rows ≠ []) :
    ((pl.rows.map Row.grow).headD []).length = W + 2 := by
  cases hrows : pl.rows with
  | nil => exact absurd hrows hne
  | cons r0 rest =>
    show (Row.grow r0).length = W + 2
    rw [Row.grow_length, hW r0 (by rw [hrows]; exact List.mem_cons_self r0 rest)]

theorem Plane.grow_row_cases (pl : Plane) (y : Nat) :
    (pl.grow).rows.getD y []
        = Row.new ((pl.rows.map Row.grow).headD []).length
      ∨ (∃ r0 ∈ pl.rows, (pl.grow).rows.getD y [] = Row.grow r0)
      ∨ (pl.grow).rows.getD y [] = ([] : Row) := by
  by_cases h : y < (pl.grow).rows.length
  · have hmem : (pl.grow).rows.getD y [] ∈ (pl.grow).rows := by
      rw [getD_eq_getElem _ y [] h]
      exact List.getElem_mem h
    have hmem2 : (pl.grow).rows.getD y []
        ∈ Row.new ((pl.rows.map Row.grow).headD []).length :: pl.rows.map Row.grow
          ++ [Row.new ((pl.rows.map Row.grow).headD []).length] := hmem
    rcases List.mem_cons.mp hmem2 with h2 | h2
    · exact Or.inl h2
    · rcases List.mem_append.mp h2 with h3 | h3
      · obtain ⟨r0, hr0, hr0e⟩ := List.mem_map.mp h3
        exact Or.inr (Or.inl ⟨r0, hr0, hr0e.symm⟩)
      · rcases List.mem_cons.mp h3 with h4 | h4
        · exact Or.inl h4
        · cases h4
  · exact Or.inr (Or.inr (getD_out _ y [] (Nat.not_lt.mp h)))

theorem Plane.grow_widths (pl : Plane) (W : Nat)
    (hW : ∀ r ∈ pl.rows, r.length = W) (hne : pl.rows ≠ []) :
    ∀ r ∈ (pl.grow).rows, r.length = W + 2 := by
  intro r hr
  have hw2 := Plane.grow_head_width pl W hW hne
  have hr2 : r ∈ Row.new ((pl.rows.map Row.grow).headD []).length
      :: pl.rows.map Row.grow
      ++ [Row.new ((pl.rows.map Row.grow).headD []).length] := hr
  rcases List.mem_cons.mp hr2 with h | h
  · rw [h]
    show (List.replicate _ Cell.Inactive).length = _
    rw [List.length_replicate, hw2]
  · rcases List.mem_append.mp h with h | h
    · obtain ⟨r0, hr0, hr0e⟩ := List.mem_map.mp h
      rw [← hr0e, Row.grow_length, hW r0 hr0]
    · rcases List.mem_cons.mp h with h | h
      · rw [h]
        show (List.replicate _ Cell.Inactive).length = _
        rw [List.length_replicate, hw2]
      · cases h

theorem Plane.grow_get2d (pl : Plane) (x y z w z2 w2 : Nat) :
    (pl.grow).get_cell ⟨x + 1, y + 1, z, w⟩ = pl.get_cell ⟨x, y, z2, w2⟩ := by
  show ((Row.new _ :: pl.rows.map Row.grow ++ [Row.new _]).getD (y + 1) []).getD
    (x + 1) Cell.Inactive = (pl.rows.getD y []).getD x Cell.Inactive
  rw [List.cons_append, getD_cons_succ2]
  by_cases h : y < pl.rows.length
  · rw [getD_eq_getElem (pl.rows.map Row.grow ++ [Row.new _]) y []
      (by simp [List.length_append]; omega)]
    rw [List.getElem_append_left (by simpa using h)]
    rw [List.getElem_map]
    rw [Row.grow_getD]
    rw [getD_eq_getElem pl.rows y [] h]
  · by_cases h2 : y = pl.rows.length
    · subst h2
      rw [getD_eq_getElem (pl.rows.map Row.grow ++ [Row.new _]) pl.rows.length []
        (by simp)]
      rw [List.getElem_append_right (by simp)]
      rw [getD_out pl.rows pl.rows.length [] (le_refl _)]
      simp only [List.length_map, Nat.sub_self, List.getElem_cons_zero]
      rw [Row.new_getD]
      rfl
    · rw [getD_out (pl.rows.map Row.grow ++ [Row.new _]) y [] (by simp; omega),
        getD_out pl.rows y [] (by omega)]
      rfl

theorem Plane.grow_border2d (pl : Plane) (W : Nat)
    (hW : ∀ r ∈ pl.rows, r.length = W) (p : Position)
    (hb : p.x = 0 ∨ p.x = W + 1 ∨ p.y = 0 ∨ p.y = pl.rows.length + 1) :
    (pl.grow).get_cell p = Cell.Inactive := by
  show ((pl.grow).rows.getD p.y []).getD p.x Cell.Inactive = _
  rcases hb with hx | hx | hy | hy
  · rcases Plane.grow_row_cases pl p.y with h | ⟨r0, hr0, h⟩ | h
    · rw [h, hx]
      exact Row.new_getD _ 0
    · rw [h, hx]
      rfl
    · rw [h, hx]
      rfl
  · rcases Plane.grow_row_cases pl p.y with h | ⟨r0, hr0, h⟩ | h
    · rw [h]
      exact Row.new_getD _ p.x
    · rw [h, hx]
      show (Cell.Inactive :: r0 ++ [Cell.Inactive]).getD (W + 1) Cell.Inactive = _
      rw [List.cons_append, getD_cons_succ2]
      rw [getD_eq_getElem (r0 ++ [Cell.Inactive]) W Cell.Inactive
        (by simp [hW r0 hr0])]
      rw [List.getElem_append_right (by rw [hW r0 hr0])]
      simp [hW r0 hr0]
    · rw [h, hx]
      rfl
  · rw [hy]
    show ((Row.new _ :: pl.rows.map Row.grow ++ [Row.new _]).getD 0 []).getD p.x
      Cell.Inactive = _
    show (Row.new _).getD p.x Cell.Inactive = _
    exact Row.new_getD _ p.x
  · rw [hy]
    show ((Row.new _ :: pl.rows.map Row.grow ++ [Row.new _]).getD
      (pl.rows.length + 1) []).getD p.x Cell.Inactive = _
    rw [List.cons_append, getD_cons_succ2]
    rw [getD_eq_getElem (pl.rows.map Row.grow ++ [Row.new _]) pl.rows.length []
      (by simp)]
    rw [List.getElem_append_right (by simp)]
    simp only [List.length_map, Nat.sub_self, List.getElem_cons_zero]
    rw [Row.new_getD]

theorem Plane.grow_width2d (pl : Plane) (W : Nat)
    (hW : ∀ r ∈ pl.rows, r.length = W) (hne : pl.rows ≠ []) :
    (pl.grow).width = W + 2 := by
  have h := Plane.grow_head_width pl W hW hne
  show (List.replicate ((pl.rows.map Row.grow).headD []).length Cell.Inactive).length
    = W + 2
  rw [List.length_replicate]
  exact h

theorem Plane.grow_height2d (pl : Plane) (H : Nat) (hH : pl.rows.length = H) :
    (pl.grow).height = H + 2 := by
  show (pl.grow).rows.length = H + 2
  rw [Plane.grow_rows_length, hH]

theorem Plane.new_rect (w h : Nat) :
    (Plane.new w h).rows.length = h ∧ ∀ r ∈ (Plane.new w h).rows, r.length = w := by
  constructor
  · simp [Plane.new]
  · intro r hr
    have := List.mem_replicate.mp hr
    rw [this.2]
    simp [Row.new]

theorem Space.grow_planes_length (s : Space) :
    (s.grow).planes.length = s.planes.length + 2 := by
  show (Plane.new _ _ :: s.planes.map Plane.grow ++ [Plane.new _ _]).length = _
  simp

theorem Space.grow_head_dims3d (s : Space) (W H : Nat) (hrect : SpaceRectD s W H)
    (hne : s.planes ≠ []) (hH : H ≠ 0) :
    ((s.planes.map Plane.grow).headD (Plane.with_rows [])).width = W + 2
      ∧ ((s.planes.map Plane.grow).headD (Plane.with_rows [])).height = H + 2 := by
  cases hpl : s.planes with
  | nil => exact absurd hpl hne
  | cons pl0 rest =>
    have h0 := hrect pl0 (by rw [hpl]; exact List.mem_cons_self pl0 rest)
    have hne0 : pl0.rows ≠ [] := by
      intro hc
      apply hH
      rw [← h0.1, hc]
      rfl
    show (Plane.grow pl0).width = W + 2 ∧ (Plane.grow pl0).height = H + 2
    exact ⟨Plane.grow_width2d pl0 W h0.2 hne0, Plane.grow_height2d pl0 H h0.1⟩

theorem Space.grow_rect3d (s : Space) (W H : Nat) (hrect : SpaceRectD s W H)
    (hne : s.planes ≠ []) (hH : H ≠ 0) :
    SpaceRectD (s.grow) (W + 2) (H + 2) := by
  obtain ⟨hw2, hh2⟩ := Space.grow_head_dims3d s W H hrect hne hH
  intro pl hpl
  have hpl2 : pl ∈ Plane.new ((s.planes.map Plane.grow).headD (Plane.with_rows
      [])).width ((s.planes.map Plane.grow).headD (Plane.with_rows [])).height
      :: s.planes.map Plane.grow
      ++ [Plane.new ((s.planes.map Plane.grow).headD (Plane.with_rows [])).width
          ((s.planes.map Plane.grow).headD (Plane.with_rows [])).height] := hpl
  rcases List.mem_cons.mp hpl2 with h | h
  · rw [h]
    exact ⟨(Plane.new_rect _ _).1.trans hh2,
      fun r hr => ((Plane.new_rect _ _).2 r hr).trans hw2⟩
  · rcases List.mem_append.mp h with h | h
    · obtain ⟨pl0, hpl0, hple⟩ := List.mem_map.mp h
      have h0 := hrect pl0 hpl0
      have hne0 : pl0.rows ≠ [] := by
        intro hc
        apply hH
        rw [← h0.1, hc]
        rfl
      rw [← hple]
      constructor
      · rw [Plane.grow_rows_length, h0.1]
      · exact Plane.grow_widths pl0 W h0.2 hne0
    · rcases List.mem_cons.mp h with h | h
      · rw [h]
        exact ⟨(Plane.new_rect _ _).1.trans hh2,
          fun r hr => ((Plane.new_rect _ _).2 r hr).trans hw2⟩
      · cases h

theorem Space.grow_get3d (s : Space) (x y z w w2 : Nat) :
    (s.grow).get_cell ⟨x + 1, y + 1, z + 1, w⟩ = s.get_cell ⟨x, y, z, w2⟩ := by
  show ((Plane.new _ _ :: s.planes.map Plane.grow ++ [Plane.new _ _]).getD (z + 1)
    (Plane.with_rows [])).get_cell ⟨x + 1, y + 1, z + 1, w⟩
    = (s.planes.getD z (Plane.with_rows [])).get_cell ⟨x, y, z, w2⟩
  rw [List.cons_append, getD_cons_succ2]
  by_cases h : z < s.planes.length
  · rw [getD_eq_getElem (s.planes.map Plane.grow ++ [Plane.new _ _]) z
      (Plane.with_rows []) (by simp [List.length_append]; omega)]
    rw [List.getElem_append_left (by simpa using h)]
    rw [List.getElem_map]
    rw [Plane.grow_get2d]
    rw [getD_eq_getElem s.planes z (Plane.with_rows []) h]
  · by_cases h2 : z = s.planes.length
    · subst h2
      rw [getD_eq_getElem (s.planes.map Plane.grow ++ [Plane.new _ _])
        s.planes.length (Plane.with_rows []) (by simp)]
      rw [List.getElem_append_right (by simp)]
      rw [getD_out s.planes s.planes.length (Plane.with_rows []) (le_refl _)]
      simp only [List.length_map, Nat.sub_self, List.getElem_cons_zero]
      rw [Plane.new_get2d, empty_plane_get]
    · rw [getD_out (s.planes.map Plane.grow ++ [Plane.new _ _]) z (Plane.with_rows [])
        (by simp; omega),
        getD_out s.planes z (Plane.with_rows []) (by omega)]
      rw [empty_plane_get, empty_plane_get]

theorem Space.grow_plane_cases (s : Space) (z : Nat) :
    (s.grow).planes.getD z (Plane.with_rows [])
        = Plane.new ((s.planes.map Plane.grow).headD (Plane.with_rows [])).width
            ((s.planes.map Plane.grow).headD (Plane.with_rows [])).height
      ∨ (∃ pl ∈ s.planes,
          (s.grow).planes.getD z (Plane.with_rows []) = Plane.grow pl)
      ∨ (s.grow).planes.getD z (Plane.with_rows []) = Plane.with_rows [] := by
  by_cases h : z < (s.grow).planes.length
  · have hmem : (s.grow).planes.getD z (Plane.with_rows []) ∈ (s.grow).planes := by
      rw [getD_eq_getElem _ z (Plane.with_rows []) h]
      exact List.getElem_mem h
    have hmem2 : (s.grow).planes.getD z (Plane.with_rows [])
        ∈ Plane.new ((s.planes.map Plane.grow).headD (Plane.with_rows [])).width
            ((s.planes.map Plane.grow).headD (Plane.with_rows [])).height
          :: s.planes.map Plane.grow
          ++ [Plane.new ((s.planes.map Plane.grow).headD (Plane.with_rows [])).width
              ((s.planes.map Plane.grow).headD (Plane.with_rows [])).height] := hmem
    rcases List.mem_cons.mp hmem2 with h2 | h2
    · exact Or.inl h2
    · rcases List.mem_append.mp h2 with h3 | h3
      · obtain ⟨pl0, hpl0, hple⟩ := List.mem_map.mp h3
        exact Or.inr (Or.inl ⟨pl0, hpl0, hple.symm⟩)
      · rcases List.mem_cons.mp h3 with h4 | h4
        · exact Or.inl h4
        · cases h4
  · exact Or.inr (Or.inr (getD_out _ z (Plane.with_rows []) (Nat.not_lt.mp h)))

theorem Space.grow_border3d (s : Space) (W H : Nat) (hrect : SpaceRectD s W H)
    (p : Position)
    (hb : p.x = 0 ∨ p.x = W + 1 ∨ p.y = 0 ∨ p.y = H + 1
      ∨ p.z = 0 ∨ p.z = s.planes.length + 1) :
    (s.grow).get_cell p = Cell.Inactive := by
  rcases hb with hx | hx | hy | hy | hz | hz
  · show ((s.grow).planes.getD p.z (Plane.with_rows [])).get_cell p = _
    rcases Space.grow_plane_cases s p.z with h | ⟨pl0, hpl0, h⟩ | h
    · rw [h, Plane.new_get2d]
    · rw [h]
      exact Plane.grow_border2d pl0 W (hrect pl0 hpl0).2 p (Or.inl hx)
    · rw [h, empty_plane_get]
  · show ((s.grow).planes.getD p.z (Plane.with_rows [])).get_cell p = _
    rcases Space.grow_plane_cases s p.z with h | ⟨pl0, hpl0, h⟩ | h
    · rw [h, Plane.new_get2d]
    · rw [h]
      exact Plane.grow_border2d pl0 W (hrect pl0 hpl0).2 p (Or.inr (Or.inl hx))
    · rw [h, empty_plane_get]
  · show ((s.grow).planes.getD p.z (Plane.with_rows [])).get_cell p = _
    rcases Space.grow_plane_cases s p.z with h | ⟨pl0, hpl0, h⟩ | h
    · rw [h, Plane.new_get2d]
    · rw [h]
      exact Plane.grow_border2d pl0 W (hrect pl0 hpl0).2 p (Or.inr (Or.inr (Or.inl hy)))
    · rw [h, empty_plane_get]
  · show ((s.grow).planes.getD p.z (Plane.with_rows [])).get_cell p = _
    rcases Space.grow_plane_cases s p.z with h | ⟨pl0, hpl0, h⟩ | h
    · rw [h, Plane.new_get2d]
    · rw [h]
      refine Plane.grow_border2d pl0 W (hrect pl0 hpl0).2 p
        (Or.inr (Or.inr (Or.inr ?_)))
      rw [(hrect pl0 hpl0).1]
      exact hy
    · rw [h, empty_plane_get]
  · show ((s.grow).planes.getD p.z (Plane.with_rows [])).get_cell p = _
    rw [hz]
    show ((Plane.new _ _ :: s.planes.map Plane.grow ++ [Plane.new _ _]).getD 0
      (Plane.with_rows [])).get_cell p = _
    show (Plane.new _ _).get_cell p = _
    rw [Plane.new_get2d]
  · show ((s.grow).planes.getD p.z (Plane.with_rows [])).get_cell p = _
    rw [hz]
    show ((Plane.new _ _ :: s.planes.map Plane.grow ++ [Plane.new _ _]).getD
      (s.planes.length + 1) (Plane.with_rows [])).get_cell p = _
    rw [List.cons_append, getD_cons_succ2]
    rw [getD_eq_getElem (s.planes.map Plane.grow ++ [Plane.new _ _]) s.planes.length
      (Plane.with_rows []) (by simp)]
    rw [List.getElem_append_right (by simp)]
    simp only [List.length_map, Nat.sub_self, List.getElem_cons_zero]
    rw [Plane.new_get2d]

theorem empty_space_get (p : Position) :
    (Space.with_planes []).get_cell p = Cell.Inactive := rfl

theorem Space.new_get3d (w h d : Nat) (p : Position) :
    (Space.new w h d).get_cell p = Cell.Inactive := by
  show ((List.replicate d (Plane.new w h)).getD p.z (Plane.with_rows [])).get_cell p = _
  by_cases hz : p.z < d
  · rw [getD_eq_getElem _ p.z (Plane.with_rows []) (by simpa using hz)]
    simp only [List.getElem_replicate]
    exact Plane.new_get2d w h p
  · rw [getD_out _ p.z (Plane.with_rows []) (by simpa using Nat.not_lt.mp hz)]
    exact empty_plane_get p

theorem Space.new_rectD (w h d : Nat) : SpaceRectD (Space.new w h d) w h := by
  intro pl hpl
  have := List.mem_replicate.mp hpl
  rw [this.2]
  exact Plane.new_rect w h

theorem Space.new_depth (w h d : Nat) : (Space.new w h d).planes.length = d := by
  simp [Space.new]

theorem Space.grow_width3d (s : Space) (W H : Nat) (hrect : SpaceRectD s W H)
    (hne : s.planes ≠ []) (hH : H ≠ 0) : (s.grow).width = W + 2 := by
  obtain ⟨hw2, hh2⟩ := Space.grow_head_dims3d s W H hrect hne hH
  show (Plane.new ((s.planes.map Plane.grow).headD (Plane.with_rows [])).width
    ((s.planes.map Plane.grow).headD (Plane.with_rows [])).height).width = W + 2
  rw [hh2, ← hw2]
  show (List.replicate ((s.planes.map Plane.grow).headD (Plane.with_rows [])).width
    Cell.Inactive).length = _
  rw [List.length_replicate]

theorem Space.grow_height3d (s : Space) (W H : Nat) (hrect : SpaceRectD s W H)
    (hne : s.planes ≠ []) (hH : H ≠ 0) : (s.grow).height = H + 2 := by
  obtain ⟨hw2, hh2⟩ := Space.grow_head_dims3d s W H hrect hne hH
  show (Plane.new ((s.planes.map Plane.grow).headD (Plane.with_rows [])).width
    ((s.planes.map Plane.grow).headD (Plane.with_rows [])).height).height = H + 2
  rw [← hh2]
  show (List.replicate _ _).length = _
  rw [List.length_replicate]

theorem HyperSpace.grow_spaces_length (hs : HyperSpace) :
    (hs.grow).spaces.length = hs.spaces.length + 2 := by
  show (Space.new _ _ _ :: hs.spaces.map Space.grow ++ [Space.new _ _ _]).length = _
  simp

theorem HyperSpace.grow_head_dims4d (hs : HyperSpace) (W H D : Nat)
    (hrect : HyperRectD hs W H D) (hne : hs.spaces ≠ []) (hH : H ≠ 0) (hD : D ≠ 0) :
    ((hs.spaces.map Space.grow).headD (Space.with_planes [])).width = W + 2
      ∧ ((hs.spaces.map Space.grow).headD (Space.with_planes [])).height = H + 2
      ∧ ((hs.spaces.map Space.grow).headD (Space.with_planes [])).depth = D + 2 := by
  cases hsp : hs.spaces with
  | nil => exact absurd hsp hne
  | cons sp0 rest =>
    have h0 := hrect sp0 (by rw [hsp]; exact List.mem_cons_self sp0 rest)
    have hne0 : sp0.planes ≠ [] := by
      intro hc
      apply hD
      rw [← h0.1, hc]
      rfl
    show (Space.grow sp0).width = W + 2 ∧ (Space.grow sp0).height = H + 2
      ∧ (Space.grow sp0).depth = D + 2
    refine ⟨Space.grow_width3d sp0 W H h0.2 hne0 hH,
      Space.grow_height3d sp0 W H h0.2 hne0 hH, ?_⟩
    show (Space.grow sp0).planes.length = D + 2
    rw [Space.grow_planes_length, h0.1]

theorem HyperSpace.grow_rect4d (hs : HyperSpace) (W H D : Nat)
    (hrect : HyperRectD hs W H D) (hne : hs.spaces ≠ []) (hH : H ≠ 0) (hD : D ≠ 0) :
    HyperRectD (hs.grow) (W + 2) (H + 2) (D + 2) := by
  obtain ⟨hw2, hh2, hd2⟩ := HyperSpace.grow_head_dims4d hs W H D hrect hne hH hD
  intro sp hsp
  have hsp2 : sp ∈ Space.new ((hs.spaces.map Space.grow).headD
      (Space.with_planes [])).width ((hs.spaces.map Space.grow).headD
      (Space.with_planes [])).height ((hs.spaces.map Space.grow).headD
      (Space.with_planes [])).depth
      :: hs.spaces.map Space.grow
      ++ [Space.new ((hs.spaces.map Space.grow).headD (Space.with_planes [])).width
          ((hs.spaces.map Space.grow).headD (Space.with_planes [])).height
          ((hs.spaces.map Space.grow).headD (Space.with_planes [])).depth] := hsp
  have hnewcase : ∀ q : Space, q = Space.new ((hs.spaces.map Space.grow).headD
      (Space.with_planes [])).width ((hs.spaces.map Space.grow).headD
      (Space.with_planes [])).height ((hs.spaces.map Space.grow).headD
      (Space.with_planes [])).depth →
      q.planes.length = D + 2
        ∧ ∀ pl ∈ q.planes, pl.rows.length = H + 2 ∧ ∀ r ∈ pl.rows, r.length = W + 2 := by
    intro q hq
    rw [hq]
    constructor
    · rw [Space.new_depth, hd2]
    · intro pl hpl
      have h2 := Space.new_rectD _ _ _ pl hpl
      exact ⟨h2.1.trans hh2, fun r hr => (h2.2 r hr).trans hw2⟩
  rcases List.mem_cons.mp hsp2 with h | h
  · exact hnewcase sp h
  · rcases List.mem_append.mp h with h | h
    · obtain ⟨sp0, hsp0, hspe⟩ := List.mem_map.mp h
      have h0 := hrect sp0 hsp0
      have hne0 : sp0.planes ≠ [] := by
        intro hc
        apply hD
        rw [← h0.1, hc]
        rfl
      rw [← hspe]
      constructor
      · rw [Space.grow_planes_length, h0.1]
      · exact Space.grow_rect3d sp0 W H h0.2 hne0 hH
    · rcases List.mem_cons.mp h with h | h
      · exact hnewcase sp h
      · cases h

theorem HyperSpace.grow_get4d (hs : HyperSpace) (x y z w : Nat) :
    (hs.grow).get_cell ⟨x + 1, y + 1, z + 1, w + 1⟩ = hs.get_cell ⟨x, y, z, w⟩ := by
  show ((Space.new _ _ _ :: hs.spaces.map Space.grow ++ [Space.new _ _ _]).getD (w + 1)
    (Space.with_planes [])).get_cell ⟨x + 1, y + 1, z + 1, w + 1⟩
    = (hs.spaces.getD w (Space.with_planes [])).get_cell ⟨x, y, z, w⟩
  rw [List.cons_append, getD_cons_succ2]
  by_cases h : w < hs.spaces.length
  · rw [getD_eq_getElem (hs.spaces.map Space.grow ++ [Space.new _ _ _]) w
      (Space.with_planes []) (by simp [List.length_append]; omega)]
    rw [List.getElem_append_left (by simpa using h)]
    rw [List.getElem_map]
    rw [Space.grow_get3d]
    rw [getD_eq_getElem hs.spaces w (Space.with_planes []) h]
  · by_cases h2 : w = hs.spaces.length
    · subst h2
      rw [getD_eq_getElem (hs.spaces.map Space.grow ++ [Space.new _ _ _])
        hs.spaces.length (Space.with_planes []) (by simp)]
      rw [List.getElem_append_right (by simp)]
      rw [getD_out hs.spaces hs.spaces.length (Space.with_planes []) (le_refl _)]
      simp only [List.length_map, Nat.sub_self, List.getElem_cons_zero]
      rw [Space.new_get3d, empty_space_get]
    · rw [getD_out (hs.spaces.map Space.grow ++ [Space.new _ _ _]) w
        (Space.with_planes []) (by simp; omega),
        getD_out hs.spaces w (Space.with_planes []) (by omega)]
      rw [empty_space_get, empty_space_get]

theorem HyperSpace.grow_space_cases (hs : HyperSpace) (w : Nat) :
    (hs.grow).spaces.getD w (Space.with_planes [])
        = Space.new ((hs.spaces.map Space.grow).headD (Space.with_planes [])).width
            ((hs.spaces.map Space.grow).headD (Space.with_planes [])).height
            ((hs.spaces.map Space.grow).headD (Space.with_planes [])).depth
      ∨ (∃ sp ∈ hs.spaces,
          (hs.grow).spaces.getD w (Space.with_planes []) = Space.grow sp)
      ∨ (hs.grow).spaces.getD w (Space.with_planes []) = Space.with_planes [] := by
  by_cases h : w < (hs.grow).spaces.length
  · have hmem : (hs.grow).spaces.getD w (Space.with_planes []) ∈ (hs.grow).spaces := by
      rw [getD_eq_getElem _ w (Space.with_planes []) h]
      exact List.getElem_mem h
    have hmem2 : (hs.grow).spaces.getD w (Space.with_planes [])
        ∈ Space.new ((hs.spaces.map Space.grow).headD (Space.with_planes [])).width
            ((hs.spaces.map Space.grow).headD (Space.with_planes [])).height
            ((hs.spaces.map Space.grow).headD (Space.with_planes [])).depth
          :: hs.spaces.map Space.grow
          ++ [Space.new ((hs.spaces.map Space.grow).headD
                (Space.with_planes [])).width
              ((hs.spaces.map Space.grow).headD (Space.with_planes [])).height
              ((hs.spaces.map Space.grow).headD (Space.with_planes [])).depth] := hmem
    rcases List.mem_cons.mp hmem2 with h2 | h2
    · exact Or.inl h2
    · rcases List.mem_append.mp h2 with h3 | h3
      · obtain ⟨sp0, hsp0, hspe⟩ := List.mem_map.mp h3
        exact Or.inr (Or.inl ⟨sp0, hsp0, hspe.symm⟩)
      · rcases List.mem_cons.mp h3 with h4 | h4
        · exact Or.inl h4
        · cases h4
  · exact Or.inr (Or.inr (getD_out _ w (Space.with_planes []) (Nat.not_lt.mp h)))

theorem HyperSpace.grow_border4d (hs : HyperSpace) (W H D : Nat)
    (hrect : HyperRectD hs W H D) (p : Position)
    (hb : p.x = 0 ∨ p.x = W + 1 ∨ p.y = 0 ∨ p.y = H + 1 ∨ p.z = 0 ∨ p.z = D + 1
      ∨ p.w = 0 ∨ p.w = hs.spaces.length + 1) :
    (hs.grow).get_cell p = Cell.Inactive := by
  rcases hb with hx | hx | hy | hy | hz | hz | hw | hw
  case inr.inr.inr.inr.inr.inr.inl =>
    show ((hs.grow).spaces.getD p.w (Space.with_planes [])).get_cell p = _
    rw [hw]
    show ((Space.new _ _ _ :: hs.spaces.map Space.grow ++ [Space.new _ _ _]).getD 0
      (Space.with_planes [])).get_cell p = _
    show (Space.new _ _ _).get_cell p = _
    rw [Space.new_get3d]
  case inr.inr.inr.inr.inr.inr.inr =>
    show ((hs.grow).spaces.getD p.w (Space.with_planes [])).get_cell p = _
    rw [hw]
    show ((Space.new _ _ _ :: hs.spaces.map Space.grow ++ [Space.new _ _ _]).getD
      (hs.spaces.length + 1) (Space.with_planes [])).get_cell p = _
    rw [List.cons_append, getD_cons_succ2]
    rw [getD_eq_getElem (hs.spaces.map Space.grow ++ [Space.new _ _ _])
      hs.spaces.length (Space.with_planes []) (by simp)]
    rw [List.getElem_append_right (by simp)]
    simp only [List.length_map, Nat.sub_self, List.getElem_cons_zero]
    rw [Space.new_get3d]
  all_goals
    show ((hs.grow).spaces.getD p.w (Space.with_planes [])).get_cell p = _
  all_goals
    rcases HyperSpace.grow_space_cases hs p.w with h | ⟨sp0, hsp0, h⟩ | h
  case inl.inl =>
    rw [h, Space.new_get3d]
  case inl.inr.inl.intro.intro =>
    rw [h]
    exact Space.grow_border3d sp0 W H (hrect sp0 hsp0).2 p (Or.inl hx)
  case inl.inr.inr =>
    rw [h, empty_space_get]
  case inr.inl.inl =>
    rw [h, Space.new_get3d]
  case inr.inl.inr.inl.intro.intro =>
    rw [h]
    exact Space.grow_border3d sp0 W H (hrect sp0 hsp0).2 p (Or.inr (Or.inl hx))
  case inr.inl.inr.inr =>
    rw [h, empty_space_get]
  case inr.inr.inl.inl =>
    rw [h, Space.new_get3d]
  case inr.inr.inl.inr.inl.intro.intro =>
    rw [h]
    exact Space.grow_border3d sp0 W H (hrect sp0 hsp0).2 p (Or.inr (Or.inr (Or.inl hy)))
  case inr.inr.inl.inr.inr =>
    rw [h, empty_space_get]
  case inr.inr.inr.inl.inl =>
    rw [h, Space.new_get3d]
  case inr.inr.inr.inl.inr.inl.intro.intro =>
    rw [h]
    exact Space.grow_border3d sp0 W H (hrect sp0 hsp0).2 p
      (Or.inr (Or.inr (Or.inr (Or.inl hy))))
  case inr.inr.inr.inl.inr.inr =>
    rw [h, empty_space_get]
  case inr.inr.inr.inr.inl.inl =>
    rw [h, Space.new_get3d]
  case inr.inr.inr.inr.inl.inr.inl.intro.intro =>
    rw [h]
    exact Space.grow_border3d sp0 W H (hrect sp0 hsp0).2 p
      (Or.inr (Or.inr (Or.inr (Or.inr (Or.inl hz)))))
  case inr.inr.inr.inr.inl.inr.inr =>
    rw [h, empty_space_get]
  case inr.inr.inr.inr.inr.inl.inl =>
    rw [h, Space.new_get3d]
  case inr.inr.inr.inr.inr.inl.inr.inl.intro.intro =>
    rw [h]
    refine Space.grow_border3d sp0 W H (hrect sp0 hsp0).2 p
      (Or.inr (Or.inr (Or.inr (Or.inr (Or.inr ?_)))))
    rw [(hrect sp0 hsp0).1]
    exact hz
  case inr.inr.inr.inr.inr.inl.inr.inr =>
    rw [h, empty_space_get]

end Seventeen

/-- C1: one generation step (`tick` / `tick2` for seating, `Space::tick` /
`HyperSpace::tick` for life) computes every cell's next state from the
pre-generation snapshot: the scan collects all changes before any write is
applied, so the resulting grid equals the synchronous reference transition
`syncNext` (for life, of the grown grid the scan runs on). -/
theorem C1_generation_is_synchronous :
    (∀ b : Eleven.Board, b.rect →
        b.tick = b.syncNext Eleven.Board.adjacent Eleven.tickRule
          ∧ b.tick2 = b.syncNext Eleven.Board.visible Eleven.tick2Rule)
      ∧ (∀ s : Seventeen.Space, s.tick = (s.grow).syncNext)
      ∧ (∀ hs : Seventeen.HyperSpace, hs.tick = (hs.grow).syncNext) := by
  refine ⟨fun b hb => ⟨?_, ?_⟩, fun s => ?_, fun hs => ?_⟩
  · exact Eleven.tickWith_eq_sync b hb Eleven.Board.adjacent Eleven.tickRule
  · exact Eleven.tickWith_eq_sync b hb Eleven.Board.visible Eleven.tick2Rule
  · exact (Seventeen.Space.tick_def3d s).trans (Seventeen.space_scan_eq_sync s.grow)
  · exact (Seventeen.HyperSpace.tick_def4d hs).trans
      (Seventeen.hyper_scan_eq_sync hs.grow)

theorem C1_generation_is_synchronous_witness :
    (⟨[[Eleven.Cell.EmptySeat, Eleven.Cell.OccupiedSeat],
        [Eleven.Cell.Floor, Eleven.Cell.EmptySeat]]⟩ : Eleven.Board).tick
      = (⟨[[Eleven.Cell.EmptySeat, Eleven.Cell.OccupiedSeat],
          [Eleven.Cell.Floor, Eleven.Cell.EmptySeat]]⟩ : Eleven.Board).syncNext
          Eleven.Board.adjacent Eleven.tickRule :=
  (C1_generation_is_synchronous.1
    ⟨[[Eleven.Cell.EmptySeat, Eleven.Cell.OccupiedSeat],
      [Eleven.Cell.Floor, Eleven.Cell.EmptySeat]]⟩ (by decide)).1

theorem iterTick_eq_iterate {α : Type} (f : α → α) :
    ∀ (n : Nat) (s : α), Seventeen.iterTick f n s = f^[n] s := by
  intro n
  induction n with
  | zero => intro s; rfl
  | succ k ih =>
    intro s
    show Seventeen.iterTick f k (f s) = _
    rw [ih, Function.iterate_succ_apply]

/-- C4: the life drivers perform exactly 6 generations (6 iterations of the
respective tick) and then stop, each generation first grows the grid and only
then runs the transition scan, and the observed result is the final grid's
`count_active`. -/
theorem C4_life_driver_six_generations :
    (∀ rows : List Seventeen.Row,
        Seventeen.run_space rows
          = (Seventeen.Space.tick^[6]
              (Seventeen.Space.with_planes
                [Seventeen.Plane.with_rows rows])).count_active
          ∧ Seventeen.run_hyperspace rows
            = (Seventeen.HyperSpace.tick^[6]
                (Seventeen.HyperSpace.with_spaces
                  [Seventeen.Space.with_planes
                    [Seventeen.Plane.with_rows rows]])).count_active)
      ∧ (∀ s : Seventeen.Space,
          s.tick = (s.grow).apply_changes ((s.grow).changes))
      ∧ (∀ hs : Seventeen.HyperSpace,
          hs.tick = (hs.grow).apply_changes ((hs.grow).changes)) := by
  refine ⟨fun rows => ⟨?_, ?_⟩, fun s => Seventeen.Space.tick_def3d s,
    fun hs => Seventeen.HyperSpace.tick_def4d hs⟩
  · show (Seventeen.iterTick Seventeen.Space.tick 6 _).count_active = _
    rw [iterTick_eq_iterate]
  · show (Seventeen.iterTick Seventeen.HyperSpace.tick 6 _).count_active = _
    rw [iterTick_eq_iterate]

/-- C5: for every rectangular life grid, `grow` enlarges every dimension's
extent by exactly 2 (one layer prepended and one appended per dimension),
every old cell reappears at the position shifted by +1 in each grid dimension,
and every newly created border cell is Inactive. -/
theorem C5_grow_adds_one_border_layer_per_dimension :
    (∀ (pl : Seventeen.Plane) (W : Nat),
        (∀ r ∈ pl.rows, r.length = W) → pl.rows ≠ [] →
          (pl.grow).rows.length = pl.rows.length + 2
            ∧ (pl.grow).width = W + 2
            ∧ (∀ r ∈ (pl.grow).rows, r.length = W + 2)
            ∧ (∀ x y z w : Nat,
                (pl.grow).get_cell ⟨x + 1, y + 1, z, w⟩ = pl.get_cell ⟨x, y, z, w⟩)
            ∧ (∀ p : Seventeen.Position,
                (p.x = 0 ∨ p.x = W + 1 ∨ p.y = 0 ∨ p.y = pl.rows.length + 1) →
                  (pl.grow).get_cell p = Seventeen.Cell.Inactive))
      ∧ (∀ (s : Seventeen.Space) (W H : Nat),
          Seventeen.SpaceRectD s W H → s.planes ≠ [] → H ≠ 0 →
            (s.grow).planes.length = s.planes.length + 2
              ∧ Seventeen.SpaceRectD (s.grow) (W + 2) (H + 2)
              ∧ (∀ x y z w : Nat,
                  (s.grow).get_cell ⟨x + 1, y + 1, z + 1, w⟩
                    = s.get_cell ⟨x, y, z, w⟩)
              ∧ (∀ p : Seventeen.Position,
                  (p.x = 0 ∨ p.x = W + 1 ∨ p.y = 0 ∨ p.y = H + 1
                    ∨ p.z = 0 ∨ p.z = s.planes.length + 1) →
                    (s.grow).get_cell p = Seventeen.Cell.Inactive))
      ∧ (∀ (hs : Seventeen.HyperSpace) (W H D : Nat),
          Seventeen.HyperRectD hs W H D → hs.spaces ≠ [] → H ≠ 0 → D ≠ 0 →
            (hs.grow).spaces.length = hs.spaces.length + 2
              ∧ Seventeen.HyperRectD (hs.grow) (W + 2) (H + 2) (D + 2)
              ∧ (∀ x y z w : Nat,
                  (hs.grow).get_cell ⟨x + 1, y + 1, z + 1, w + 1⟩
                    = hs.get_cell ⟨x, y, z, w⟩)
              ∧ (∀ p : Seventeen.Position,
                  (p.x = 0 ∨ p.x = W + 1 ∨ p.y = 0 ∨ p.y = H + 1
                    ∨ p.z = 0 ∨ p.z = D + 1
                    ∨ p.w = 0 ∨ p.w = hs.spaces.length + 1) →
                    (hs.grow).get_cell p = Seventeen.Cell.Inactive)) := by
  refine ⟨fun pl W hW hne => ?_, fun s W H hrect hne hH => ?_,
    fun hs W H D hrect hne hH hD => ?_⟩
  · exact ⟨Seventeen.Plane.grow_rows_length pl,
      Seventeen.Plane.grow_width2d pl W hW hne,
      Seventeen.Plane.grow_widths pl W hW hne,
      fun x y z w => Seventeen.Plane.grow_get2d pl x y z w z w,
      fun p hb => Seventeen.Plane.grow_border2d pl W hW p hb⟩
  · exact ⟨Seventeen.Space.grow_planes_length s,
      Seventeen.Space.grow_rect3d s W H hrect hne hH,
      fun x y z w => Seventeen.Space.grow_get3d s x y z w w,
      fun p hb => Seventeen.Space.grow_border3d s W H hrect p hb⟩
  · exact ⟨Seventeen.HyperSpace.grow_spaces_length hs,
      Seventeen.HyperSpace.grow_rect4d hs W H D hrect hne hH hD,
      fun x y z w => Seventeen.HyperSpace.grow_get4d hs x y z w,
      fun p hb => Seventeen.HyperSpace.grow_border4d hs W H D hrect p hb⟩

theorem C5_grow_adds_one_border_layer_per_dimension_witness :
    ((Seventeen.Plane.with_rows
        [[Seventeen.Cell.Active, Seventeen.Cell.Inactive]]).grow).rows.length
        = (Seventeen.Plane.with_rows
            [[Seventeen.Cell.Active, Seventeen.Cell.Inactive]]).rows.length + 2
      ∧ ((Seventeen.Plane.with_rows
          [[Seventeen.Cell.Active, Seventeen.Cell.Inactive]]).grow).width = 2 + 2
      ∧ ((Seventeen.Space.with_planes
          [Seventeen.Plane.with_rows
            [[Seventeen.Cell.Active, Seventeen.Cell.Inactive]]]).grow).get_cell
          ⟨0 + 1, 0 + 1, 0 + 1, 0⟩
        = (Seventeen.Space.with_planes
            [Seventeen.Plane.with_rows
              [[Seventeen.Cell.Active, Seventeen.Cell.Inactive]]]).get_cell
            ⟨0, 0, 0, 0⟩ := by
  refine ⟨?_, ?_, ?_⟩
  · exact (C5_grow_adds_one_border_layer_per_dimension.1
      (Seventeen.Plane.with_rows [[Seventeen.Cell.Active, Seventeen.Cell.Inactive]])
      2 (by decide) (by decide)).1
  · exact (C5_grow_adds_one_border_layer_per_dimension.1
      (Seventeen.Plane.with_rows [[Seventeen.Cell.Active, Seventeen.Cell.Inactive]])
      2 (by decide) (by decide)).2.1
  · exact (C5_grow_adds_one_border_layer_per_dimension.2.1
      (Seventeen.Space.with_planes
        [Seventeen.Plane.with_rows
          [[Seventeen.Cell.Active, Seventeen.Cell.Inactive]]])
      2 1 (by decide) (by decide) (by decide)).2.2.1 0 0 0 0

theorem Eleven.shape_rect (b b2 : Board)
    (hlen : b2.rows.length = b.rows.length)
    (hrow : ∀ y : Nat, (b2.rows.getD y []).length = (b.rows.getD y []).length)
    (hrect : b.rect) : b2.rect ∧ b2.width = b.width := by
  have hwidth : b2.width = b.width := by
    show (b2.rows.headD []).length = (b.rows.headD []).length
    cases hb : b.rows with
    | nil =>
      cases hb2 : b2.rows with
      | nil => rfl
      | cons r2 t2 => rw [hb, hb2] at hlen; simp at hlen
    | cons r t =>
      cases hb2 : b2.rows with
      | nil => rw [hb, hb2] at hlen; simp at hlen
      | cons r2 t2 =>
        have h0 := hrow 0
        rw [hb, hb2] at h0
        exact h0
  refine ⟨?_, hwidth⟩
  intro r hr
  obtain ⟨i, hi, hieq⟩ := List.mem_iff_getElem.mp hr
  have h1 : r.length = (b2.rows.getD i []).length := by
    rw [getD_eq_getElem b2.rows i [] hi, hieq]
  have hi2 : i < b.rows.length := by rw [← hlen]; exact hi
  have h2 : (b.rows.getD i []).length = b.width := by
    rw [getD_eq_getElem b.rows i [] hi2]
    exact hrect _ (List.getElem_mem hi2)
  rw [h1, hrow i, h2, hwidth]

/-- C9: on rectangular grids, `set_cell`, `apply_changes` and a seating
generation (`tick` / `tick2`) preserve rectangularity and leave the row count
and every row's length (hence the extents) unchanged; `Plane::grow` is the
operation that changes extents, producing a strictly larger rectangular grid
whose interior equals the old grid. -/
theorem C9_rectangularity_and_extent_invariants :
    (∀ (b : Eleven.Board) (p : Eleven.Position) (c : Eleven.Cell),
        (b.set_cell p c).rows.length = b.rows.length
          ∧ (∀ y : Nat, ((b.set_cell p c).rows.getD y []).length
              = (b.rows.getD y []).length)
          ∧ (b.rect →
              (b.set_cell p c).rect ∧ (b.set_cell p c).width = b.width))
      ∧ (∀ (b : Eleven.Board) (ch : List (Eleven.Position × Eleven.Cell)),
          (b.apply_changes ch).rows.length = b.rows.length
            ∧ (∀ y : Nat, ((b.apply_changes ch).rows.getD y []).length
                = (b.rows.getD y []).length)
            ∧ (b.rect → (b.apply_changes ch).rect
                ∧ (b.apply_changes ch).width = b.width))
      ∧ (∀ b : Eleven.Board,
          b.tick.rows.length = b.rows.length
            ∧ b.tick2.rows.length = b.rows.length
            ∧ (b.rect → b.tick.rect ∧ b.tick.width = b.width
                ∧ b.tick2.rect ∧ b.tick2.width = b.width))
      ∧ (∀ (pl : Seventeen.Plane) (W : Nat),
          (∀ r ∈ pl.rows, r.length = W) → pl.rows ≠ [] →
            pl.rows.length < (pl.grow).rows.length
              ∧ W < (pl.grow).width
              ∧ (∀ r ∈ (pl.grow).rows, r.length = (pl.grow).width)
              ∧ (∀ x y z w : Nat,
                  (pl.grow).get_cell ⟨x + 1, y + 1, z, w⟩
                    = pl.get_cell ⟨x, y, z, w⟩)) := by
  refine ⟨fun b p c => ?_, fun b ch => ?_, fun b => ?_, fun pl W hW hne => ?_⟩
  · exact ⟨Eleven.set_cell_rows_length b p c,
      fun y => Eleven.set_cell_row_length b p c y,
      fun hrect => Eleven.shape_rect b (b.set_cell p c)
        (Eleven.set_cell_rows_length b p c)
        (fun y => Eleven.set_cell_row_length b p c y) hrect⟩
  · exact ⟨Eleven.apply_changes_rows_length ch b,
      fun y => Eleven.apply_changes_row_length ch b y,
      fun hrect => Eleven.shape_rect b (b.apply_changes ch)
        (Eleven.apply_changes_rows_length ch b)
        (fun y => Eleven.apply_changes_row_length ch b y) hrect⟩
  · refine ⟨Eleven.apply_changes_rows_length _ b,
      Eleven.apply_changes_rows_length _ b, fun hrect => ?_⟩
    have h1 := Eleven.shape_rect b b.tick
      (Eleven.apply_changes_rows_length _ b)
      (fun y => Eleven.apply_changes_row_length _ b y) hrect
    have h2 := Eleven.shape_rect b b.tick2
      (Eleven.apply_changes_rows_length _ b)
      (fun y => Eleven.apply_changes_row_length _ b y) hrect
    exact ⟨h1.1, h1.2, h2.1, h2.2⟩
  · refine ⟨?_, ?_, ?_, fun x y z w => Seventeen.Plane.grow_get2d pl x y z w z w⟩
    · rw [Seventeen.Plane.grow_rows_length]
      omega
    · rw [Seventeen.Plane.grow_width2d pl W hW hne]
      omega
    · intro r hr
      rw [Seventeen.Plane.grow_width2d pl W hW hne]
      exact Seventeen.Plane.grow_widths pl W hW hne r hr

theorem C9_rectangularity_and_extent_invariants_witness :
    ((⟨[[Eleven.Cell.EmptySeat, Eleven.Cell.OccupiedSeat],
        [Eleven.Cell.EmptySeat, Eleven.Cell.Floor]]⟩ : Eleven.Board).tick).width
      = (⟨[[Eleven.Cell.EmptySeat, Eleven.Cell.OccupiedSeat],
          [Eleven.Cell.EmptySeat, Eleven.Cell.Floor]]⟩ : Eleven.Board).width
    ∧ 1 < ((Seventeen.Plane.with_rows [[Seventeen.Cell.Active]]).grow).rows.length := by
  constructor
  · exact ((C9_rectangularity_and_extent_invariants.2.2.1
      ⟨[[Eleven.Cell.EmptySeat, Eleven.Cell.OccupiedSeat],
        [Eleven.Cell.EmptySeat, Eleven.Cell.Floor]]⟩).2.2 (by decide)).2.1
  · exact (C9_rectangularity_and_extent_invariants.2.2.2
      (Seventeen.Plane.with_rows [[Seventeen.Cell.Active]]) 1
      (by decide) (by decide)).1
